import Mathlib

/-!
Verification of the tendertransformer Normalization & Ingestion Core.

This file gives a shallow embedding, in Lean 4, of the JavaScript
normalization pipeline and batch orchestrator of the repository
(processingService.js, tenderNormalizer.js, BaseSourceAdapter.js) and
proves or refutes the specification claims about them.

Modeling conventions, used throughout:
* JavaScript values flowing through the duck-typed records are modeled by
  the inductive type JsVal; records (plain JS objects used as string-keyed
  maps) by association lists RMap that preserve key insertion order, as JS
  objects do.
* JS numbers are modeled by exact rationals plus NaN and the two
  infinities.  Rounding of decimal literals to binary64 is abstracted: all
  numeric values appearing in the theorems below are exactly representable
  in binary64, so the abstraction is faithful on every input a theorem
  touches.
* Timestamp strings (ISO date-time strings such as the values of
  updated_at and normalized_at) are abstracted to their epoch-millisecond
  value via the constructor JsVal.tstamp; the runtime timezone is assumed
  to be UTC, which is the deployment default, so local-time and UTC
  renderings agree.
* The completion service (LLM) and the JSON-repair ladder are external to
  the core per spec section 6; they are modeled by their observable
  outcome (LlmAttempt), supplied as an oracle to the orchestrator model.
* String length is code points; all strings exercised by the theorems are
  ASCII, where this agrees with the JS UTF-16 length.
-/

namespace TT

/-- Model of a JavaScript number: an exact rational, NaN or an infinity. -/
inductive JsNum where
  | fin (q : ℚ)
  | nan
  | inf
  | ninf
  deriving DecidableEq, Repr

/-- Model of a JavaScript value as stored in the record maps. tstamp
abstracts an ISO timestamp string by its epoch milliseconds; objv embeds a
nested record (used for original_data); arrDocs models the document_links
arrays of objects with title and url. -/
inductive JsVal where
  | undef
  | jnull
  | str (s : String)
  | num (n : JsNum)
  | tstamp (ms : ℕ)
  | objv (fields : List (String × JsVal))
  | arrDocs (docs : List (String × String))

/-- Truthiness of a JsVal, following JavaScript: undefined, null, the empty
string, 0 and NaN are falsy; arrays and objects are truthy. -/
def truthy : JsVal → Bool
  | .undef => false
  | .jnull => false
  | .str s => !s.isEmpty
  | .num (.fin q) => q ≠ 0
  | .num .nan => false
  | .num _ => true
  | .tstamp _ => true
  | .objv _ => true
  | .arrDocs _ => true

/-- A JS object used as a string-keyed record, with insertion order. -/
abbrev RMap := List (String × JsVal)

/-- Property read m[k]; absent keys read as undefined. -/
def rget (m : RMap) (k : String) : JsVal :=
  match m.find? (fun p => p.1 = k) with
  | some p => p.2
  | none => JsVal.undef

/-- Property write m[k] = v: updates in place when the key exists (keeping
its position, as JS objects do) and appends otherwise. -/
def rset (m : RMap) (k : String) (v : JsVal) : RMap :=
  if m.any (fun p => p.1 = k) then
    m.map (fun p => if p.1 = k then (k, v) else p)
  else
    m ++ [(k, v)]

/-- Property delete. -/
def rdel (m : RMap) (k : String) : RMap :=
  m.filter (fun p => p.1 ≠ k)

/-- Read of a field as a string, when it holds one. -/
def getStr (m : RMap) (k : String) : Option String :=
  match rget m k with
  | .str s => some s
  | _ => none

/-- Read of a field as a timestamp, when it holds one. -/
def getTs (m : RMap) (k : String) : Option ℕ :=
  match rget m k with
  | .tstamp n => some n
  | _ => none

/-! Character classes used by the regular expressions of the source. -/

/-- ASCII decimal digit. -/
def isDigitC (c : Char) : Bool := 48 ≤ c.toNat ∧ c.toNat ≤ 57

/-- ASCII uppercase letter (the class A-Z of the source patterns). -/
def isUpperC (c : Char) : Bool := 65 ≤ c.toNat ∧ c.toNat ≤ 90

/-- ASCII lowercase letter. -/
def isLowerC (c : Char) : Bool := 97 ≤ c.toNat ∧ c.toNat ≤ 122

/-- ASCII letter, the class A-Z under the i flag. -/
def isAlphaC (c : Char) : Bool := isUpperC c ∨ isLowerC c

/-- JS regex word character: [A-Za-z0-9_]. -/
def isWordC (c : Char) : Bool := isAlphaC c ∨ isDigitC c ∨ c = '_'

/-- JS whitespace, restricted to its ASCII members, which are the only
whitespace characters occurring in the data handled here. -/
def isSpaceC (c : Char) : Bool :=
  c = ' ' ∨ c = '\t' ∨ c = '\n' ∨ c = '\r' ∨ c = '\x0b' ∨ c = '\x0c'

/-- ASCII-range toLowerCase on a character, as Char.toLower. -/
def lowC (c : Char) : Char := c.toLower

/-- ASCII-range toUpperCase on a character, as Char.toUpper. -/
def upC (c : Char) : Char := c.toUpper

/-- String.prototype.toLowerCase. -/
def jsLower (s : String) : String := ⟨s.data.map lowC⟩

/-- String.prototype.toUpperCase. -/
def jsUpper (s : String) : String := ⟨s.data.map upC⟩

/-- String.prototype.trim: strips leading and trailing whitespace. -/
def jsTrim (l : List Char) : List Char :=
  ((l.dropWhile isSpaceC).reverse.dropWhile isSpaceC).reverse

/-- Digit character for a digit value below ten. -/
def digitChar : ℕ → Char
  | 0 => '0'
  | 1 => '1'
  | 2 => '2'
  | 3 => '3'
  | 4 => '4'
  | 5 => '5'
  | 6 => '6'
  | 7 => '7'
  | 8 => '8'
  | _ => '9' 

/-- Numeric value of a list of digit characters, most significant first. -/
def digitsVal (l : List Char) : ℕ :=
  l.foldl (fun a c => 10 * a + (c.toNat - 48)) 0

/-- Two-digit zero-padded rendering, as used by toISOString. -/
def pad2 (n : ℕ) : List Char := [digitChar (n / 10), digitChar (n % 10)]

/-- Four-digit zero-padded rendering, as used by toISOString. -/
def pad4 (n : ℕ) : List Char :=
  [digitChar (n / 1000), digitChar (n / 100 % 10),
   digitChar (n / 10 % 10), digitChar (n % 10)]

/-! Model of the JavaScript Date built-ins, under a UTC runtime. -/

/-- Gregorian leap-year test. -/
def isLeap (y : ℕ) : Bool := y % 4 = 0 ∧ (y % 100 ≠ 0 ∨ y % 400 = 0)

/-- Number of days of a month. -/
def daysInMonth (y m : ℕ) : ℕ :=
  if m = 2 then (if isLeap y then 29 else 28)
  else if m = 4 ∨ m = 6 ∨ m = 9 ∨ m = 11 then 30
  else 31

/-- Validity of a calendar date, as enforced by the Date parser. -/
def validDate (y m d : ℕ) : Bool :=
  1 ≤ m ∧ m ≤ 12 ∧ 1 ≤ d ∧ d ≤ daysInMonth y m

/-- Civil date of a day count since 1970-01-01 (standard era algorithm),
used to render tstamp values back to calendar dates. -/
def civilFromDays (z : ℕ) : ℕ × ℕ × ℕ :=
  let z' := z + 719468
  let era := z' / 146097
  let doe := z' % 146097
  let yoe := (doe - doe / 1460 + doe / 36524 - doe / 146096) / 365
  let y := yoe + era * 400
  let doy := doe - (365 * yoe + yoe / 4 - yoe / 100)
  let mp := (5 * doy + 2) / 153
  let d := doy - (153 * mp + 2) / 5 + 1
  let m := if mp < 10 then mp + 3 else mp - 9
  (if m ≤ 2 then y + 1 else y, m, d)

/-- Day count since 1970-01-01 of a civil date (standard era algorithm). -/
def daysFromCivil (y m d : ℕ) : ℤ :=
  let y' := if m ≤ 2 then y - 1 else y
  let era := y' / 400
  let yoe := y' % 400
  let doy := (153 * (if 2 < m then m - 3 else m + 9) + 2) / 5 + d - 1
  let doe := yoe * 365 + yoe / 4 - yoe / 100 + doy
  (era : ℤ) * 146097 + (doe : ℤ) - 719468

/-- Epoch milliseconds of a calendar date at UTC midnight. -/
def dateMs (ymd : ℕ × ℕ × ℕ) : ℤ := daysFromCivil ymd.1 ymd.2.1 ymd.2.2 * 86400000

/-- Split of a character list on a separator character. -/
def splitOnC (sep : Char) : List Char → List (List Char)
  | [] => [[]]
  | c :: rest =>
    let r := splitOnC sep rest
    if c = sep then [] :: r
    else
      match r with
      | h :: t => (c :: h) :: t
      | [] => [[c]]

/-- Parse of the US month-first numeric calendar-date family accepted by
the V8 fallback date parser: one-or-two-digit month, separator, one-or-two
digit day, separator, four-digit year; the date must be in range. -/
def usTriple (sep : Char) (l : List Char) : Option (ℕ × ℕ × ℕ) :=
  match splitOnC sep l with
  | [a, b, c] =>
    if a ≠ [] ∧ a.length ≤ 2 ∧ a.all isDigitC ∧
       b ≠ [] ∧ b.length ≤ 2 ∧ b.all isDigitC ∧
       c.length = 4 ∧ c.all isDigitC then
      let mo := digitsVal a
      let da := digitsVal b
      let y := digitsVal c
      if validDate y mo da then some (y, mo, da) else none
    else none
  | _ => none

/-- Model of new Date(string) restricted to its numeric calendar-date
families: the ISO form YYYY-MM-DD (parsed as UTC, per ECMA-262) and the V8
fallback forms M/D/YYYY and M-D-YYYY (parsed as local time, equal to UTC
under the assumed UTC runtime).  Strings outside these families - none of
which appear in any theorem below - are treated as unparsable. -/
def jsDateParse (s : String) : Option (ℕ × ℕ × ℕ) :=
  match s.data with
  | [y1, y2, y3, y4, s1, m1, m2, s2, d1, d2] =>
    if s1 = '-' ∧ s2 = '-' ∧ isDigitC y1 ∧ isDigitC y2 ∧ isDigitC y3 ∧
       isDigitC y4 ∧ isDigitC m1 ∧ isDigitC m2 ∧ isDigitC d1 ∧ isDigitC d2 then
      let y := digitsVal [y1, y2, y3, y4]
      let m := digitsVal [m1, m2]
      let d := digitsVal [d1, d2]
      if validDate y m d then some (y, m, d) else none
    else
      match usTriple '/' s.data with
      | some r => some r
      | none => usTriple '-' s.data
  | l =>
    match usTriple '/' l with
    | some r => some r
    | none => usTriple '-' l

/-- Rendering of a date as YYYY-MM-DD, the value of
toISOString().split('T')[0] under the UTC runtime. -/
def renderIsoDate (y m d : ℕ) : String :=
  ⟨pad4 y ++ '-' :: pad2 m ++ '-' :: pad2 d⟩

/-- Composition new Date(s).toISOString().split('T')[0] on a string,
returning none when the date is invalid (where the source's toISOString
would throw and be caught). -/
def parseToIso (s : String) : Option String :=
  (jsDateParse s).map fun ymd => renderIsoDate ymd.1 ymd.2.1 ymd.2.2

/-- Date reading of a JsVal: strings through the parser, timestamps
through their epoch value. -/
def jsValToDate : JsVal → Option (ℕ × ℕ × ℕ)
  | .str s => jsDateParse s
  | .tstamp n => some (civilFromDays (n / 86400000))
  | _ => none

/-- Epoch milliseconds of a date-valued JsVal (getTime of new Date(v)). -/
def jsValDateMs (v : JsVal) : Option ℤ :=
  match v with
  | .tstamp n => some (n : ℤ)
  | _ => (jsValToDate v).map dateMs

/-- Model of parseFloat on the character data reaching it in this code
base (sign, digits, decimal point; the inputs are pre-cleaned to digits,
dots and minus signs, so no exponent or Infinity forms can occur).
Returns none for NaN. -/
def jsParseFloat (l : List Char) : Option ℚ :=
  let l1 := l.dropWhile isSpaceC
  let neg : Bool :=
    match l1 with
    | c :: _ => c = '-'
    | [] => false
  let l2 : List Char :=
    match l1 with
    | c :: r => if c = '-' ∨ c = '+' then r else c :: r
    | [] => []
  let ip := l2.takeWhile isDigitC
  let rest := l2.dropWhile isDigitC
  let fp :=
    match rest with
    | '.' :: r => r.takeWhile isDigitC
    | _ => []
  if ip = [] ∧ fp = [] then none
  else
    let mag : ℚ :=
      mkRat ((digitsVal ip * 10 ^ fp.length + digitsVal fp : ℕ) : ℤ) (10 ^ fp.length)
    some (if neg then -mag else mag)

/-! Word-bounded pattern matching, modeling the RegExp("\\b" + w + "\\b")
constructions of the source for patterns whose first and last characters
are word characters (true of every pattern so built there). -/

/-- Substring containment, String.prototype.includes. -/
def containsSub (needle l : List Char) : Bool :=
  l.tails.any fun t => needle.isPrefixOf t

/-- Length of dropWhile is at most the length of the list. -/
theorem length_dropWhile_le (p : Char → Bool) (l : List Char) :
    (l.dropWhile p).length ≤ l.length := by
  induction l with
  | nil => simp [List.dropWhile]
  | cons c t ih =>
    by_cases h : p c <;> simp [List.dropWhile, h] <;> omega

/-- A word-bounded occurrence of w at the head of l, given the character
just before the position. -/
def wbHitAt (w : List Char) (prev : Option Char) (l : List Char) : Bool :=
  (match prev with | some p => !isWordC p | none => true) &&
  w.isPrefixOf l &&
  (match l.drop w.length with | [] => true | a :: _ => !isWordC a)

/-- Count of the word-bounded occurrences of w in l (the length of the
match list of the global word-bounded regex). -/
def countWBFrom (w : List Char) (prev : Option Char) : List Char → ℕ
  | [] => 0
  | c :: rest =>
    (if wbHitAt w prev (c :: rest) then 1 else 0) + countWBFrom w (some c) rest

/-- Count of word-bounded occurrences of a word in a string. -/
def countWB (w : List Char) (l : List Char) : ℕ := countWBFrom w none l

/-- Existence of a word-bounded occurrence (RegExp.test). -/
def hasWB (w : List Char) (l : List Char) : Bool := countWB w l ≠ 0

/-- Fueled worker of replaceAllWB; every step consumes one fuel unit and
at least one character, so the list length is sufficient fuel and the
exhaustion branch is unreachable from the wrapper. -/
def replaceAllWBF (w repl : List Char) : ℕ → Option Char → List Char → List Char
  | 0, _, l => l
  | fuel + 1, prev, l =>
    match l with
    | [] => []
    | c :: rest =>
      if w ≠ [] ∧ wbHitAt w prev (c :: rest) then
        repl ++ replaceAllWBF w repl fuel w.getLast? ((c :: rest).drop w.length)
      else
        c :: replaceAllWBF w repl fuel (some c) rest

/-- Replacement of every word-bounded occurrence of w by repl
(String.prototype.replace with a global word-bounded regex), scanning left
to right and resuming after each match. -/
def replaceAllWB (w repl : List Char) (prev : Option Char) (l : List Char) :
    List Char :=
  replaceAllWBF w repl l.length prev l

/-- Fueled worker of the whitespace split; each step consumes at least one
character, so the list length is sufficient fuel. -/
def splitWsGoF : ℕ → List Char → List (List Char)
  | 0, l => [l.takeWhile fun c => !isSpaceC c]
  | fuel + 1, l =>
    match l.dropWhile (fun c => !isSpaceC c) with
    | [] => [l.takeWhile fun c => !isSpaceC c]
    | _ :: rest =>
      (l.takeWhile fun c => !isSpaceC c) :: splitWsGoF fuel (rest.dropWhile isSpaceC)

/-- String.prototype.split(/\s+/): the empty string yields one empty part,
and leading or trailing whitespace yields an empty leading or trailing
part. -/
def splitWs (l : List Char) : List (List Char) :=
  match l with
  | [] => [[]]
  | _ => splitWsGoF l.length l

/-! Embedding of tenderNormalizer.js (the self-contained later copy of the
normalizer, called part 003 below; the alternative copy with the
field-filling pass, part 002, is embedded further down where it differs). -/

/-- Word list of isEnglishText. -/
def englishWords7 : List String :=
  ["the", "and", "for", "this", "that", "with", "from"]

/-- Source function isEnglishText: a value is English text when it is a
non-empty string containing at least three word-bounded occurrences of the
seven common English words, counted over the lowercased text. -/
def isEnglishText (v : JsVal) : Bool :=
  match v with
  | .str s =>
    if s.isEmpty then false
    else
      let t := (jsLower s).data
      3 ≤ (englishWords7.map fun w => countWB w.data t).sum
  | _ => false

/-- Word list of isStronglyEnglish. -/
def englishWords32 : List String :=
  ["the", "and", "for", "this", "that", "with", "from",
   "have", "has", "had", "not", "are", "were", "was",
   "will", "would", "should", "could", "can", "may",
   "than", "then", "they", "them", "their", "there",
   "here", "where", "when", "which", "what", "who"]

/-- Source function isStronglyEnglish: requires at least 20 characters;
counts word-bounded occurrences of 32 common words over the lowercased
text; texts of fewer than 100 whitespace-split parts need 3 hits, longer
texts need a 5 percent hit density (the float comparison of the source is
exact on every ratio reachable here, so it is modeled exactly). -/
def isStronglyEnglish (v : JsVal) : Bool :=
  match v with
  | .str s =>
    if s.isEmpty then false
    else if s.length < 20 then false
    else
      let t := (jsLower s).data
      let wordCount := (splitWs t).length
      let cnt := (englishWords32.map fun w => countWB w.data t).sum
      if wordCount < 100 then 3 ≤ cnt
      else wordCount ≤ 20 * cnt
  | _ => false

/-- Source function checkForMissingCriticalFields: the critical fields of
the tender that are falsy. -/
def checkForMissingCriticalFields (tender : RMap) : List String :=
  ["title", "description", "publication_date", "deadline_date", "status",
   "tender_type", "estimated_value"].filter fun f => ¬truthy (rget tender f)

/-- The decision object of the Decision Engine. -/
structure NormDecision where
  needsLLM : Bool
  reason : String
  deriving DecidableEq, Repr

/-- Strict equality test tender.language === "en". -/
def langIsEn (tender : RMap) : Bool :=
  match rget tender "language" with
  | .str s => s = "en"
  | _ => false

/-- Length read v.length of a possibly missing string field; a non-string
value gives 0, on which every comparison of the source is false, matching
the undefined.length semantics of the guarded reads of the source. -/
def strLenOf (v : JsVal) : ℕ :=
  match v with
  | .str s => s.length
  | _ => 0

/-- Decision part of evaluateNormalizationNeeds (part 003): the cascade of
source, completeness, language, size and quality rules, evaluated exactly
in source order.  The statistics side effect is split into bumpStats below
and recombined in evaluateNormalizationNeeds. -/
def evalDecision (tender : RMap) (sourceTable : String) : NormDecision :=
  if sourceTable = "wb" then
    ⟨false, "World Bank tenders use fast normalization for performance"⟩
  else if sourceTable = "adb" then
    ⟨false, "ADB tenders use fast normalization to prevent timeouts"⟩
  else if sourceTable = "afd_tenders" then
    ⟨false, "AFD tenders use fast normalization to prevent timeouts"⟩
  else
    let r0 : NormDecision := ⟨true, "Default processing path"⟩
    let r1 : NormDecision :=
      if sourceTable = "sam_gov" then
        ⟨false, "SAM.gov tenders don't require translation or complex normalization"⟩
      else if sourceTable = "un_procurement" then
        ⟨false, "UN tenders are in English with consistent structure"⟩
      else if sourceTable = "dgmarket" ∧ langIsEn tender then
        ⟨false, "English DGMarket tenders can use direct parsing"⟩
      else if sourceTable = "iadb" ∧
          (langIsEn tender ∨
            (truthy (rget tender "project_name") ∧
              isEnglishText (rget tender "project_name"))) then
        ⟨false, "English IADB tenders can use direct parsing"⟩
      else if sourceTable = "ted" ∧
          ((truthy (rget tender "title") ∧ truthy (rget tender "title_english")) ∨
            (truthy (rget tender "title") ∧ isEnglishText (rget tender "title"))) then
        ⟨false, "TED tender with English content can use direct parsing"⟩
      else r0
    let r2 : NormDecision :=
      if r1.needsLLM then
        let missing := checkForMissingCriticalFields tender
        if missing.length ≤ 2 then
          ⟨false, "Tender already has most critical fields (missing only " ++
            toString missing.length ++ ")"⟩
        else if 2 < missing.length ∧ missing.length ≤ 5 ∧
            (langIsEn tender ∨
              (truthy (rget tender "title") ∧ isEnglishText (rget tender "title")) ∨
              (truthy (rget tender "description") ∧
                isEnglishText (rget tender "description"))) then
          ⟨false, "English tender with some missing fields can use direct parsing"⟩
        else r1
      else r1
    let r3 : NormDecision :=
      if r2.needsLLM ∧
          (langIsEn tender ∨
            (truthy (rget tender "title") ∧ isStronglyEnglish (rget tender "title")) ∨
            (truthy (rget tender "description") ∧
              100 < strLenOf (rget tender "description") ∧
              isStronglyEnglish (rget tender "description"))) then
        ⟨false, "Content is strongly identified as English, using direct parsing"⟩
      else r2
    let r4 : NormDecision :=
      if truthy (rget tender "description") ∧
          strLenOf (rget tender "description") < 150 ∧
          truthy (rget tender "title") ∧ strLenOf (rget tender "title") < 50 then
        ⟨false, "Tender content is minimal, using direct parsing"⟩
      else r3
    let r5 : NormDecision :=
      if truthy (rget tender "description") ∧
          15000 < strLenOf (rget tender "description") then
        ⟨false, "Tender description exceeds optimal size for LLM processing, using chunked parsing"⟩
      else r4
    let r6 : NormDecision :=
      if r5.needsLLM ∧ truthy (rget tender "title") ∧
          truthy (rget tender "description") ∧
          10 < strLenOf (rget tender "title") ∧
          100 < strLenOf (rget tender "description") then
        if (truthy (rget tender "publication_date") ∨
            truthy (rget tender "deadline_date")) ∧
            truthy (rget tender "status") then
          ⟨false, "Tender has high-quality core fields already, using direct parsing"⟩
        else r5
      else r5
    r6

/-! Embedding of enhanceTenderTitles (part 003, the Field Enhancement
title pass).  Each numbered step below models the correspondingly numbered
step of the source; the regular expressions are encoded as direct
character scanners.  In every pattern the greedy subterms range over
pairwise disjoint character classes, so greedy matching without
backtracking is exact, except where noted. -/

/-- Boundary test before a position, for patterns starting with a word
character. -/
def boundaryBefore (prev : Option Char) : Bool :=
  match prev with
  | some p => !isWordC p
  | none => true

/-- Word test on the head of the remainder, for trailing-boundary
checks of patterns ending in a word character. -/
def wordAfter (l : List Char) : Bool :=
  match l with
  | a :: _ => isWordC a
  | [] => false

/-- Case-insensitive literal match at the head; lit is given uppercase.
Returns the remainder on success. -/
def matchCiLit (lit l : List Char) : Option (List Char) :=
  if lit.length ≤ l.length ∧ (l.take lit.length).map upC = lit then
    some (l.drop lit.length)
  else none

/-- Whitespace skip, for the \s* subterms. -/
def skipWs (l : List Char) : List Char := l.dropWhile isSpaceC

/-- The \s*-+\s* tail shared by the first four title lead patterns. -/
def wsDashesWs (l : List Char) : Option (List Char) :=
  let l1 := skipWs l
  let ds := l1.takeWhile (fun c => c = '-')
  if ds.isEmpty then none else some (skipWs (l1.drop ds.length))

/-- Character class [\s.:-] of the REF, RFP, ITB and NO lead patterns. -/
def isRefSepC (c : Char) : Bool :=
  isSpaceC c ∨ c = '.' ∨ c = ':' ∨ c = '-'

/-- Lead pattern 1: FORECAST\s*[IVX]*\s*-+\s* anchored, case-insensitive. -/
def stripLead1 (l : List Char) : List Char :=
  match matchCiLit "FORECAST".data l with
  | none => l
  | some l1 =>
    let l2 := skipWs l1
    let l3 := l2.dropWhile fun c => upC c = 'I' ∨ upC c = 'V' ∨ upC c = 'X'
    match wsDashesWs l3 with
    | some rest => rest
    | none => l

/-- Lead pattern 2: [LR]\s*-+\s* anchored, case-insensitive. -/
def stripLead2 (l : List Char) : List Char :=
  match l with
  | c :: r =>
    if upC c = 'L' ∨ upC c = 'R' then
      match wsDashesWs r with
      | some rest => rest
      | none => l
    else l
  | [] => l

/-- Lead pattern 3: digits then \s*-+\s*, anchored. -/
def stripLead3 (l : List Char) : List Char :=
  let ds := l.takeWhile isDigitC
  if ds.isEmpty then l
  else
    match wsDashesWs (l.drop ds.length) with
    | some rest => rest
    | none => l

/-- Lead pattern 4: one to three letters then \s*-+\s*, anchored,
case-insensitive; the letter count backtracks from three down to one. -/
def stripLead4 (l : List Char) : List Char :=
  let tryK (k : ℕ) : Option (List Char) :=
    if k ≤ l.length ∧ (l.take k).all isAlphaC then wsDashesWs (l.drop k)
    else none
  match tryK 3 with
  | some rest => rest
  | none =>
    match tryK 2 with
    | some rest => rest
    | none =>
      match tryK 1 with
      | some rest => rest
      | none => l

/-- Lead patterns 5 to 7: a case-insensitive literal then [\s.:-]+. -/
def stripLeadLit (lit : List Char) (l : List Char) : List Char :=
  match matchCiLit lit l with
  | none => l
  | some l1 =>
    let sep := l1.takeWhile isRefSepC
    if sep.isEmpty then l else l1.drop sep.length

/-- Lead pattern 8: NO then [\s.:-]+ then digits, anchored,
case-insensitive. -/
def stripLead8 (l : List Char) : List Char :=
  match matchCiLit "NO".data l with
  | none => l
  | some l1 =>
    let sep := l1.takeWhile isRefSepC
    if sep.isEmpty then l
    else
      let l2 := l1.drop sep.length
      let ds := l2.takeWhile isDigitC
      if ds.isEmpty then l else l2.drop ds.length

/-- Application of the eight lead patterns in source order. -/
def leadStrip (l : List Char) : List Char :=
  stripLead8 (stripLeadLit "ITB".data (stripLeadLit "RFP".data
    (stripLeadLit "REF".data (stripLead4 (stripLead3 (stripLead2 (stripLead1 l)))))))

/-- Test of \s*\([A-Z]{2,5}\)\s*$ at a given position, case-insensitive:
optional whitespace, a parenthesized run of two to five letters, optional
whitespace, end of string. -/
def parenSufAt (l : List Char) : Bool :=
  match skipWs l with
  | '(' :: r =>
    let ls := r.takeWhile isAlphaC
    if 2 ≤ ls.length ∧ ls.length ≤ 5 then
      match r.drop ls.length with
      | ')' :: r2 => (skipWs r2).isEmpty
      | _ => false
    else false
  | _ => false

/-- Step 2: removal of the leftmost match of \s*\([A-Z]{2,5}\)\s*$ (the
match necessarily runs to the end of the string). -/
def stripParenSuf (l : List Char) : List Char :=
  match l with
  | [] => []
  | c :: rest => if parenSufAt (c :: rest) then [] else c :: stripParenSuf rest

/-- Matcher of \b([A-Z]{2,4}-\d{2,}-\d{2,})\b at a position: returns the
match length. -/
def q1At (prev : Option Char) (l : List Char) : Option ℕ :=
  if ¬boundaryBefore prev then none
  else
    let ls := l.takeWhile isUpperC
    if ls.length < 2 ∨ 4 < ls.length then none
    else
      match l.drop ls.length with
      | '-' :: l2 =>
        let d1 := l2.takeWhile isDigitC
        if d1.length < 2 then none
        else
          match l2.drop d1.length with
          | '-' :: l3 =>
            let d2 := l3.takeWhile isDigitC
            if d2.length < 2 ∨ wordAfter (l3.drop d2.length) then none
            else some (ls.length + 1 + d1.length + 1 + d2.length)
          | _ => none
      | _ => none

/-- Matcher of \b(\d{5,})\b at a position. -/
def q2At (prev : Option Char) (l : List Char) : Option ℕ :=
  if ¬boundaryBefore prev then none
  else
    let ds := l.takeWhile isDigitC
    if ds.length < 5 ∨ wordAfter (l.drop ds.length) then none
    else some ds.length

/-- Matcher of \b([A-Z]{2,}\d{4,})\b at a position. -/
def q3At (prev : Option Char) (l : List Char) : Option ℕ :=
  if ¬boundaryBefore prev then none
  else
    let ls := l.takeWhile isUpperC
    if ls.length < 2 then none
    else
      let l2 := l.drop ls.length
      let ds := l2.takeWhile isDigitC
      if ds.length < 4 ∨ wordAfter (l2.drop ds.length) then none
      else some (ls.length + ds.length)

/-- Fueled worker of scanRepl; every step consumes one fuel unit and at
least one character, so the list length is sufficient fuel. -/
def scanReplF (mt : Option Char → List Char → Option ℕ) :
    ℕ → Option Char → List Char → List (List Char) × List Char
  | 0, _, l => ([], l)
  | fuel + 1, prev, l =>
    match l with
    | [] => ([], [])
    | c :: rest =>
      match mt prev (c :: rest) with
      | some n =>
        if n = 0 then
          let (ms, r) := scanReplF mt fuel (some c) rest
          (ms, c :: r)
        else
          let matched := (c :: rest).take n
          let (ms, r) := scanReplF mt fuel matched.getLast? ((c :: rest).drop n)
          (matched :: ms, ' ' :: r)
      | none =>
        let (ms, r) := scanReplF mt fuel (some c) rest
        (ms, c :: r)

/-- Global scan of a matcher over a string: collects every non-overlapping
match left to right and replaces each by a single space (the semantics of
matchAll followed by replace(pattern, ' ') on a global regex). -/
def scanRepl (mt : Option Char → List Char → Option ℕ) (prev : Option Char)
    (l : List Char) : List (List Char) × List Char :=
  scanReplF mt l.length prev l

/-- Step 3: extraction and removal of reference-number tokens, applying
the three patterns in source order, each on the output of the previous. -/
def refExtract (l : List Char) : List (List Char) × List Char :=
  let (m1, l1) := scanRepl q1At none l
  let (m2, l2) := scanRepl q2At none l1
  let (m3, l3) := scanRepl q3At none l2
  (m1 ++ m2 ++ m3, l3)

/-- Minor words kept lowercase by the title-casing step. -/
def minorWords : List String :=
  ["a", "an", "the", "and", "but", "or", "for", "nor", "on", "at", "to",
   "from", "by", "in", "of"]

/-- Capitalization of the first character of a word or string. -/
def capFirst (l : List Char) : List Char :=
  match l with
  | c :: r => upC c :: r
  | [] => []

/-- Fueled worker of the title-casing scan; every step consumes one fuel
unit and at least one character, so the list length is sufficient fuel. -/
def titleCaseScanF : ℕ → Option Char → List Char → List Char
  | 0, _, l => l
  | fuel + 1, prev, l =>
    match l with
    | [] => []
    | c :: rest =>
      if isWordC c ∧ boundaryBefore prev then
        let run := (c :: rest).takeWhile isWordC
        let w : String := ⟨run⟩
        (if w ∈ minorWords then run else capFirst run) ++
          titleCaseScanF fuel run.getLast? ((c :: rest).drop run.length)
      else c :: titleCaseScanF fuel (some c) rest

/-- The replace(/\b\w+/g, callback) of the title-casing step: every
maximal word-character run is capitalized unless it is a minor word. -/
def titleCaseScan (prev : Option Char) (l : List Char) : List Char :=
  titleCaseScanF l.length prev l

/-- Step 4: all-caps titles longer than ten characters are lowercased and
re-cased to title case, with the first character forced uppercase. -/
def titleCaseStep (l : List Char) : List Char :=
  if l = l.map upC ∧ 10 < l.length then
    capFirst (titleCaseScan none (l.map lowC))
  else l

/-- The acronym glossary, in the insertion order of the source object. -/
def acronymMap : List (String × String) :=
  [("ICB", "International Competitive Bidding for"),
   ("NCB", "National Competitive Bidding for"),
   ("ICT", "Information and Communication Technology"),
   ("IT", "Information Technology"),
   ("RFP", "Request for Proposal:"),
   ("EOI", "Expression of Interest:"),
   ("HVAC", "Heating, Ventilation, and Air Conditioning"),
   ("PPE", "Personal Protective Equipment"),
   ("O&M", "Operation and Maintenance"),
   ("M&E", "Monitoring and Evaluation")]

/-- Step 5 on one string: each glossary acronym that occurs word-bounded
is expanded at every occurrence. -/
def acronymStep (l : List Char) : List Char :=
  acronymMap.foldl
    (fun t p =>
      if hasWB p.1.data t then replaceAllWB p.1.data p.2.data none t else t) l

/-- Fueled worker of the whitespace collapse; each step consumes at least
one character, so the list length is sufficient fuel. -/
def collapseWsRunsF : ℕ → List Char → List Char
  | 0, l => l
  | fuel + 1, l =>
    match l.dropWhile (fun c => !isSpaceC c) with
    | [] => l.takeWhile fun c => !isSpaceC c
    | _ :: rest =>
      (l.takeWhile fun c => !isSpaceC c) ++
        ' ' :: collapseWsRunsF fuel (rest.dropWhile isSpaceC)

/-- Step 6: collapse of whitespace runs to single spaces, then trim. -/
def collapseWsRuns (l : List Char) : List Char :=
  collapseWsRunsF l.length l

/-- Step 6 composed with the trim. -/
def collapseStep (l : List Char) : List Char := jsTrim (collapseWsRuns l)

/-- Separator matcher of the truncation split: the alternation
\s[-:]\s (with the en and em dashes) first, then \s*\|\s*, then \s*;\s*,
in source order, at a given position; returns the match length. -/
def sepAt (l : List Char) : Option ℕ :=
  match l with
  | a :: b :: c :: _ =>
    if isSpaceC a ∧ (b = '-' ∨ b = '–' ∨ b = '—' ∨ b = ':') ∧ isSpaceC c then
      some 3
    else altPipe l
  | _ => altPipe l
where
  /-- The \s*\|\s* and \s*;\s* alternatives. -/
  altPipe (l : List Char) : Option ℕ :=
    let w1 := l.takeWhile isSpaceC
    match l.drop w1.length with
    | '|' :: r => some (w1.length + 1 + (r.takeWhile isSpaceC).length)
    | ';' :: r => some (w1.length + 1 + (r.takeWhile isSpaceC).length)
    | _ => none

/-- Fueled worker of the truncation split; every step consumes one fuel
unit and at least one character, so the list length is sufficient fuel. -/
def splitSepsF : ℕ → List Char → List (List Char)
  | 0, l => [l]
  | fuel + 1, l =>
    match l with
    | [] => [[]]
    | c :: rest =>
      match sepAt (c :: rest) with
      | some n =>
        if n = 0 then
          match splitSepsF fuel rest with
          | p :: ps => (c :: p) :: ps
          | [] => [[c]]
        else [] :: splitSepsF fuel ((c :: rest).drop n)
      | none =>
        match splitSepsF fuel rest with
        | p :: ps => (c :: p) :: ps
        | [] => [[c]]

/-- Split of a string on the truncation separators, leftmost match first,
non-overlapping. -/
def splitSeps (l : List Char) : List (List Char) :=
  splitSepsF l.length l

/-- Step 7: titles over 150 characters are truncated, preferring the first
separator-delimited part when it is itself longer than 20 characters. -/
def truncateStep (l : List Char) : List Char :=
  if 150 < l.length then
    let parts := splitSeps l
    match parts with
    | p0 :: _ :: _ =>
      if 20 < p0.length then jsTrim p0 ++ "...".data
      else if 150 < l.length then l.take 147 ++ "...".data
      else l
    | _ =>
      if 150 < l.length then l.take 147 ++ "...".data else l
  else l

/-- Step 8: capitalization of a leading ASCII lowercase letter. -/
def capLowStep (l : List Char) : List Char :=
  match l with
  | c :: r => if isLowerC c then upC c :: r else l
  | [] => []

/-- Join of the collected reference numbers with comma-space. -/
def joinRefs (refs : List (List Char)) : List Char :=
  match refs with
  | [] => []
  | [r] => r
  | r :: rest => r ++ ',' :: ' ' :: joinRefs rest

/-- Step 9: the relocated reference numbers are appended as a
parenthesized Ref suffix. -/
def appendRefs (refs : List (List Char)) (l : List Char) : List Char :=
  if refs.isEmpty then l
  else l ++ " (Ref: ".data ++ joinRefs refs ++ [')']

/-- The per-string pipeline of steps 4 to 8 (shared by title and English
title), taking the already extracted reference numbers for step 9. -/
def titleTailSteps (refs : List (List Char)) (l : List Char) : List Char :=
  appendRefs refs (capLowStep (truncateStep (collapseStep (acronymStep (titleCaseStep l)))))

/-- Source function enhanceTenderTitles (part 003).  A record without a
truthy title is returned unchanged.  The title runs through lead-pattern
stripping, parenthesized-abbreviation stripping, reference-number
extraction, casing, acronym expansion, whitespace cleanup, truncation and
reference reattachment; a truthy English title runs through the same steps
except the reference extraction, whose matches come from the title only.
The English title is written back only when it is still non-empty, as in
the source.  A truthy non-string title or English title cannot occur in
the flows modeled here, and is treated as absent. -/
def enhanceTenderTitles (nd : RMap) : RMap :=
  match rget nd "title" with
  | .str s =>
    if s.isEmpty then nd
    else
      let te0 : List Char :=
        match rget nd "title_english" with
        | .str t => t.data
        | _ => []
      let t1 := stripParenSuf (leadStrip s.data)
      let te1 := if te0.isEmpty then te0 else stripParenSuf (leadStrip te0)
      let (refs, t2) := refExtract t1
      let t3 := titleTailSteps refs t2
      let te3 := if te1.isEmpty then te1 else titleTailSteps refs te1
      let nd1 := rset nd "title" (.str ⟨t3⟩)
      if te3.isEmpty then nd1 else rset nd1 "title_english" (.str ⟨te3⟩)
  | _ => nd

/-! Embedding of the rule-based field-extraction library of part 003. -/

/-- Decimal rendering of a natural number. -/
def natDigits (n : ℕ) : List Char :=
  (Nat.toDigits 10 n)

/-- JS toString of a number, for the integral values flowing through the
code here (non-integral and special values do not reach a toString in any
modeled flow). -/
def jsNumToString (n : JsNum) : String :=
  match n with
  | .fin q => if q.den = 1 ∧ 0 ≤ q.num then ⟨natDigits q.num.toNat⟩ else "NaN"
  | _ => "NaN"

/-- ISO rendering of a tstamp (toISOString), used where a timestamp value
is coerced to a string. -/
def renderTs (ms : ℕ) : String :=
  let ymd := civilFromDays (ms / 86400000)
  let rem := ms % 86400000
  ⟨(renderIsoDate ymd.1 ymd.2.1 ymd.2.2).data ++ 'T' :: pad2 (rem / 3600000) ++
    ':' :: pad2 (rem / 60000 % 60) ++ ':' :: pad2 (rem / 1000 % 60) ++ '.' ::
    pad2 (rem % 1000 / 10) ++ [digitChar (rem % 10), 'Z']⟩

/-- String coercion v?.toString() of a defined value; none models the
undefined propagation of the optional chain. -/
def jsToStr : JsVal → Option String
  | .undef => none
  | .jnull => none
  | .str s => some s
  | .num n => some (jsNumToString n)
  | .tstamp m => some (renderTs m)
  | .objv _ => some "[object Object]"
  | .arrDocs _ => some ""

/-- The JS || operator on values. -/
def jsOrV (a b : JsVal) : JsVal := if truthy a then a else b

/-- Source function mapField: the first source field that is neither
undefined nor null (empty strings do pass this test) is copied to the
target field. -/
def mapField (source target : RMap) (targetField : String)
    (sourceFields : List String) : RMap :=
  match sourceFields with
  | [] => target
  | f :: fs =>
    match rget source f with
    | .undef => mapField source target targetField fs
    | .jnull => mapField source target targetField fs
    | v => rset target targetField v

/-- Source function extractDate: the first truthy source field that parses
as a date is normalized to YYYY-MM-DD; parse failures continue down the
candidate list and leave the target untouched when nothing parses. -/
def extractDate (source target : RMap) (targetField : String)
    (sourceFields : List String) : RMap :=
  match sourceFields with
  | [] => target
  | f :: fs =>
    let v := rget source f
    if truthy v then
      match jsValToDate v with
      | some ymd => rset target targetField (.str (renderIsoDate ymd.1 ymd.2.1 ymd.2.2))
      | none => extractDate source target targetField fs
    else extractDate source target targetField fs

/-- First match of the value pattern of extractMoney, a run of digits and
commas with an optional dot-digits fraction. -/
def moneyRun : List Char → Option (List Char)
  | [] => none
  | c :: rest =>
    if isDigitC c ∨ c = ',' then
      let run := (c :: rest).takeWhile fun x => isDigitC x ∨ x = ','
      let frac :=
        match (c :: rest).drop run.length with
        | '.' :: r =>
          let ds := r.takeWhile isDigitC
          if ds.isEmpty then [] else '.' :: ds
        | _ => []
      some (run ++ frac)
    else moneyRun rest

/-- A currency token at the head of the remainder: one of the three
currency symbols, or any three consecutive ASCII letters (the character
class A-Z under the case-insensitive flag of the source pattern). -/
def symbolAt (l : List Char) : Option (List Char) :=
  match l with
  | c :: _ =>
    if c = '$' ∨ c = '€' ∨ c = '£' then some [c]
    else if (l.take 3).length = 3 ∧ (l.take 3).all isAlphaC then some (l.take 3)
    else none
  | [] => none

/-- Leftmost currency token of the string.  The optional-whitespace
alternative of the source pattern starts a match earlier but captures the
same token, so the captured group is the leftmost token. -/
def currencyScan : List Char → Option (List Char)
  | [] => none
  | c :: rest =>
    match symbolAt (c :: rest) with
    | some tok => some tok
    | none => currencyScan rest

/-- The symbol-to-code table of extractMoney. -/
def currencyMap : List (String × String) :=
  [("$", "USD"), ("€", "EUR"), ("£", "GBP"), ("USD", "USD"), ("EUR", "EUR"),
   ("GBP", "GBP"), ("JPY", "JPY"), ("CHF", "CHF"), ("MXN", "MXN"),
   ("LKR", "LKR"), ("PHP", "PHP"), ("XOF", "XOF"), ("INR", "INR"),
   ("BDT", "BDT"), ("PKR", "PKR"), ("NPR", "NPR"), ("IDR", "IDR"),
   ("THB", "THB"), ("VND", "VND"), ("CNY", "CNY"), ("KRW", "KRW"),
   ("AUD", "AUD"), ("NZD", "NZD"), ("CAD", "CAD")]

/-- Lookup with passthrough default, currencyMap[symbol] || symbol. -/
def currencyLookup (sym : String) : String :=
  match currencyMap.find? fun p => p.1 = sym with
  | some p => p.2
  | none => sym

/-- The string branch of extractMoney on a trimmed money string: the value
from the first digit run (commas removed, NaN discarded), the currency
from the leftmost currency token, uppercased and mapped. -/
def extractMoneyStr (l : List Char) (target : RMap) : RMap :=
  let t1 :=
    match moneyRun l with
    | some mstr =>
      match jsParseFloat (mstr.filter fun c => c ≠ ',') with
      | some q => rset target "estimated_value" (.num (.fin q))
      | none => target
    | none => target
  let t2 :=
    match currencyScan l with
    | some tok =>
      let sym := jsUpper ⟨tok⟩
      rset t1 "currency" (.str (currencyLookup sym))
    | none => t1
  match rget t2 "estimated_value" with
  | .undef => rset t2 "estimated_value" .jnull
  | .num .nan => rset t2 "estimated_value" .jnull
  | _ => t2

/-- Source function extractMoney: the first truthy source field is
consumed; an object with a truthy value member is read directly, a string
goes through the value and currency patterns, a plain number is used as
is. -/
def extractMoney (source target : RMap) (sourceFields : List String) : RMap :=
  match sourceFields with
  | [] => target
  | f :: fs =>
    let v := rget source f
    if ¬truthy v then extractMoney source target fs
    else
      match v with
      | .objv o =>
        if truthy (rget o "value") then
          let t1 :=
            match rget o "value" with
            | .num n => rset target "estimated_value" (.num n)
            | .str s =>
              rset target "estimated_value"
                (.num (match jsParseFloat s.data with
                       | some q => .fin q
                       | none => .nan))
            | _ => rset target "estimated_value" (.num .nan)
          match rget o "currency" with
          | .str c => if c.isEmpty then t1 else rset t1 "currency" (.str (jsUpper c))
          | _ => t1
        else extractMoney source target fs
      | .str s => extractMoneyStr (jsTrim s.data) target
      | .num n => rset target "estimated_value" (.num n)
      | .tstamp m => extractMoneyStr (jsTrim (renderTs m).data) target
      | _ => extractMoney source target fs

/-- Principal-branch scanner of the contact email pattern: a word-bounded
token of local characters, an at sign, domain characters and a dot-letters
tail.  Only the principal branch (match starting at a word character) is
modeled; no theorem exercises this scanner. -/
def emailScan (prev : Option Char) (l : List Char) : Option String :=
  match l with
  | [] => none
  | c :: rest =>
    let isLocal := fun x => isWordC x ∨ x = '.' ∨ x = '%' ∨ x = '+' ∨ x = '-'
    let isDom := fun x => isAlphaC x ∨ isDigitC x ∨ x = '.' ∨ x = '-'
    if boundaryBefore prev ∧ isWordC c then
      let loc := (c :: rest).takeWhile isLocal
      match (c :: rest).drop loc.length with
      | '@' :: r =>
        let dom := r.takeWhile isDom
        let lastDot := (dom.reverse.takeWhile fun x => x ≠ '.')
        if 2 ≤ lastDot.length ∧ lastDot.all isAlphaC ∧ lastDot.length < dom.length ∧
            ¬wordAfter (r.drop dom.length) then
          some ⟨loc ++ '@' :: dom⟩
        else emailScan (some c) rest
      | _ => emailScan (some c) rest
    else emailScan (some c) rest

/-- Principal-branch scanner of the contact phone pattern of part 003:
an optional plus and country code, then three groups of three, three and
four digits with optional single separators.  Only the principal branch is
modeled; no theorem exercises this scanner. -/
def phoneScan (prev : Option Char) (l : List Char) : Option String :=
  match l with
  | [] => none
  | c :: rest =>
    let sep1 := fun x => x = '-' ∨ x = '.' ∨ x = ' ' ∨ x = '('
    let sep2 := fun x => x = '-' ∨ x = '.' ∨ x = ' ' ∨ x = ')'
    let sep3 := fun x => x = '-' ∨ x = '.' ∨ x = ' '
    let attempt : Option (List Char) :=
      if ¬boundaryBefore prev then none
      else
        let (plus, l1) :=
          match c :: rest with
          | '+' :: r => (['+'], r)
          | r => (([] : List Char), r)
        let cc := (l1.takeWhile isDigitC).take 3
        let l2 := l1.drop cc.length
        let (s1, l3) := match l2 with
          | x :: r => if sep1 x then ([x], r) else ([], l2)
          | [] => ([], l2)
        let g1 := l3.takeWhile isDigitC
        if g1.length < 3 then none
        else
          let l4 := l3.drop 3
          let (s2, l5) := match l4 with
            | x :: r => if sep2 x then ([x], r) else ([], l4)
            | [] => ([], l4)
          let g2 := l5.takeWhile isDigitC
          if g2.length < 3 then none
          else
            let l6 := l5.drop 3
            let (s3, l7) := match l6 with
              | x :: r => if sep3 x then ([x], r) else ([], l6)
              | [] => ([], l6)
            let g3 := l7.takeWhile isDigitC
            if g3.length < 4 ∨ wordAfter (l7.drop 4) then none
            else some (plus ++ cc ++ s1 ++ g1.take 3 ++ s2 ++ g2.take 3 ++ s3 ++ g3.take 4)
    match attempt with
    | some m => some ⟨m⟩
    | none => phoneScan (some c) rest

/-- Source function extractContacts: direct field mapping, then email and
phone extraction from the description for the still-missing fields. -/
def extractContacts (source target : RMap) : RMap :=
  let t1 := mapField source target "contact_name"
    ["contact_name", "contact", "contact_person", "poc", "point_of_contact"]
  let t2 := mapField source t1 "contact_email" ["contact_email", "email"]
  let t3 := mapField source t2 "contact_phone" ["contact_phone", "phone", "telephone"]
  let t4 := mapField source t3 "contact_address" ["contact_address", "address"]
  let t5 :=
    if ¬truthy (rget t4 "contact_email") ∧ truthy (rget source "description") then
      match rget source "description" with
      | .str d =>
        match emailScan none d.data with
        | some e => rset t4 "contact_email" (.str e)
        | none => t4
      | _ => t4
    else t4
  if ¬truthy (rget t5 "contact_phone") ∧ truthy (rget source "description") then
    match rget source "description" with
    | .str d =>
      match phoneScan none d.data with
      | some p => rset t5 "contact_phone" (.str p)
      | none => t5
    | _ => t5
  else t5

/-- Source function extractDocumentLinks of part 003: attachments, then
documents, then a single document or attachment url; entries without a url
are dropped.  The per-entry title and url fallbacks of the source are
collapsed into the pair carried by the array model. -/
def extractDocumentLinks (source target : RMap) : RMap :=
  match rget source "attachments" with
  | .arrDocs ds =>
    rset target "document_links" (.arrDocs (ds.filter fun d => ¬d.2.isEmpty))
  | _ =>
    match rget source "documents" with
    | .arrDocs ds =>
      rset target "document_links" (.arrDocs (ds.filter fun d => ¬d.2.isEmpty))
    | _ =>
      if truthy (jsOrV (rget source "document_url") (rget source "attachment_url")) then
        match jsToStr (jsOrV (rget source "document_url") (rget source "attachment_url")) with
        | some u =>
          let ttl :=
            match jsToStr (jsOrV (rget source "document_title")
                (rget source "attachment_title")) with
            | some t => if t.isEmpty then "Document" else t
            | none => "Document"
          rset target "document_links" (.arrDocs [(ttl, u)])
        | none => target
      else target

/-- Source function inferStatusFromDates: a missing status is inferred
from the deadline against the current time; an unparsable deadline
compares false and yields Closed, as in the source. -/
def inferStatusFromDates (now : ℕ) (tender : RMap) : RMap :=
  if ¬truthy (rget tender "status") ∧ truthy (rget tender "deadline_date") then
    match jsValDateMs (rget tender "deadline_date") with
    | some ms => rset tender "status" (.str (if (now : ℤ) < ms then "Open" else "Closed"))
    | none => rset tender "status" (.str "Closed")
  else tender

/-- Whitespace normalization of enhanceExtractedFields on one string:
trim and collapse of inner runs (applied in either order, the result is
the same; the composition collapse-then-trim is used). -/
def normSpace (s : String) : String := ⟨collapseStep s.data⟩

/-- Source function enhanceExtractedFields: every string field is trimmed
and space-collapsed, name-like fields get a capital first letter, the
status is normalized through the keyword table, and the title enhancement
pass is applied (the source mutates the record in place, so its effects
are all visible in the returned record). -/
def enhanceExtractedFields (tender : RMap) : RMap :=
  let t1 : RMap := tender.map fun p =>
    match p.2 with
    | .str s =>
      let s1 := normSpace s
      if (p.1 = "title" ∨ p.1 = "organization_name" ∨ p.1 = "buyer" ∨
          p.1 = "project_name") ∧ ¬s1.isEmpty then
        (p.1, .str ⟨capFirst s1.data⟩)
      else (p.1, .str s1)
    | v => (p.1, v)
  let t2 :=
    match rget t1 "status" with
    | .str s =>
      if s.isEmpty then t1
      else
        let low := jsLower s
        if low = "active" ∨ low = "open" ∨ low = "ongoing" ∨ low = "current" then
          rset t1 "status" (.str "Open")
        else if low = "closed" ∨ low = "expired" ∨ low = "completed" ∨
            low = "inactive" ∨ low = "archived" then
          rset t1 "status" (.str "Closed")
        else if low = "awarded" ∨ low = "contract awarded" ∨ low = "winner selected" then
          rset t1 "status" (.str "Awarded")
        else if low = "canceled" ∨ low = "cancelled" ∨ low = "terminated" then
          rset t1 "status" (.str "Canceled")
        else t1
    | _ => t1
  enhanceTenderTitles t2

/-- The all-null canonical record initializer shared by the rule-based
normalizers, with the key order of the source literal. -/
def initNormalized : RMap :=
  [("title", .jnull), ("title_english", .jnull), ("description", .jnull),
   ("description_english", .jnull), ("tender_type", .jnull), ("status", .jnull),
   ("publication_date", .jnull), ("deadline_date", .jnull), ("country", .jnull),
   ("city", .jnull), ("organization_name", .jnull),
   ("organization_name_english", .jnull), ("organization_id", .jnull),
   ("buyer", .jnull), ("buyer_english", .jnull), ("project_name", .jnull),
   ("project_name_english", .jnull), ("project_id", .jnull),
   ("project_number", .jnull), ("sector", .jnull), ("estimated_value", .jnull),
   ("currency", .jnull), ("contact_name", .jnull), ("contact_email", .jnull),
   ("contact_phone", .jnull), ("contact_address", .jnull), ("url", .jnull),
   ("document_links", .arrDocs []), ("language", .str "en"),
   ("notice_id", .jnull), ("reference_number", .jnull),
   ("procurement_method", .jnull)]

/-- Try-guarded date normalization of a raw field: a truthy value that
parses is written as YYYY-MM-DD; an unparsable one leaves the field alone
(the thrown toISOString is caught in the source). -/
def trySetDate (target : RMap) (targetField : String) (v : JsVal) : RMap :=
  if truthy v then
    match jsValToDate v with
    | some ymd => rset target targetField (.str (renderIsoDate ymd.1 ymd.2.1 ymd.2.2))
    | none => target
  else target

/-- Fueled worker of the code-run strip; every step consumes one fuel unit
and at least one character, so the list length is sufficient fuel. -/
def stripCodeRunsF : ℕ → List Char → List Char
  | 0, l => l
  | fuel + 1, l =>
    match l with
    | [] => []
    | c :: rest =>
      if (match c :: rest with
          | a :: b :: d :: _ => isUpperC a && isUpperC b && isUpperC d
          | _ => false) then
        stripCodeRunsF fuel (((c :: rest).drop 3).dropWhile isSpaceC)
      else c :: stripCodeRunsF fuel rest

/-- Replacement of the /[A-Z]{3}\s*/g cleaning step: every run of exactly
three consecutive uppercase letters, with any following whitespace, is
removed, scanning left to right. -/
def stripCodeRuns (l : List Char) : List Char :=
  stripCodeRunsF l.length l

/-- Replacement of the /[$€£¥]/g cleaning step. -/
def stripSymbols (l : List Char) : List Char :=
  l.filter fun c => ¬(c = '$' ∨ c = '€' ∨ c = '£' ∨ c = '¥')

/-- Replacement of the /\s*[A-Z]{3}$/g cleaning step: three trailing
uppercase letters, with any whitespace before them, are removed. -/
def stripTrailCode (l : List Char) : List Char :=
  let r := l.reverse
  match r with
  | a :: b :: c :: rest =>
    if isUpperC a ∧ isUpperC b ∧ isUpperC c then
      (rest.dropWhile isSpaceC).reverse
    else l
  | _ => l

/-- The local extractNumericValue helper of the sam_gov branch of
fallbackNormalizeTender (part 003): numbers pass through, strings are
stripped of three-letter code runs, currency symbols and commas, then
parsed; a NaN parse gives null.  It has no range or finiteness guard. -/
def extractNumericValueSG (v : JsVal) : JsVal :=
  match v with
  | .jnull => .jnull
  | .undef => .jnull
  | .num n => .num n
  | _ =>
    match jsToStr v with
    | none => .jnull
    | some s =>
      let c1 := (stripSymbols (stripCodeRuns s.data)).filter fun c => c ≠ ','
      match jsParseFloat (jsTrim c1) with
      | some q => .num (.fin q)
      | none => .jnull

/-- Source function fallbackNormalizeTender (part 003): the all-null
record, filled by the per-source branch for sam_gov, ted, iadb and
un_procurement (other sources keep the empty record), then the title
enhancement when a title was extracted. -/
def fallbackNormalizeTender (now : ℕ) (tenderData : RMap) (sourceTable : String) :
    RMap :=
  let nd := initNormalized
  let nd :=
    if sourceTable = "sam_gov" then
      let nd := rset nd "title" (jsOrV (rget tenderData "opportunity_title") .jnull)
      let nd := rset nd "description" (jsOrV (rget tenderData "description") .jnull)
      let nd := rset nd "notice_id"
        (match jsToStr (rget tenderData "opportunity_id") with
         | some s => .str s
         | none => .jnull)
      let nd := rset nd "reference_number"
        (jsOrV (rget tenderData "solicitation_number") .jnull)
      let nd := rset nd "organization_id"
        (jsOrV (rget tenderData "organization_id") .jnull)
      let nd := rset nd "country" (.str "UNITED STATES")
      let nd := trySetDate nd "publication_date" (rget tenderData "publish_date")
      let nd := trySetDate nd "deadline_date" (rget tenderData "response_date")
      let nd :=
        match rget tenderData "opportunity_status" with
        | .str st =>
          if st.isEmpty then nd
          else
            let low := jsLower st
            if low = "active" then rset nd "status" (.str "Open")
            else if low = "inactive" ∨ low = "archived" then
              rset nd "status" (.str "Closed")
            else if low = "awarded" then rset nd "status" (.str "Awarded")
            else if low = "canceled" then rset nd "status" (.str "Canceled")
            else rset nd "status" (.str st)
        | _ => nd
      let nd :=
        match rget tenderData "opportunity_type" with
        | .str ty =>
          if ty.isEmpty then nd
          else
            let low := jsLower ty
            if low = "solicitation" then rset nd "tender_type" (.str "Tender")
            else if low = "presolicitation" then
              rset nd "tender_type" (.str "Prior Information Notice")
            else if low = "award" then rset nd "tender_type" (.str "Contract Award")
            else if low = "intent_to_award" then
              rset nd "tender_type" (.str "Intent to Award")
            else if low = "sources_sought" then
              rset nd "tender_type" (.str "Request for Information")
            else if low = "special_notice" then
              rset nd "tender_type" (.str "Special Notice")
            else if low = "sale_of_surplus" then rset nd "tender_type" (.str "Sale")
            else if low = "combined_synopsis_solicitation" then
              rset nd "tender_type" (.str "Request for Proposal")
            else rset nd "tender_type" (.str ty)
        | _ => nd
      let nd :=
        match rget nd "description" with
        | .str d =>
          if d.isEmpty then nd
          else
            match emailScan none d.data with
            | some e => rset nd "contact_email" (.str e)
            | none => nd
        | _ => nd
      let nd :=
        if truthy (rget tenderData "opportunity_id") then
          match jsToStr (rget tenderData "opportunity_id") with
          | some oid =>
            rset nd "url" (.str ("https://sam.gov/opp/" ++ oid ++ "/view"))
          | none => nd
        else nd
      let nd :=
        if truthy (rget tenderData "organizationName") then
          rset nd "organization_name" (rget tenderData "organizationName")
        else if truthy (rget tenderData "agency") then
          rset nd "organization_name" (rget tenderData "agency")
        else nd
      let nd :=
        match rget tenderData "naics_code" with
        | .str naics =>
          if naics.isEmpty then nd
          else
            let p3 := naics.take 3
            let p2 := naics.take 2
            if p3 = "541" then rset nd "sector" (.str "Information Technology")
            else if p3 = "236" ∨ p3 = "237" ∨ p3 = "238" then
              rset nd "sector" (.str "Construction")
            else if p2 = "31" ∨ p2 = "32" ∨ p2 = "33" then
              rset nd "sector" (.str "Manufacturing")
            else if p2 = "54" then rset nd "sector" (.str "Professional Services")
            else if p2 = "62" then rset nd "sector" (.str "Healthcare")
            else if p3 = "336" then rset nd "sector" (.str "Defense and Aerospace")
            else if p2 = "48" then rset nd "sector" (.str "Transportation")
            else if p2 = "22" then rset nd "sector" (.str "Utilities")
            else if p2 = "11" then rset nd "sector" (.str "Agriculture")
            else nd
        | _ => nd
      let nd := rset nd "estimated_value"
        (extractNumericValueSG (jsOrV (rget tenderData "estimated_value")
          (jsOrV (rget tenderData "potential_award_amount")
            (rget tenderData "award_amount"))))
      rset nd "contract_value"
        (extractNumericValueSG (jsOrV (rget tenderData "contract_value")
          (jsOrV (rget tenderData "award_amount")
            (rget tenderData "potential_award_amount"))))
    else if sourceTable = "ted" then
      let nd := rset nd "title" (jsOrV (rget tenderData "title") .jnull)
      let nd := rset nd "reference_number"
        (jsOrV (rget tenderData "document_number") .jnull)
      let nd := rset nd "notice_id" (jsOrV (rget tenderData "document_number") .jnull)
      let nd := rset nd "country" (jsOrV (rget tenderData "country") .jnull)
      let nd := rset nd "organization_name"
        (jsOrV (rget tenderData "contracting_authority") .jnull)
      let nd := trySetDate nd "publication_date" (rget tenderData "publication_date")
      let nd := trySetDate nd "deadline_date" (rget tenderData "deadline_date")
      let nd :=
        if truthy (rget nd "deadline_date") then
          match jsValDateMs (rget nd "deadline_date") with
          | some ms => rset nd "status" (.str (if (now : ℤ) < ms then "Open" else "Closed"))
          | none => rset nd "status" (.str "Closed")
        else nd
      let nd :=
        if truthy (rget tenderData "document_number") then
          match jsToStr (rget tenderData "document_number") with
          | some dn =>
            rset nd "url"
              (.str ("https://ted.europa.eu/udl?uri=TED:NOTICE:" ++ dn ++ ":TEXT:EN:HTML"))
          | none => nd
        else nd
      rset nd "language" (.str "en")
    else if sourceTable = "iadb" then
      let nd := rset nd "title" (jsOrV (rget tenderData "project_name") .jnull)
      let nd := rset nd "description"
        (jsOrV (rget tenderData "description")
          (jsOrV (rget tenderData "project_description") .jnull))
      let nd := rset nd "project_id"
        (match jsToStr (rget tenderData "project_number") with
         | some s => .str s
         | none => .jnull)
      let nd := rset nd "project_name" (jsOrV (rget tenderData "project_name") .jnull)
      let nd := rset nd "country" (jsOrV (rget tenderData "country") .jnull)
      let nd := rset nd "organization_name" (.str "Inter-American Development Bank")
      let nd := rset nd "organization_name_english"
        (.str "Inter-American Development Bank")
      let nd := trySetDate nd "publication_date" (rget tenderData "publication_date")
      let nd := trySetDate nd "deadline_date" (rget tenderData "deadline")
      let nd :=
        if truthy (rget tenderData "project_number") then
          match jsToStr (rget tenderData "project_number") with
          | some pn => rset nd "url" (.str ("https://www.iadb.org/en/project/" ++ pn))
          | none => nd
        else nd
      let nd := rset nd "tender_type" (.str "Development Project")
      rset nd "sector" (jsOrV (rget tenderData "sector") .jnull)
    else if sourceTable = "un_procurement" then
      let nd := rset nd "title" (jsOrV (rget tenderData "title") .jnull)
      let nd := rset nd "reference_number" (jsOrV (rget tenderData "reference") .jnull)
      let nd := rset nd "organization_name"
        (jsOrV (rget tenderData "agency") (.str "United Nations"))
      let nd := rset nd "organization_name_english"
        (jsOrV (rget tenderData "agency") (.str "United Nations"))
      let nd := trySetDate nd "publication_date" (rget tenderData "published")
      let nd := trySetDate nd "deadline_date" (rget tenderData "deadline")
      let nd := rset nd "url" (jsOrV (rget tenderData "url") .jnull)
      let nd := rset nd "language" (.str "en")
      if truthy (rget nd "deadline_date") then
        match jsValDateMs (rget nd "deadline_date") with
        | some ms => rset nd "status" (.str (if (now : ℤ) < ms then "Open" else "Closed"))
        | none => rset nd "status" (.str "Closed")
      else nd
    else nd
  if truthy (rget nd "title") then enhanceTenderTitles nd else nd

/-- The dedicated-handler source list of fastNormalizeTender. -/
def dedicatedSources : List String :=
  ["sam_gov", "ted", "iadb", "un_procurement", "adb", "afd_tenders"]

/-- Source function fastNormalizeTender (part 003): dedicated sources go
through fallbackNormalizeTender; other sources get the generic
multi-candidate field probing, date, money, contact and document
extraction, status inference and field cleanup. -/
def fastNormalizeTender (now : ℕ) (tenderData : RMap) (sourceTable : String) :
    RMap :=
  if sourceTable ∈ dedicatedSources then
    fallbackNormalizeTender now tenderData sourceTable
  else
    let nd := initNormalized
    let nd := mapField tenderData nd "title"
      ["title", "opportunity_title", "name", "project_name", "contract_title"]
    let nd := mapField tenderData nd "description"
      ["description", "body", "summary", "details", "project_description"]
    let nd := mapField tenderData nd "status"
      ["status", "state", "opportunity_status", "tender_status"]
    let nd := mapField tenderData nd "country"
      ["country", "country_name", "nation", "location_country"]
    let nd := mapField tenderData nd "city" ["city", "town", "location_city", "place"]
    let nd := mapField tenderData nd "organization_name"
      ["organization_name", "agency", "authority", "contracting_authority", "buyer_name"]
    let nd := mapField tenderData nd "organization_id"
      ["organization_id", "agency_id", "authority_id"]
    let nd := mapField tenderData nd "notice_id"
      ["notice_id", "id", "tender_id", "opportunity_id", "document_number"]
    let nd := mapField tenderData nd "reference_number"
      ["reference_number", "reference", "ref", "solicitation_number"]
    let nd := mapField tenderData nd "language" ["language", "lang"]
    let nd := extractDate tenderData nd "publication_date"
      ["publication_date", "published", "publish_date", "issued_date", "created_at"]
    let nd := extractDate tenderData nd "deadline_date"
      ["deadline_date", "deadline", "closing_date", "response_date", "submission_deadline"]
    let nd := extractMoney tenderData nd
      ["value", "amount", "contract_value", "estimated_value", "budget"]
    let nd := extractContacts tenderData nd
    let nd := extractDocumentLinks tenderData nd
    let nd :=
      if truthy (rget tenderData "url") then rset nd "url" (rget tenderData "url")
      else if truthy (rget tenderData "link") then rset nd "url" (rget tenderData "link")
      else if truthy (rget tenderData "web_link") then
        rset nd "url" (rget tenderData "web_link")
      else nd
    let nd := inferStatusFromDates now nd
    enhanceExtractedFields nd

/-- Observable outcome of one invocation of the completion service and
the response-repair ladder, per the external-interface contract: a
recovered JSON record, an empty response, an unrecoverable parse, or a
thrown error with its message. -/
inductive LlmAttempt where
  | ok (json : RMap)
  | emptyResponse
  | parseFail
  | throwMsg (msg : String)

/-- The quota and billing error test of the normalizeTender catch. -/
def creditIssue (m : String) : Bool :=
  containsSub "402".data m.data ∨ containsSub "Payment Required".data m.data ∨
  containsSub "insufficient_quota".data m.data ∨ containsSub "billing".data m.data

/-- Source function fallbackWithMetadata (part 003): the rule-based
record, stamped with the given method name, except that the adb and
afd_tenders sources asked for rule-based-fast keep that label; source
table and raw id are attached.  The rule-based normalizer of the model is
total, so the error branch of the source (reached only on a thrown
exception) is unreachable here. -/
def fallbackWithMetadata (now : ℕ) (tender : RMap) (sourceTable method : String) :
    RMap :=
  let result := fallbackNormalizeTender now tender sourceTable
  let result :=
    if (sourceTable = "adb" ∨ sourceTable = "afd_tenders") ∧
        method = "rule-based-fast" then
      rset result "normalized_method" (.str "rule-based-fast")
    else rset result "normalized_method" (.str method)
  let result := rset result "source_table" (.str sourceTable)
  rset result "source_id" (rget tender "id")

/-- Source function normalizeTender (part 003), with the completion
service modeled by its outcome: records whose decision skips the LLM go
through fastNormalizeTender and are stamped rule-based-fast; otherwise the
LLM outcome decides between the llm stamp on the enhanced response and
fallbackWithMetadata with the method string of the failure branch taken
(empty-llm-response, json-parse-failure, api-credit-issue, or the error
message).  Wall-clock durations are abstracted to zero. -/
def normalizeTender (att : LlmAttempt) (now : ℕ) (tender : RMap)
    (sourceTable : String) : RMap :=
  let ev := evalDecision tender sourceTable
  if ¬ev.needsLLM then
    let nd := fastNormalizeTender now tender sourceTable
    let nd := rset nd "normalized_at" (.tstamp now)
    let nd := rset nd "normalized_method" (.str "rule-based-fast")
    let nd := rset nd "source_table" (.str sourceTable)
    rset nd "processing_time_ms" (.num (.fin 0))
  else
    match att with
    | .ok json =>
      let e := enhanceTenderTitles json
      let e := rset e "normalized_at" (.tstamp now)
      let e := rset e "normalized_method" (.str "llm")
      let e := rset e "source_table" (.str sourceTable)
      rset e "processing_time_ms" (.num (.fin 0))
    | .emptyResponse => fallbackWithMetadata now tender sourceTable "empty-llm-response"
    | .parseFail => fallbackWithMetadata now tender sourceTable "json-parse-failure"
    | .throwMsg m =>
      if creditIssue m then fallbackWithMetadata now tender sourceTable "api-credit-issue"
      else fallbackWithMetadata now tender sourceTable ("error: " ++ m)

/-- Per-source counters of global.normalizationStats.sources. -/
structure SrcStats where
  total : ℕ
  skippedLLM : ℕ
  deriving DecidableEq, Repr

/-- The process-wide counters global.normalizationStats. -/
structure NormStats where
  total : ℕ
  skippedLLM : ℕ
  sources : List (String × SrcStats)
  deriving DecidableEq, Repr

/-- The initial value installed by global.normalizationStats ||= ... . -/
def initNormStats : NormStats := ⟨0, 0, []⟩

/-- The statistics update of evaluateNormalizationNeeds: the global total
and skippedLLM counters and the per-source pair are each incremented by
one (a missing per-source entry is first created at zero). -/
def bumpStats (st : NormStats) (sourceTable : String) : NormStats :=
  let sources :=
    if st.sources.any fun p => p.1 = sourceTable then
      st.sources.map fun p =>
        if p.1 = sourceTable then (p.1, ⟨p.2.total + 1, p.2.skippedLLM + 1⟩) else p
    else
      st.sources ++ [(sourceTable, ⟨1, 1⟩)]
  ⟨st.total + 1, st.skippedLLM + 1, sources⟩

/-- Source function evaluateNormalizationNeeds (part 003), with the
process-wide counters passed as explicit state.  The three always-fast
sources return before the statistics block, so they leave the counters
untouched; otherwise the counters are bumped exactly when the decision is
to skip the LLM. -/
def evaluateNormalizationNeeds (tender : RMap) (sourceTable : String)
    (st : NormStats) : NormDecision × NormStats :=
  if sourceTable = "wb" ∨ sourceTable = "adb" ∨ sourceTable = "afd_tenders" then
    (evalDecision tender sourceTable, st)
  else
    let result := evalDecision tender sourceTable
    (result, if ¬result.needsLLM then bumpStats st sourceTable else st)

/-! Embedding of processingService.js: the numeric-schema guard, the
fast-path predicate and the batch orchestrator processTendersFromTable.
The process-wide performance statistics object of the source only feeds
logging and is not part of any claim; it is omitted. -/

/-- Source function extractNumericValue of processingService.js: null and
undefined give null; a value that is already a number is returned as is,
before any further check; strings are stripped of currency codes, symbols,
commas, whitespace, trailing codes and other non-numeric characters, then
parsed, with NaN, non-finite and magnitude-above-1e15 results replaced by
null. -/
def extractNumericValue (v : JsVal) : JsVal :=
  match v with
  | .jnull => .jnull
  | .undef => .jnull
  | .num n => .num n
  | _ =>
    match jsToStr v with
    | none => .jnull
    | some s =>
      let c1 := stripCodeRuns s.data
      let c2 := stripSymbols c1
      let c3 := c2.filter fun c => ¬(c = ',' ∨ isSpaceC c)
      let c4 := stripTrailCode c3
      let c5 := c4.filter fun c => isDigitC c ∨ c = '.' ∨ c = '-'
      let c6 := jsTrim c5
      if c6 = [] ∨ c6 = ['.'] ∨ c6 = ['-'] then .jnull
      else
        match jsParseFloat c6 with
        | none => .jnull
        | some q => if 10 ^ 15 < |q| then .jnull else .num (.fin q)

/-- The configuration flags of CONFIG in processingService.js. -/
def cfgUseWbFastNormalization : Bool := true

/-- The ADB fast-normalization flag of CONFIG. -/
def cfgUseAdbFastNormalization : Bool := true

/-- Source function shouldUseFastNormalization: sam_gov always, wb and adb
by configuration.  The final English-content branch of the source reads
the language, minimalContent, complexFields and needsTranslation
properties of the decision object, none of which exist on the object
returned by evaluateNormalizationNeeds, so that branch never fires and the
function is false for every other source. -/
def shouldUseFastNormalization (sourceTable : String) (_needs : NormDecision) :
    Bool :=
  if sourceTable = "sam_gov" then true
  else if sourceTable = "wb" ∧ cfgUseWbFastNormalization then true
  else if sourceTable = "adb" ∧ cfgUseAdbFastNormalization then true
  else false

/-- A source adapter, per the external collaborator contract of the spec:
a source name, an id extractor (none models a falsy id), default field
values and a url generator. -/
structure Adapter where
  sourceName : String
  getSourceId : RMap → Option String
  mapFields : RMap → RMap
  generateUrl : RMap → Option String

/-- Oracle outcome of the completion service for one record in one batch:
whether the first, timeout-guarded attempt exceeds the orchestrator
timeout, the outcome of that attempt otherwise, and the outcome of the
retry performed in the catch branch. -/
structure LlmBehavior where
  orchTimeout : Bool
  attempt1 : LlmAttempt
  attempt2 : LlmAttempt

/-- A row of the unified_tenders store: compound key, freshness timestamp
(maintained by the store on insert and update) and the record payload. -/
structure URow where
  source_table : String
  source_id : String
  updated_at : Option ℕ
  payload : RMap

/-- Definedness of a value, the value !== null && value !== undefined test
of the adapter defaults loop. -/
def definedV : JsVal → Bool
  | .jnull => false
  | .undef => false
  | _ => true

/-- Row lookup by compound key. -/
def findRow (db : List URow) (table id : String) : Option URow :=
  db.find? fun r => r.source_table = table ∧ r.source_id = id

/-- Source method BaseSourceAdapter.processTender: normalization, then
adapter defaults for still-falsy fields (null and undefined defaults are
not applied), url generation for a falsy url, and the source metadata
including the raw record as original_data.  The useFastNormalization
argument passed by the orchestrator is not in the method's parameter list
and is ignored, as in the source. -/
def processTenderA (A : Adapter) (att : LlmAttempt) (now : ℕ) (t : RMap) : RMap :=
  let nd := normalizeTender att now t A.sourceName
  let nd := (A.mapFields t).foldl
    (fun acc p =>
      if ¬truthy (rget acc p.1) ∧ definedV p.2 then rset acc p.1 p.2
      else acc) nd
  let nd :=
    if truthy (rget nd "url") then nd
    else rset nd "url" (match A.generateUrl t with | some u => .str u | none => .jnull)
  let nd := rset nd "source_table" (.str A.sourceName)
  let nd := rset nd "source_id"
    (match A.getSourceId t with | some s => .str s | none => JsVal.undef)
  rset nd "original_data" (.objv t)

/-- The per-record cleanup of the orchestrator: empty strings become null,
the three numeric schema fields go through extractNumericValue, and the
contract_value field is removed. -/
def cleanupRecord (nd : RMap) : RMap :=
  let nd1 := nd.map fun p =>
    if (match p.2 with | .str s => s.isEmpty | _ => false) then (p.1, JsVal.jnull)
    else if p.1 = "estimated_value" ∨ p.1 = "award_value" ∨ p.1 = "potential_value" then
      (p.1, extractNumericValue p.2)
    else p
  rdel nd1 "contract_value"

/-- The mutable per-batch counters and live store of the orchestrator.
The fallback and fastNormalization counters are declared, logged and
returned by the source function but never incremented anywhere in its
body; the model carries them to mirror that. -/
structure BatchSt where
  db : List URow
  processed : ℕ
  updated : ℕ
  skipped : ℕ
  errors : ℕ
  fallbackCount : ℕ
  fastNormalizationCount : ℕ
  attempts : ℕ

/-- Processing of one candidate inside a chunk: decision, normalization
with the timeout guard on the LLM path only (a timeout is caught and
retried through the adapter once more), cleanup, the error-status check,
and the update-else-insert write with the unique-violation benign skip.
The existingTenderMap of the source is the exist predicate; the insert
conflict is detected against the live store. -/
def writePhase (tableName : String) (now : ℕ) (exist : String → Bool)
    (st : BatchSt) (sourceId : String) (nd0 : RMap) : BatchSt :=
  if getStr nd0 "status" = some "error" then { st with errors := st.errors + 1 }
  else
    let nd := rset nd0 "source_table" (.str tableName)
    let nd := rset nd "source_id" (.str sourceId)
    if exist sourceId then
      { st with
        db := st.db.map fun r =>
          if r.source_table = tableName ∧ r.source_id = sourceId then
            { r with payload := nd, updated_at := some now }
          else r
        updated := st.updated + 1
        processed := st.processed + 1 }
    else
      match findRow st.db tableName sourceId with
      | some _ => { st with skipped := st.skipped + 1 }
      | none =>
        { st with
          db := st.db ++ [⟨tableName, sourceId, some now, nd⟩]
          processed := st.processed + 1 }

/-- Processing of one candidate, from decision to the write phase. -/
def processOne (A : Adapter) (tableName : String) (oracle : RMap → LlmBehavior)
    (now : ℕ) (exist : String → Bool) (st : BatchSt) (t : RMap) (idx : ℕ) :
    BatchSt :=
  let st := { st with attempts := st.attempts + 1 }
  let sourceId := (A.getSourceId t).getD (tableName ++ "_" ++ toString idx)
  let needs := evalDecision t tableName
  let useFast := shouldUseFastNormalization tableName needs
  let b := oracle t
  let nd :=
    if useFast then processTenderA A b.attempt1 now t
    else if b.orchTimeout then processTenderA A b.attempt2 now t
    else processTenderA A b.attempt1 now t
  writePhase tableName now exist st sourceId (cleanupRecord nd)

/-- Sequential processing of one chunk (the bounded concurrency and the
stagger delays of the source affect scheduling only; every record of the
chunk completes before the loop's break test, which is what the counters
observe). -/
def processChunk (A : Adapter) (tableName : String) (oracle : RMap → LlmBehavior)
    (now : ℕ) (exist : String → Bool) :
    BatchSt → List RMap → ℕ → BatchSt
  | st, [], _ => st
  | st, t :: rest, base =>
    processChunk A tableName oracle now exist
      (processOne A tableName oracle now exist st t base) rest (base + 1)

/-- The chunked processing loop of the orchestrator: the for condition
admits a chunk while candidates remain and, unless the limit is
non-positive (the unlimited mode), the processed count is below the limit;
after each chunk the loop breaks when the processed count has reached the
limit or the chunk reached the end of the list. -/
def chunkLoopF (A : Adapter) (tableName : String) (oracle : RMap → LlmBehavior)
    (now : ℕ) (exist : String → Bool) (limit : ℤ) :
    ℕ → List RMap → ℕ → BatchSt → BatchSt
  | 0, _, _, st => st
  | fuel + 1, pending, base, st =>
    if pending.isEmpty then st
    else if ¬(limit ≤ 0 ∨ (st.processed : ℤ) < limit) then st
    else
      let st' := processChunk A tableName oracle now exist st (pending.take 25) base
      if limit ≤ (st'.processed : ℤ) ∨ pending.length ≤ 25 then st'
      else
        chunkLoopF A tableName oracle now exist limit fuel (pending.drop 25)
          (base + 25) st'

/-- Entry of the chunk loop, with the candidate count as sufficient fuel
(every iteration consumes a 25-element chunk). -/
def chunkLoop (A : Adapter) (tableName : String) (oracle : RMap → LlmBehavior)
    (now : ℕ) (exist : String → Bool) (limit : ℤ) (pending : List RMap)
    (base : ℕ) (st : BatchSt) : BatchSt :=
  chunkLoopF A tableName oracle now exist limit (pending.length + 1) pending base st

/-- The pre-processing filter of the orchestrator, in candidate order:
candidates with a falsy source id are dropped without counting; unknown
ids are kept; known ids are kept under forceReprocess, kept when both
freshness timestamps exist and the candidate's is strictly newer, and
otherwise counted as skipped and dropped. -/
def filterStep (A : Adapter) (tableName : String) (force : Bool)
    (db0 : List URow) (acc : List RMap × ℕ) (t : RMap) : List RMap × ℕ :=
  match A.getSourceId t with
  | none => acc
  | some id =>
    match findRow db0 tableName id with
    | none => (acc.1 ++ [t], acc.2)
    | some row =>
      if force then (acc.1 ++ [t], acc.2)
      else
        match getTs t "updated_at", row.updated_at with
        | some tc, some te =>
          if tc ≤ te then (acc.1, acc.2 + 1) else (acc.1 ++ [t], acc.2)
        | _, _ => (acc.1, acc.2 + 1)

/-- The candidate filter as a left fold of the per-candidate step. -/
def filterCands (A : Adapter) (tableName : String) (force : Bool)
    (db0 : List URow) (cands : List RMap) : List RMap × ℕ :=
  cands.foldl (filterStep A tableName force db0) ([], 0)

/-- The returned batch summary of processTendersFromTable, with the
resulting store contents. -/
structure RunResult where
  processed : ℕ
  updated : ℕ
  skipped : ℕ
  errors : ℕ
  fallback : ℕ
  fastNormalization : ℕ
  attempts : ℕ
  db : List URow

/-- Source function processTendersFromTable, in the branch that fetches
and filters its own candidates: the candidate list is the fetch result;
the existence map is keyed on the candidate ids present in the store at
batch start; the filtered candidates run through the chunk loop; and the
counters are returned with the final store.  The last_processed_at
bookkeeping touches only the raw source table and is omitted. -/
def processTendersFromTable (A : Adapter) (tableName : String) (limit : ℤ)
    (force : Bool) (oracle : RMap → LlmBehavior) (now : ℕ) (cands : List RMap)
    (db0 : List URow) : RunResult :=
  let fl := filterCands A tableName force db0 cands
  let sourceIds := cands.filterMap A.getSourceId
  let exist : String → Bool := fun id =>
    decide (id ∈ sourceIds) && (findRow db0 tableName id).isSome
  let st := chunkLoop A tableName oracle now exist limit fl.1 0
    ⟨db0, 0, 0, fl.2, 0, 0, 0, 0⟩
  ⟨st.processed, st.updated, st.skipped, st.errors, st.fallbackCount,
    st.fastNormalizationCount, st.attempts, st.db⟩

/-! Embedding of fillMissingFields of the alternative normalizer copy
(part 002, the Field Enhancement back-fill pass) and its helpers.  Its
isEnglishText is textually identical to the part 003 one embedded above
and is shared.  The labeled-phrase scanners model the principal parse of
each capture pattern (label, separator run, lazy capture to the first
delimiter); none of the fill values extracted by them is load-bearing for
a theorem, which depend only on the write targets and their guards. -/

namespace P2

/-- A lazy labeled capture at the head of the text: the first label (in
alternation order) matching case-insensitively, then a run of whitespace
and colons, then a non-empty capture of class characters up to the first
dot, comma, newline or end of text. -/
def tryLabelsAt (labels : List String) (capOk : Char → Bool) (l : List Char) :
    Option (List Char) :=
  labels.findSome? fun lab =>
    match matchCiLit (jsUpper lab).data l with
    | some rest =>
      let r1 := rest.dropWhile fun c => isSpaceC c ∨ c = ':'
      let cap := r1.takeWhile fun c => capOk c ∧ ¬(c = '.' ∨ c = ',' ∨ c = '\n')
      if cap.isEmpty then none
      else
        match r1.drop cap.length with
        | [] => some cap
        | c :: _ => if c = '.' ∨ c = ',' ∨ c = '\n' then some cap else none
    | none => none

/-- Leftmost labeled capture in the text. -/
def scanLabelCap (labels : List String) (capOk : Char → Bool) :
    List Char → Option (List Char)
  | [] => none
  | c :: rest =>
    match tryLabelsAt labels capOk (c :: rest) with
    | some cap => some cap
    | none => scanLabelCap labels capOk rest

/-- Capture class of the buyer patterns. -/
def buyerCap (c : Char) : Bool :=
  isAlphaC c ∨ isDigitC c ∨ isSpaceC c ∨ c = '.' ∨ c = ',' ∨ c = '&' ∨
  c = '\'' ∨ c = '(' ∨ c = ')' ∨ c = '-'

/-- Capture class of the project patterns. -/
def projCap (c : Char) : Bool :=
  isAlphaC c ∨ isDigitC c ∨ isSpaceC c ∨ c = '.' ∨ c = ',' ∨ c = '\'' ∨
  c = '"' ∨ c = '(' ∨ c = ')' ∨ c = '-'

/-- Capture class of the contact-name patterns. -/
def contactCap (c : Char) : Bool :=
  isAlphaC c ∨ isDigitC c ∨ isSpaceC c ∨ c = '.' ∨ c = ',' ∨ c = '\'' ∨
  c = '(' ∨ c = ')' ∨ c = '-'

/-- The organization-id lookup table of inference 3. -/
def orgIdMap : List (String × String) :=
  [("100171790", "USAID (US Agency for International Development)"),
   ("100175108", "USAID East Africa"),
   ("100175112", "USAID Southern Africa"),
   ("100181493", "USAID Afghanistan"),
   ("100184904", "USAID Kosovo"),
   ("100187934", "USAID Sudan"),
   ("100000000", "World Bank"),
   ("100000001", "Asian Development Bank"),
   ("100000002", "European Union"),
   ("100000003", "United Nations Development Programme")]

/-- Inference 1: an English title is duplicated into a missing English
title. -/
def fmStep1 (t : RMap) : RMap :=
  if truthy (rget t "title") ∧ ¬truthy (rget t "title_english") ∧
      isEnglishText (rget t "title") then
    rset t "title_english" (rget t "title")
  else t

/-- Inference 2: an English description is duplicated into a missing
English description. -/
def fmStep2 (t : RMap) : RMap :=
  if truthy (rget t "description") ∧ ¬truthy (rget t "description_english") ∧
      isEnglishText (rget t "description") then
    rset t "description_english" (rget t "description")
  else t

/-- Inference 3: a missing organization name is looked up from the
organization id; on a hit both the name and, without any emptiness guard,
the English name are written. -/
def fmStep3 (t : RMap) : RMap :=
  if ¬truthy (rget t "organization_name") ∧ truthy (rget t "organization_id") then
    match jsToStr (rget t "organization_id") with
    | some idStr =>
      match orgIdMap.find? fun p => p.1 = idStr with
      | some p =>
        rset (rset t "organization_name" (.str p.2)) "organization_name_english"
          (.str p.2)
      | none => t
    | none => t
  else t

/-- Inference 4: an English organization name is duplicated into a missing
English organization name. -/
def fmStep4 (t : RMap) : RMap :=
  if truthy (rget t "organization_name") ∧
      ¬truthy (rget t "organization_name_english") ∧
      isEnglishText (rget t "organization_name") then
    rset t "organization_name_english" (rget t "organization_name")
  else t

/-- Inference 5: a missing status is inferred from the deadline against
the current time (an unparsable deadline compares false and gives
Closed). -/
def fmStep5 (now : ℕ) (t : RMap) : RMap :=
  if ¬truthy (rget t "status") ∧ truthy (rget t "deadline_date") then
    match jsValDateMs (rget t "deadline_date") with
    | some ms => rset t "status" (.str (if (now : ℤ) < ms then "Open" else "Closed"))
    | none => rset t "status" (.str "Closed")
  else t

/-- Label set of the first buyer pattern. -/
def buyerLabels1 : List String :=
  ["issued by", "purchaser", "buyer", "procuring entity", "client",
   "contracting authority", "awarded to", "contractor"]

/-- Label set of the second buyer pattern. -/
def buyerLabels2 : List String := ["on behalf of", "for the"]

/-- Inference 6: a missing buyer is extracted from the description by the
two labeled patterns in order, under the raw-capture length guard; the
English buyer rides along, without any emptiness guard, when the buyer
reads as English. -/
def fmStep6 (t : RMap) : RMap :=
  if ¬truthy (rget t "buyer") ∧ truthy (rget t "description") then
    match rget t "description" with
    | .str d =>
      let try1 :=
        match scanLabelCap buyerLabels1 buyerCap d.data with
        | some cap => if 3 < cap.length ∧ cap.length < 100 then some cap else none
        | none => none
      let cap? :=
        match try1 with
        | some cap => some cap
        | none =>
          match scanLabelCap buyerLabels2 buyerCap d.data with
          | some cap => if 3 < cap.length ∧ cap.length < 100 then some cap else none
          | none => none
      match cap? with
      | some cap =>
        let buyer : String := ⟨jsTrim cap⟩
        let t1 := rset t "buyer" (.str buyer)
        if isEnglishText (.str buyer) then rset t1 "buyer_english" (.str buyer)
        else t1
      | none => t
    | _ => t
  else t

/-- Inference 7: a missing normalized_at is stamped with the current
time. -/
def fmStep7 (now : ℕ) (t : RMap) : RMap :=
  if ¬truthy (rget t "normalized_at") then rset t "normalized_at" (.tstamp now)
  else t

/-- Label sets of the five project patterns, tried in order. -/
def projLabelSets : List (List String) :=
  [["project name"], ["project"], ["program"], ["contract for"], ["related to"]]

/-- The capture computation of inference 8: the five label sets tried in
order on the description, each under the raw-capture length guard. -/
def projCapFromDesc (d : List Char) : Option (List Char) :=
  projLabelSets.findSome? fun labs =>
    match scanLabelCap labs projCap d with
    | some cap => if 3 < cap.length ∧ cap.length < 100 then some cap else none
    | none => none

/-- Inference 8: a missing project name is extracted from the description;
the English project name rides along, without any emptiness guard, when it
reads as English. -/
def fmStep8 (t : RMap) : RMap :=
  if ¬truthy (rget t "project_name") ∧ truthy (rget t "description") then
    match rget t "description" with
    | .str d =>
      match projCapFromDesc d.data with
      | some cap =>
        let pn : String := ⟨jsTrim cap⟩
        let t1 := rset t "project_name" (.str pn)
        if isEnglishText (.str pn) then rset t1 "project_name_english" (.str pn)
        else t1
      | none => t
    | _ => t
  else t

/-- The sector keyword table of inference 9, in source order. -/
def sectorKeywords : List (String × List String) :=
  [("Information Technology",
    ["IT", "software", "hardware", "computer", "technology", "digital", "cloud",
     "data center", "system integration", "ERP", "SAP", "AI",
     "artificial intelligence", "machine learning", "database"]),
   ("Healthcare",
    ["health", "medical", "hospital", "clinic", "pharmaceutical", "drug",
     "healthcare", "medicine", "patient", "doctor", "nurse", "diagnostic",
     "treatment"]),
   ("Construction",
    ["construction", "building", "infrastructure", "road", "bridge", "dam",
     "highway", "renovation", "civil works", "contractor", "concrete",
     "asphalt", "engineering"]),
   ("Education",
    ["education", "school", "university", "college", "training", "learning",
     "academic", "student", "teacher", "educational", "curriculum", "classroom"]),
   ("Agriculture",
    ["agriculture", "farming", "crop", "livestock", "irrigation", "farm",
     "agricultural", "food", "seed", "fertilizer", "harvesting", "plantation"]),
   ("Energy",
    ["energy", "power", "electricity", "renewable", "solar", "wind",
     "hydroelectric", "fossil fuel", "coal", "gas", "oil", "nuclear", "grid",
     "transmission"]),
   ("Transportation",
    ["transport", "logistics", "shipping", "freight", "rail", "railway",
     "airport", "port", "vessel", "car", "truck", "bus", "metro", "transit"]),
   ("Telecommunications",
    ["telecom", "communication", "network", "cellular", "mobile", "fiber optic",
     "broadband", "internet", "wireless", "5G", "4G", "LTE", "cable"]),
   ("Financial Services",
    ["financial", "banking", "insurance", "investment", "finance", "loan",
     "credit", "bank", "capital", "fund", "pension", "accounting", "audit"]),
   ("Environmental",
    ["environment", "environmental", "conservation", "sustainability", "waste",
     "pollution", "recycling", "climate", "green", "eco", "biodiversity",
     "wastewater"]),
   ("Water & Sanitation",
    ["water", "sanitation", "sewage", "plumbing", "drainage", "potable",
     "clean water", "drinking water", "pump", "pipe", "WASH", "hygiene"]),
   ("Defense & Security",
    ["defense", "security", "military", "weapon", "surveillance", "protection",
     "police", "intelligence", "radar", "armor", "combat", "cyber"]),
   ("Mining",
    ["mining", "mineral", "ore", "extraction", "quarry", "coal", "gold",
     "silver", "copper", "excavation", "drill"]),
   ("Manufacturing",
    ["manufacturing", "factory", "industrial", "assembly", "production",
     "machinery", "equipment", "fabrication", "processing"]),
   ("Retail & Consumer Goods",
    ["retail", "consumer", "merchandise", "goods", "product", "store",
     "ecommerce", "supply chain"]),
   ("Tourism & Hospitality",
    ["tourism", "hospitality", "hotel", "restaurant", "travel", "leisure",
     "accommodation", "tourist"])]

/-- Inference 9: a missing sector is chosen by word-bounded keyword
scoring over the lowercased description and title (title hits double),
first strict maximum wins, with a minimum score of two. -/
def sectorBest (descL titleL : List Char) : Option String × ℕ :=
  sectorKeywords.foldl
    (fun (acc : Option String × ℕ) p =>
      let c := (p.2.map fun kw =>
        countWB (jsLower kw).data descL + 2 * countWB (jsLower kw).data titleL).sum
      if acc.2 < c then (some p.1, c) else acc)
    (none, 0)

/-- Inference 9: a missing sector is filled from the keyword scoring when
the best score reaches two. -/
def fmStep9 (t : RMap) : RMap :=
  if ¬truthy (rget t "sector") ∧ truthy (rget t "description") then
    match rget t "description" with
    | .str d =>
      let descL := (jsLower d).data
      let titleL : List Char :=
        match rget t "title" with
        | .str s => (jsLower s).data
        | _ => []
      let best := sectorBest descL titleL
      if 2 ≤ best.2 then
        match best.1 with
        | some s => rset t "sector" (.str s)
        | none => t
      else t
    | _ => t
  else t

/-- The country list of inference 10, in source order. -/
def commonCountries : List String :=
  ["Afghanistan", "Albania", "Algeria", "Angola", "Argentina", "Armenia",
   "Australia", "Austria", "Azerbaijan", "Bangladesh", "Belgium", "Benin",
   "Bolivia", "Bosnia", "Botswana", "Brazil", "Bulgaria", "Burkina Faso",
   "Burundi", "Cambodia", "Cameroon", "Canada", "Chad", "Chile", "China",
   "Colombia", "Congo", "Costa Rica", "Croatia", "Cuba", "Cyprus",
   "Czech Republic", "Denmark", "Dominican Republic", "DR Congo", "Ecuador",
   "Egypt", "El Salvador", "Estonia", "Ethiopia", "Finland", "France",
   "Georgia", "Germany", "Ghana", "Greece", "Guatemala", "Guinea", "Haiti",
   "Honduras", "Hungary", "Iceland", "India", "Indonesia", "Iran", "Iraq",
   "Ireland", "Israel", "Italy", "Jamaica", "Japan", "Jordan", "Kazakhstan",
   "Kenya", "Kosovo", "Kuwait", "Kyrgyzstan", "Laos", "Latvia", "Lebanon",
   "Lesotho", "Liberia", "Libya", "Lithuania", "Madagascar", "Malawi",
   "Malaysia", "Mali", "Mauritania", "Mexico", "Moldova", "Mongolia",
   "Montenegro", "Morocco", "Mozambique", "Myanmar", "Namibia", "Nepal",
   "Netherlands", "New Zealand", "Nicaragua", "Niger", "Nigeria",
   "North Macedonia", "Norway", "Pakistan", "Palestine", "Panama",
   "Papua New Guinea", "Paraguay", "Peru", "Philippines", "Poland", "Portugal",
   "Qatar", "Romania", "Russia", "Rwanda", "Saudi Arabia", "Senegal", "Serbia",
   "Sierra Leone", "Singapore", "Slovakia", "Slovenia", "Somalia",
   "South Africa", "South Korea", "South Sudan", "Spain", "Sri Lanka", "Sudan",
   "Sweden", "Switzerland", "Syria", "Taiwan", "Tajikistan", "Tanzania",
   "Thailand", "Timor-Leste", "Togo", "Tunisia", "Turkey", "Turkmenistan",
   "Uganda", "Ukraine", "United Arab Emirates", "United Kingdom",
   "United States", "USA", "Uruguay", "Uzbekistan", "Venezuela", "Vietnam",
   "Yemen", "Zambia", "Zimbabwe"]

/-- A word-bounded, case-insensitive country-name match at a position,
returning the text slice as captured. -/
def countryAt (prev : Option Char) (l : List Char) : Option (List Char) :=
  if ¬boundaryBefore prev then none
  else
    commonCountries.findSome? fun nm =>
      match matchCiLit (jsUpper nm).data l with
      | some rest => if wordAfter rest then none else some (l.take nm.length)
      | none => none

/-- Leftmost country mention in a text. -/
def countryScan (prev : Option Char) (l : List Char) : Option (List Char) :=
  match l with
  | [] => none
  | c :: rest =>
    match countryAt prev (c :: rest) with
    | some slice => some slice
    | none => countryScan (some c) rest

/-- Inference 10: a missing country is filled with the first country
mention found in the description, in its textual spelling. -/
def fmStep10 (t : RMap) : RMap :=
  if ¬truthy (rget t "country") ∧ truthy (rget t "description") then
    match rget t "description" with
    | .str d =>
      match countryScan none d.data with
      | some slice => rset t "country" (.str ⟨slice⟩)
      | none => t
    | _ => t
  else t

/-- Capture class of the reference-number patterns: letters (the class is
case-insensitive), digits, dash and slash. -/
def refCap (c : Char) : Bool :=
  isAlphaC c ∨ isDigitC c ∨ c = '-' ∨ c = '/'

/-- The optional-No, colon-or-dot, whitespace, capture tail shared by the
reference patterns, with the optional No tried greedily first. -/
def refAfterNoColon (r : List Char) : Option (List Char) :=
  let tryAt : List Char → Option (List Char) := fun r2 =>
    match r2 with
    | c :: r3 =>
      if c = ':' ∨ c = '.' then
        let r4 := r3.dropWhile isSpaceC
        let cap := r4.takeWhile refCap
        if cap.isEmpty then none else some cap
      else none
    | [] => none
  match matchCiLit "NO".data r with
  | some r2 =>
    match tryAt r2 with
    | some cap => some cap
    | none => tryAt r
  | none => tryAt r

/-- Reference pattern 2, Ref(?:erence)?\s*(?:No)?[:.]\s*capture. -/
def rp2At (prev : Option Char) (l : List Char) : Option (List Char) :=
  if ¬boundaryBefore prev then none
  else
    match matchCiLit "REF".data l with
    | some r =>
      let tryFrom : List Char → Option (List Char) := fun rr =>
        refAfterNoColon (rr.dropWhile isSpaceC)
      match matchCiLit "ERENCE".data r with
      | some r2 =>
        match tryFrom r2 with
        | some cap => some cap
        | none => tryFrom r
      | none => tryFrom r
    | none => none

/-- Reference patterns 3 to 5, LIT\s*(?:No)?[:.]\s*capture. -/
def rpLitAt (lit : List Char) (prev : Option Char) (l : List Char) :
    Option (List Char) :=
  if ¬boundaryBefore prev then none
  else
    match matchCiLit lit l with
    | some r => refAfterNoColon (r.dropWhile isSpaceC)
    | none => none

/-- Reference pattern 6, No\.\s*capture. -/
def rp6At (prev : Option Char) (l : List Char) : Option (List Char) :=
  if ¬boundaryBefore prev then none
  else
    match matchCiLit "NO".data l with
    | some ('.' :: r) =>
      let r1 := r.dropWhile isSpaceC
      let cap := r1.takeWhile refCap
      if cap.isEmpty then none else some cap
    | _ => none

/-- Reference patterns 7 to 9, LIT[:.]\s*capture. -/
def rpIdAt (lit : List Char) (prev : Option Char) (l : List Char) :
    Option (List Char) :=
  if ¬boundaryBefore prev then none
  else
    match matchCiLit lit l with
    | some (c :: r) =>
      if c = ':' ∨ c = '.' then
        let r1 := r.dropWhile isSpaceC
        let cap := r1.takeWhile refCap
        if cap.isEmpty then none else some cap
      else none
    | _ => none

/-- Leftmost capture of a positional matcher over a text. -/
def scanCap (mt : Option Char → List Char → Option (List Char))
    (prev : Option Char) (l : List Char) : Option (List Char) :=
  match l with
  | [] => none
  | c :: rest =>
    match mt prev (c :: rest) with
    | some cap => some cap
    | none => scanCap mt (some c) rest

/-- The nine reference patterns of inference 11, tried in order on a
text. -/
def refFromText (l : List Char) : Option String :=
  let pats : List (Option Char → List Char → Option (List Char)) :=
    [fun p s => (q1At p s).map fun n => s.take n,
     rp2At, rpLitAt "RFP".data, rpLitAt "RFQ".data, rpLitAt "ITB".data,
     rp6At, rpIdAt "TENDER ID".data, rpIdAt "NOTICE ID".data,
     rpIdAt "PROJECT ID".data]
  pats.findSome? fun mt => (scanCap mt none l).map fun cap => (⟨cap⟩ : String)

/-- Inference 11: a missing reference number is extracted from the title
first, then from the description. -/
def fmStep11 (t : RMap) : RMap :=
  if ¬truthy (rget t "reference_number") then
    let t1 :=
      if truthy (rget t "title") then
        match rget t "title" with
        | .str s =>
          match refFromText s.data with
          | some r => rset t "reference_number" (.str r)
          | none => t
        | _ => t
      else t
    if ¬truthy (rget t1 "reference_number") ∧ truthy (rget t1 "description") then
      match rget t1 "description" with
      | .str d =>
        match refFromText d.data with
        | some r => rset t1 "reference_number" (.str r)
        | none => t1
      | _ => t1
    else t1
  else t

/-- Contact-name pattern 4: for (?:more )?(?:information|details)[,\s]+
(?:please )?contact[\s:]*capture. -/
def contactP4At (l : List Char) : Option (List Char) :=
  match matchCiLit "FOR ".data l with
  | some r =>
    let r1 := (matchCiLit "MORE ".data r).getD r
    let r2? :=
      match matchCiLit "INFORMATION".data r1 with
      | some x => some x
      | none => matchCiLit "DETAILS".data r1
    match r2? with
    | some r2 =>
      let sep := r2.takeWhile fun c => c = ',' ∨ isSpaceC c
      if sep.isEmpty then none
      else
        let r3 := r2.drop sep.length
        let r4 := (matchCiLit "PLEASE ".data r3).getD r3
        match matchCiLit "CONTACT".data r4 with
        | some r5 =>
          let r6 := r5.dropWhile fun c => isSpaceC c ∨ c = ':'
          let cap := r6.takeWhile fun c =>
            contactCap c ∧ ¬(c = '.' ∨ c = ',' ∨ c = '\n')
          if cap.isEmpty then none
          else
            match r6.drop cap.length with
            | [] => some cap
            | c :: _ => if c = '.' ∨ c = ',' ∨ c = '\n' then some cap else none
        | none => none
    | none => none
  | none => none

/-- The four contact-name extractors of inference 12, each under the raw
capture length guard, tried in order. -/
def contactNameFromDesc (d : List Char) : Option String :=
  let guard : Option (List Char) → Option (List Char) := fun c? =>
    match c? with
    | some cap => if 3 < cap.length ∧ cap.length < 50 then some cap else none
    | none => none
  let tries : List (Option (List Char)) :=
    [guard (scanLabelCap ["contact person"] contactCap d),
     guard (scanLabelCap ["contact"] contactCap d),
     guard (scanLabelCap ["attention", "attn"] contactCap d),
     guard (scanCap (fun _ s => contactP4At s) none d)]
  (tries.findSome? id).map fun cap => (⟨jsTrim cap⟩ : String)

/-- Character class [+0-9\s.()-] of the first phone pattern. -/
def phCap (c : Char) : Bool :=
  c = '+' ∨ isDigitC c ∨ isSpaceC c ∨ c = '.' ∨ c = '(' ∨ c = ')' ∨ c = '-'

/-- The first phone pattern at a position: a phone label, separators, then
a greedy 7-to-20 run of phone characters up to a delimiter. -/
def phoneP1At (l : List Char) : Option (List Char) :=
  ["PHONE", "TEL", "TELEPHONE"].findSome? fun lab =>
    match matchCiLit lab.data l with
    | some r =>
      let r1 := r.dropWhile fun c => isSpaceC c ∨ c = ':'
      let run := (r1.takeWhile phCap).take 20
      let k? := (List.range (run.length + 1)).reverse.findSome? fun k =>
        let delim : Bool :=
          match r1.drop k with
          | [] => true
          | c :: _ => c = '.' ∨ c = ',' ∨ c = '\n'
        if 7 ≤ k ∧ delim then some k else none
      match k? with
      | some k => some (r1.take k)
      | none => none
    | none => none

/-- The second phone pattern at a position: an optional country code with
optional separator, then three-three-four digit groups with optional
single separators, word-bounded; the country-code length backtracks. -/
def phoneP2At (prev : Option Char) (l : List Char) : Option (List Char) :=
  if ¬boundaryBefore prev then none
  else
    let sepC := fun c => c = '-' ∨ c = '.' ∨ c = ' '
    let core : List Char → Option (List Char) := fun r =>
      let (p1, r1) := match r with
        | '(' :: x => (['('], x)
        | x => (([] : List Char), x)
      let g1 := r1.takeWhile isDigitC
      if g1.length < 3 then none
      else
        let r2 := r1.drop 3
        let (p2, r3) := match r2 with
          | ')' :: x => ([')'], x)
          | x => (([] : List Char), x)
        let (s2, r4) := match r3 with
          | c :: x => if sepC c then ([c], x) else (([] : List Char), r3)
          | [] => (([] : List Char), r3)
        let g2 := r4.takeWhile isDigitC
        if g2.length < 3 then none
        else
          let r5 := r4.drop 3
          let (s3, r6) := match r5 with
            | c :: x => if sepC c then ([c], x) else (([] : List Char), r5)
            | [] => (([] : List Char), r5)
          let g3 := r6.takeWhile isDigitC
          if g3.length < 4 ∨ wordAfter (r6.drop 4) then none
          else some (p1 ++ g1.take 3 ++ p2 ++ s2 ++ g2.take 3 ++ s3 ++ g3.take 4)
    let withCC : ℕ → Option (List Char) := fun n =>
      let (plus, r0) := match l with
        | '+' :: x => (['+'], x)
        | x => (([] : List Char), x)
      let cc := r0.takeWhile isDigitC
      if cc.length < n then none
      else
        let r1 := r0.drop n
        let (s1, r2) := match r1 with
          | c :: x => if sepC c then ([c], x) else (([] : List Char), r1)
          | [] => (([] : List Char), r1)
        (core r2).map fun m => plus ++ cc.take n ++ s1 ++ m
    match withCC 3 with
    | some m => some m
    | none =>
      match withCC 2 with
      | some m => some m
      | none =>
        match withCC 1 with
        | some m => some m
        | none => core l

/-- Inference 12: email, contact name and phone from the description, each
only when its own field is missing, all under the outer guard that the
email or the name is missing. -/
def fmStep12 (t : RMap) : RMap :=
  if (¬truthy (rget t "contact_email") ∨ ¬truthy (rget t "contact_name")) ∧
      truthy (rget t "description") then
    match rget t "description" with
    | .str d =>
      let t1 :=
        if ¬truthy (rget t "contact_email") then
          match emailScan none d.data with
          | some e => rset t "contact_email" (.str e)
          | none => t
        else t
      let t2 :=
        if ¬truthy (rget t1 "contact_name") then
          match contactNameFromDesc d.data with
          | some n => rset t1 "contact_name" (.str n)
          | none => t1
        else t1
      if ¬truthy (rget t2 "contact_phone") then
        match scanCap (fun _ s => phoneP1At s) none d.data with
        | some cap =>
          if 6 < cap.length then rset t2 "contact_phone" (.str ⟨jsTrim cap⟩)
          else t2
        | none =>
          match scanCap phoneP2At none d.data with
          | some m =>
            if 6 < m.length then rset t2 "contact_phone" (.str ⟨jsTrim m⟩)
            else t2
          | none => t2
      else t2
    | _ => t
  else t

/-- The tender-type keyword table of inference 13, in source order. -/
def tenderTypeKeywords : List (String × List String) :=
  [("Request for Proposal (RFP)", ["request for proposal", "rfp"]),
   ("Request for Quotation (RFQ)",
    ["request for quotation", "rfq", "price quotation", "quote"]),
   ("Invitation to Bid (ITB)", ["invitation to bid", "itb", "bidding"]),
   ("Expression of Interest (EOI)", ["expression of interest", "eoi", "interest"]),
   ("Request for Information (RFI)", ["request for information", "rfi"]),
   ("Pre-Qualification", ["pre-qualification", "prequalification"]),
   ("Direct Contract", ["direct contract", "direct award", "sole source"]),
   ("Framework Agreement", ["framework", "framework agreement", "indefinite delivery"]),
   ("Construction Contract", ["construction contract", "works contract", "civil works"]),
   ("Service Contract", ["service contract", "services"]),
   ("Supply Contract", ["supply contract", "supplies", "goods"]),
   ("Consulting Services", ["consulting", "consultant"])]

/-- Inference 13: a missing tender type is chosen by substring keyword
scoring over the lowercased title (weight 3) and description (weight 1),
first strict maximum wins, any positive score suffices. -/
def typeBest (titleL descL : List Char) : Option String × ℕ :=
  tenderTypeKeywords.foldl
    (fun (acc : Option String × ℕ) p =>
      let c := (p.2.map fun kw =>
        (if containsSub kw.data titleL then 3 else 0) +
        (if containsSub kw.data descL then 1 else 0)).sum
      if acc.2 < c then (some p.1, c) else acc)
    (none, 0)

/-- Inference 13: a missing tender type is filled with the best-scoring
type, any positive score sufficing. -/
def fmStep13 (t : RMap) : RMap :=
  if ¬truthy (rget t "tender_type") then
    let titleL : List Char :=
      match rget t "title" with
      | .str s => (jsLower s).data
      | _ => []
    let descL : List Char :=
      match rget t "description" with
      | .str s => (jsLower s).data
      | _ => []
    match (typeBest titleL descL).1 with
    | some ty => rset t "tender_type" (.str ty)
    | none => t
  else t

/-- A currency token of the money patterns at the head of the remainder,
case-insensitive, in alternation order; returns the consumed length. -/
def curTokLen (l : List Char) : Option ℕ :=
  match matchCiLit "USD".data l with
  | some _ => some 3
  | none =>
    match matchCiLit "EUR".data l with
    | some _ => some 3
    | none =>
      match matchCiLit "GBP".data l with
      | some _ => some 3
      | none =>
        match matchCiLit "RS".data l with
        | some r => (match r with | '.' :: _ => some 3 | _ => some 2)
        | none =>
          match l with
          | c :: _ => if c = '₹' ∨ c = '£' ∨ c = '€' ∨ c = '$' then some 1 else none
          | [] => none

/-- A million-or-billion unit token at the head, case-insensitive, in
alternation order; returns the consumed length. -/
def unitTokLen (l : List Char) : Option ℕ :=
  match matchCiLit "MILLION".data l with
  | some _ => some 7
  | none =>
    match l with
    | c :: _ =>
      if upC c = 'M' then some 1
      else
        match matchCiLit "BILLION".data l with
        | some _ => some 7
        | none => if upC c = 'B' then some 1 else none
    | [] => none

/-- The money labels of the first money pattern. -/
def moneyLabels : List String :=
  ["budget", "value", "amount", "contract value", "estimated value", "cost",
   "price"]

/-- The first money pattern at a position: label, separators, an optional
is, of or colon, optional currency, the numeric capture, an optional unit
and an optional trailing currency; returns the full matched span and the
capture (principal parse of the optional groups). -/
def moneyP1At (l : List Char) : Option (List Char × List Char) :=
  moneyLabels.findSome? fun lab =>
    match matchCiLit (jsUpper lab).data l with
    | some r =>
      let afterLabel := lab.length
      let sep := r.takeWhile fun c => isSpaceC c ∨ c = ':'
      let r1 := r.drop sep.length
      let isofLen : ℕ :=
        match matchCiLit "IS".data r1 with
        | some _ => 2
        | none =>
          match matchCiLit "OF".data r1 with
          | some _ => 2
          | none => (match r1 with | ':' :: _ => 1 | _ => 0)
      let parseFrom : ℕ → Option (ℕ × List Char) := fun skip =>
        let r2 := r1.drop skip
        let w1 := r2.takeWhile isSpaceC
        let r3 := r2.drop w1.length
        let curLen := (curTokLen r3).getD 0
        let r4 := r3.drop curLen
        let w2 := r4.takeWhile isSpaceC
        let r5 := r4.drop w2.length
        let cap := r5.takeWhile fun c => isDigitC c ∨ c = ',' ∨ c = '.'
        if cap.isEmpty then none
        else
          let r6 := r5.drop cap.length
          let w3 := r6.takeWhile isSpaceC
          let r7 := r6.drop w3.length
          let unitLen := (unitTokLen r7).getD 0
          let r8 := r7.drop unitLen
          let w4 := r8.takeWhile isSpaceC
          let r9 := r8.drop w4.length
          let cur2Len := (curTokLen r9).getD 0
          some (skip + w1.length + curLen + w2.length + cap.length + w3.length +
            unitLen + w4.length + cur2Len, cap)
      match parseFrom isofLen with
      | some (n, cap) => some (l.take (afterLabel + sep.length + n), cap)
      | none =>
        if isofLen = 0 then none
        else
          match parseFrom 0 with
          | some (n, cap) => some (l.take (afterLabel + sep.length + n), cap)
          | none => none
    | none => none

/-- The second money pattern at a position: currency token, whitespace,
numeric capture, optional unit. -/
def moneyP2At (l : List Char) : Option (List Char × List Char) :=
  match curTokLen l with
  | some curLen =>
    let r1 := l.drop curLen
    let w1 := r1.takeWhile isSpaceC
    let r2 := r1.drop w1.length
    let cap := r2.takeWhile fun c => isDigitC c ∨ c = ',' ∨ c = '.'
    if cap.isEmpty then none
    else
      let r3 := r2.drop cap.length
      let w2 := r3.takeWhile isSpaceC
      let r4 := r3.drop w2.length
      let unitLen := (unitTokLen r4).getD 0
      some (l.take (curLen + w1.length + cap.length + w2.length + unitLen), cap)
  | none => none

/-- Leftmost span-and-capture match of a money pattern over a text. -/
def scanMoney (mt : List Char → Option (List Char × List Char)) :
    List Char → Option (List Char × List Char)
  | [] => none
  | c :: rest =>
    match mt (c :: rest) with
    | some r => some r
    | none => scanMoney mt rest

/-- The currency-symbol table of inference 14, in source order; later
entries overwrite earlier ones when both occur in the span. -/
def currencySymbolsP2 : List (String × String) :=
  [("$", "USD"), ("€", "EUR"), ("£", "GBP"), ("₹", "INR"), ("Rs", "INR"),
   ("USD", "USD"), ("EUR", "EUR"), ("GBP", "GBP")]

/-- Inference 14: a missing estimated value is extracted from the
description by the two money patterns; the multiplier comes from a
lowercased substring test of the whole matched span for million, m,
billion or b, and the currency from case-sensitive substring tests of the
span, each without any emptiness guard on the currency field. -/
def fmStep14 (t : RMap) : RMap :=
  if ¬truthy (rget t "estimated_value") ∧ truthy (rget t "description") then
    match rget t "description" with
    | .str d =>
      let found :=
        match scanMoney moneyP1At d.data with
        | some r => some r
        | none => scanMoney moneyP2At d.data
      match found with
      | some (span, cap) =>
        let lowSpan := (jsLower ⟨span⟩).data
        let mult : ℚ :=
          if containsSub "million".data lowSpan ∨ containsSub "m".data lowSpan then
            1000000
          else if containsSub "billion".data lowSpan ∨
              containsSub "b".data lowSpan then
            1000000000
          else 1
        let v : JsVal :=
          match jsParseFloat (cap.filter fun c => c ≠ ',') with
          | some q => .num (.fin (q * mult))
          | none => .num .nan
        let t1 := rset t "estimated_value" v
        currencySymbolsP2.foldl
          (fun acc p =>
            if containsSub p.1.data span then rset acc "currency" (.str p.2)
            else acc) t1
      | none => t
    | _ => t
  else t

/-- The \b\w capitalization of inferences 15 and 16: the first character
of every word run is uppercased. -/
def capWordStarts (l : List Char) : List Char :=
  (l.foldl
    (fun (acc : List Char × Option Char) c =>
      let c' := if isWordC c ∧ boundaryBefore acc.2 then upC c else c
      (acc.1 ++ [c'], some c))
    ([], none)).1

/-- Inference 15: city capitalization (applied to any non-empty city,
including one that was already set). -/
def fmStep15 (t : RMap) : RMap :=
  match rget t "city" with
  | .str s => if s.isEmpty then t else rset t "city" (.str ⟨capWordStarts s.data⟩)
  | _ => t

/-- The special-case country spellings of inference 16. -/
def specialCountries : List (String × String) :=
  [("usa", "USA"), ("uk", "UK"), ("uae", "UAE"),
   ("united states", "United States"),
   ("united states of america", "United States of America"),
   ("united kingdom", "United Kingdom"),
   ("united arab emirates", "United Arab Emirates")]

/-- Inference 16: country re-spelling through the special table, else word
capitalization (applied to any non-empty country, including one that was
already set). -/
def fmStep16 (t : RMap) : RMap :=
  match rget t "country" with
  | .str s =>
    if s.isEmpty then t
    else
      let low := jsLower s
      match specialCountries.find? fun p => p.1 = low with
      | some p => rset t "country" (.str p.2)
      | none => rset t "country" (.str ⟨capWordStarts s.data⟩)
  | _ => t

/-- Source function fillMissingFields (part 002): the sixteen inferences
in source order (the statistics logging of the source has no effect on the
record). -/
def fillMissingFields (now : ℕ) (t : RMap) : RMap :=
  fmStep16 (fmStep15 (fmStep14 (fmStep13 (fmStep12 (fmStep11 (fmStep10
    (fmStep9 (fmStep8 (fmStep7 now (fmStep6 (fmStep5 now (fmStep4 (fmStep3
      (fmStep2 (fmStep1 t)))))))))))))))

end P2

/-! Theorems. -/

/-- The decision component of evaluateNormalizationNeeds is evalDecision,
whatever the counter state. -/
theorem evaluateNormalizationNeeds_fst (tender : RMap) (sourceTable : String)
    (st : NormStats) :
    (evaluateNormalizationNeeds tender sourceTable st).1 =
      evalDecision tender sourceTable := by
  unfold evaluateNormalizationNeeds
  split <;> simp

/-- Balance of the skip-rate counters: the total equals the skipped count,
globally and per source. -/
def statsBalanced (st : NormStats) : Bool :=
  st.total == st.skippedLLM &&
    st.sources.all fun p => p.2.total == p.2.skippedLLM

/-- A sequence of Decision Engine calls, threading the counter state. -/
def runDecisionCalls (calls : List (RMap × String)) (st : NormStats) :
    NormStats :=
  calls.foldl (fun s c => (evaluateNormalizationNeeds c.1 c.2 s).2) st

/-- One Decision Engine call preserves counter balance. -/
theorem statsBalanced_step (tender : RMap) (sourceTable : String)
    (st : NormStats) (h : statsBalanced st = true) :
    statsBalanced (evaluateNormalizationNeeds tender sourceTable st).2 = true := by
  unfold evaluateNormalizationNeeds
  split
  · exact h
  · simp only []
    split
    · unfold statsBalanced bumpStats at *
      simp only [Bool.and_eq_true, beq_iff_eq, List.all_eq_true] at h ⊢
      refine ⟨by omega, ?_⟩
      split
      · intro p hp
        simp only [List.mem_map] at hp
        obtain ⟨q, hq, hqe⟩ := hp
        by_cases hqs : q.1 = sourceTable
        · simp [hqs] at hqe
          subst hqe
          simpa using h.2 q hq
        · simp [hqs] at hqe
          subst hqe
          exact h.2 q hq
      · intro p hp
        simp only [List.mem_append, List.mem_singleton] at hp
        rcases hp with hp | hp
        · exact h.2 p hp
        · subst hp
          rfl
    · exact h

/-- Claim C8: the Normalization Decision Engine is deterministic and free
of feedback: for every record and source, the decision returned by
evaluateNormalizationNeeds does not depend on the state of the process
wide skip-rate counters it increments, and an immediately repeated call
(observing the counters the first call wrote) returns the same decision. -/
theorem decisionEngine_deterministic_no_feedback (tender : RMap)
    (sourceTable : String) (st st' : NormStats) :
    (evaluateNormalizationNeeds tender sourceTable st).1 =
      (evaluateNormalizationNeeds tender sourceTable st').1 ∧
    (evaluateNormalizationNeeds tender sourceTable
        (evaluateNormalizationNeeds tender sourceTable st).2).1 =
      (evaluateNormalizationNeeds tender sourceTable st).1 := by
  constructor
  · rw [evaluateNormalizationNeeds_fst, evaluateNormalizationNeeds_fst]
  · rw [evaluateNormalizationNeeds_fst, evaluateNormalizationNeeds_fst]

/-- Claim C10: the Decision Engine counters are incremented only on
LLM-skip decisions, and always in pairs: after any sequence of calls
starting from the initial counters, total equals skippedLLM globally and
for every per-source entry, so the logged skip-rate percentage is 100
whenever the total is non-zero. -/
theorem decisionEngine_counters_total_eq_skipped (calls : List (RMap × String)) :
    statsBalanced (runDecisionCalls calls initNormStats) = true ∧
    ((runDecisionCalls calls initNormStats).total = 0 ∨
      (runDecisionCalls calls initNormStats).skippedLLM * 100 /
        (runDecisionCalls calls initNormStats).total = 100) := by
  have hinv : ∀ (cs : List (RMap × String)) (st : NormStats),
      statsBalanced st = true → statsBalanced (runDecisionCalls cs st) = true := by
    intro cs
    induction cs with
    | nil => intro st h; exact h
    | cons c rest ih =>
      intro st h
      exact ih _ (statsBalanced_step c.1 c.2 st h)
  have hb : statsBalanced (runDecisionCalls calls initNormStats) = true :=
    hinv calls initNormStats rfl
  refine ⟨hb, ?_⟩
  unfold statsBalanced at hb
  simp only [Bool.and_eq_true, beq_iff_eq] at hb
  rcases Nat.eq_zero_or_pos (runDecisionCalls calls initNormStats).total with h0 | h0
  · exact Or.inl h0
  · right
    rw [← hb.1]
    exact Nat.mul_div_cancel_left 100 h0 ▸ (by rw [Nat.mul_div_cancel_left] <;> omega)

/-- Claim C7 (failing-input evaluation): extractNumericValue returns
number-typed inputs unchanged, before the finiteness and magnitude guards,
so a numeric estimated_value of 1e16 (above the 1e15 bound), NaN or
Infinity is written through the schema cleanup as is, while the same
out-of-range value supplied as a string is correctly nulled. -/
theorem extractNumericValue_passes_numbers_unchecked :
    extractNumericValue (.num (.fin (10 ^ 16))) = .num (.fin (10 ^ 16)) ∧
    (10 ^ 15 : ℚ) < 10 ^ 16 ∧
    extractNumericValue (.num .nan) = .num .nan ∧
    extractNumericValue (.num .inf) = .num .inf ∧
    extractNumericValue (.str "20000000000000000") = .jnull ∧
    rget (cleanupRecord [("estimated_value", .num (.fin (10 ^ 16)))])
      "estimated_value" = .num (.fin (10 ^ 16)) := by
  refine ⟨rfl, by norm_num, rfl, rfl, by rfl, rfl⟩

/-- Claim C4 (failing-input evaluation): the Field Enhancement Pass is not
idempotent on titles containing reference-number-like tokens: one pass
relocates 12345 into a Ref suffix, and a second pass re-extracts it from
that suffix, leaving an empty parenthetical behind, so the twice-enhanced
record differs from the once-enhanced one. -/
theorem enhanceTenderTitles_not_idempotent :
    getStr (enhanceTenderTitles [("title", .str "Supply of generators 12345")])
        "title" = some "Supply of generators (Ref: 12345)" ∧
    getStr (enhanceTenderTitles (enhanceTenderTitles
        [("title", .str "Supply of generators 12345")])) "title" =
      some "Supply of generators (Ref: ) (Ref: 12345)" ∧
    getStr (enhanceTenderTitles (enhanceTenderTitles
        [("title", .str "Supply of generators 12345")])) "title" ≠
      getStr (enhanceTenderTitles [("title", .str "Supply of generators 12345")])
        "title" := by
  refine ⟨by decide, by decide, by decide⟩

/-! Concrete batch scenarios.  Adapters are external collaborators per the
spec's interface section; the scenarios use a minimal one whose id is the
raw id field, with no field defaults and no url generation. -/

/-- A minimal source adapter for a given table. -/
def plainAdapter (table : String) : Adapter :=
  ⟨table, fun t => getStr t "id", fun _ => [], fun _ => none⟩

/-- A raw candidate with an id and a freshness timestamp only. -/
def mkCand (i : ℕ) : RMap :=
  [("id", .str ("t" ++ toString i)), ("updated_at", .tstamp 1000)]

/-- Twenty-six fresh candidates, one more than the chunk size. -/
def cands26 : List RMap := (List.range 26).map mkCand

/-- An oracle on which every completion call throws. -/
def oracleBoom : RMap → LlmBehavior :=
  fun _ => ⟨false, .throwMsg "boom", .throwMsg "boom"⟩

/-- An oracle on which the first, timeout-guarded attempt times out and
the retry throws a network error. -/
def oracleTimeout : RMap → LlmBehavior :=
  fun _ => ⟨true, .ok [], .throwMsg "fetch failed"⟩

/-- A raw record routed to the LLM path: a short non-English title and
nothing else. -/
def c1Tender : RMap := [("id", .str "r1"), ("title", .str "Titre xyz")]

/-- The batch of claim C1: one candidate whose LLM call times out and
whose retry fails, on an empty store. -/
def c1Run : RunResult :=
  processTendersFromTable (plainAdapter "src_x") "src_x" 100 false oracleTimeout
    5000 [c1Tender] []

/-- Claim C1 (failing-input evaluation): when the LLM call of a record
times out, the batch does continue and the record is persisted from the
rule-based fallback with the error count unchanged, but the persisted
normalized_method is the error message, never rule-based-fallback, and the
batch's returned fallback count stays zero instead of being incremented. -/
theorem llmTimeout_fallback_not_counted :
    (evalDecision c1Tender "src_x").needsLLM = true ∧
    c1Run.errors = 0 ∧
    c1Run.processed = 1 ∧
    c1Run.fallback = 0 ∧
    ((findRow c1Run.db "src_x" "r1").map fun r =>
        getStr r.payload "normalized_method") =
      some (some "error: fetch failed") ∧
    some "error: fetch failed" ≠ some "rule-based-fallback" := by
  refine ⟨by decide, by decide, by decide, by decide, by decide, by decide⟩

/-- The batch of claim C3: twenty-six candidates, an empty store and the
unlimited limit of zero. -/
def c3Run : RunResult :=
  processTendersFromTable (plainAdapter "src_x") "src_x" 0 false oracleBoom
    5000 cands26 []

/-- Claim C3 (failing-input evaluation): a run with limit zero stops after
the first 25-element chunk because the processed count is never below a
non-positive limit at the break test: of 26 candidates only 25 are
attempted and the twenty-sixth is never persisted. -/
theorem limitZero_stops_after_first_chunk :
    cands26.length = 26 ∧
    c3Run.attempts = 25 ∧
    c3Run.processed = 25 ∧
    (findRow c3Run.db "src_x" "t25").isSome = false := by
  refine ⟨by decide, by decide, by decide, by decide⟩

/-- First run of the claim C2 counterexample: the same 26 candidates with
limit one. -/
def c2RunA : RunResult :=
  processTendersFromTable (plainAdapter "src_x") "src_x" 1 false oracleBoom
    5000 cands26 []

/-- Second run of the claim C2 counterexample, on the store left by the
first and the unchanged candidate list. -/
def c2RunB : RunResult :=
  processTendersFromTable (plainAdapter "src_x") "src_x" 1 false oracleBoom
    6000 cands26 c2RunA.db

set_option maxRecDepth 8000 in
/-- Claim C2 counterexample: re-running ingest on an unchanged candidate
set with forceReprocess false can return a non-zero processed count on the
second run: a first run whose limit stops it after one chunk leaves the
twenty-sixth candidate unpersisted, and the second run processes it. -/
theorem ingest_second_run_not_zero :
    c2RunA.processed = 25 ∧ c2RunB.processed = 1 ∧ c2RunB.processed ≠ 0 := by
  refine ⟨by decide, by decide, by decide⟩

/-! Lemmas on digit characters and date rendering, toward claim C5. -/

/-- Digit characters are digits. -/
theorem digitChar_isDigit (k : ℕ) (h : k < 10) : isDigitC (digitChar k) = true := by
  interval_cases k <;> decide

/-- Code point of a digit character. -/
theorem digitChar_toNat (k : ℕ) (h : k < 10) : (digitChar k).toNat = 48 + k := by
  interval_cases k <;> decide

/-- Digit characters are not the dash separator. -/
theorem digitChar_ne_dash (k : ℕ) (h : k < 10) : ¬(digitChar k = '-') := by
  interval_cases k <;> decide

/-- Digit characters are not the slash separator. -/
theorem digitChar_ne_slash (k : ℕ) (h : k < 10) : ¬(digitChar k = '/') := by
  interval_cases k <;> decide

/-- Value of a two-digit rendering. -/
theorem digitsVal_two (a b : ℕ) (ha : a < 10) (hb : b < 10) :
    digitsVal [digitChar a, digitChar b] = 10 * a + b := by
  simp [digitsVal, digitChar_toNat _ ha, digitChar_toNat _ hb]

/-- Value of a four-digit rendering. -/
theorem digitsVal_four (a b c d : ℕ) (ha : a < 10) (hb : b < 10) (hc : c < 10)
    (hd : d < 10) :
    digitsVal [digitChar a, digitChar b, digitChar c, digitChar d] =
      1000 * a + 100 * b + 10 * c + d := by
  simp [digitsVal, digitChar_toNat _ ha, digitChar_toNat _ hb,
    digitChar_toNat _ hc, digitChar_toNat _ hd]
  ring

/-- Every month of a valid month number has at least 28 days. -/
theorem daysInMonth_ge_28 (y mo : ℕ) : 28 ≤ daysInMonth y mo := by
  unfold daysInMonth
  split
  · split <;> omega
  · split <;> omega

/-- Split of a separator-free prefix followed by the separator. -/
theorem splitOnC_append_no_sep (sep : Char) (xs rest : List Char)
    (hx : ∀ c ∈ xs, ¬(c = sep)) :
    splitOnC sep (xs ++ sep :: rest) = xs :: splitOnC sep rest := by
  induction xs with
  | nil => simp [splitOnC]
  | cons x t ih =>
    have hxne : ¬(x = sep) := hx x (by simp)
    have ih' := ih fun c hc => hx c (by simp [hc])
    simp only [List.cons_append, splitOnC, hxne, if_false]
    rw [show t.append (sep :: rest) = t ++ sep :: rest from rfl, ih']

/-- Split of a separator-free list. -/
theorem splitOnC_no_sep (sep : Char) (xs : List Char)
    (hx : ∀ c ∈ xs, ¬(c = sep)) : splitOnC sep xs = [xs] := by
  induction xs with
  | nil => rfl
  | cons x t ih =>
    have hxne : ¬(x = sep) := hx x (by simp)
    have ih' := ih fun c hc => hx c (by simp [hc])
    simp only [splitOnC, ih', hxne, if_false]

/-- Characters of a two-digit rendering. -/
theorem pad2_mem (n : ℕ) (h : n < 100) (c : Char) (hc : c ∈ pad2 n) :
    c = digitChar (n / 10) ∨ c = digitChar (n % 10) := by
  simpa [pad2] using hc

/-- Characters of a four-digit rendering. -/
theorem pad4_mem (n : ℕ) (c : Char) (hc : c ∈ pad4 n) :
    c = digitChar (n / 1000) ∨ c = digitChar (n / 100 % 10) ∨
    c = digitChar (n / 10 % 10) ∨ c = digitChar (n % 10) := by
  simpa [pad4] using hc

/-- The month-first calendar-date rendering of the claimed date families
DD/MM/YYYY and DD-MM-YYYY (the input grammar of claim C5). -/
def renderDMY (sep : Char) (d m y : ℕ) : String :=
  ⟨pad2 d ++ sep :: pad2 m ++ sep :: pad4 y⟩

/-- The US parser on a day-month-year rendering: it reads the day field as
the month, so it succeeds exactly when the day is a valid month number,
swapping the two fields. -/
theorem usTriple_renderDMY (sep : Char) (d m y : ℕ) (hd : d < 100)
    (hm1 : 1 ≤ m) (hm : m ≤ 12) (hy : y < 10000)
    (hsep : ∀ k < 10, ¬(digitChar k = sep)) :
    usTriple sep (pad2 d ++ sep :: pad2 m ++ sep :: pad4 y) =
      if validDate y d m then some (y, d, m) else none := by
  unfold usTriple
  have h1 : splitOnC sep (pad2 d ++ sep :: pad2 m ++ sep :: pad4 y) =
      [pad2 d, pad2 m, pad4 y] := by
    simp only [List.append_assoc, List.cons_append]
    rw [splitOnC_append_no_sep sep (pad2 d) (pad2 m ++ sep :: pad4 y),
      splitOnC_append_no_sep sep (pad2 m) (pad4 y), splitOnC_no_sep]
    · intro c hc
      rcases pad4_mem y c hc with h | h | h | h <;>
        (subst h; exact hsep _ (by omega))
    · intro c hc
      rcases pad2_mem m (by omega) c hc with h | h <;>
        (subst h; exact hsep _ (by omega))
    · intro c hc
      rcases pad2_mem d hd c hc with h | h <;>
        (subst h; exact hsep _ (by omega))
  rw [h1]
  have hdig2 : ∀ n : ℕ, n < 100 → (pad2 n).all isDigitC = true := by
    intro n hn
    simp [pad2, digitChar_isDigit _ (show n / 10 < 10 by omega),
      digitChar_isDigit _ (show n % 10 < 10 by omega)]
  have hdig4 : (pad4 y).all isDigitC = true := by
    simp [pad4, digitChar_isDigit _ (show y / 1000 < 10 by omega),
      digitChar_isDigit _ (show y / 100 % 10 < 10 by omega),
      digitChar_isDigit _ (show y / 10 % 10 < 10 by omega),
      digitChar_isDigit _ (show y % 10 < 10 by omega)]
  have hvd : digitsVal (pad2 d) = d := by
    rw [show pad2 d = [digitChar (d / 10), digitChar (d % 10)] from rfl,
      digitsVal_two _ _ (by omega) (by omega)]
    omega
  have hvm : digitsVal (pad2 m) = m := by
    rw [show pad2 m = [digitChar (m / 10), digitChar (m % 10)] from rfl,
      digitsVal_two _ _ (by omega) (by omega)]
    omega
  have hvy : digitsVal (pad4 y) = y := by
    rw [show pad4 y = [digitChar (y / 1000), digitChar (y / 100 % 10),
        digitChar (y / 10 % 10), digitChar (y % 10)] from rfl,
      digitsVal_four _ _ _ _ (by omega) (by omega) (by omega) (by omega)]
    omega
  simp only [List.length_cons, List.length_nil]
  rw [if_pos]
  · rw [hvd, hvm, hvy]
  · refine ⟨by simp [pad2], by simp [pad2], hdig2 d hd, by simp [pad2],
      by simp [pad2], hdig2 m (by omega), by simp [pad4], hdig4⟩

/-- The month length never exceeds 31. -/
theorem daysInMonth_le_31 (y mo : ℕ) : daysInMonth y mo ≤ 31 := by
  unfold daysInMonth
  split
  · split <;> omega
  · split <;> omega

/-- The US parser fails on a list without its separator. -/
theorem usTriple_no_sep (sep : Char) (l : List Char)
    (h : ∀ c ∈ l, ¬(c = sep)) : usTriple sep l = none := by
  unfold usTriple
  rw [splitOnC_no_sep sep l h]

/-- Cons-expanded form of usTriple_renderDMY, matching the shape produced
by unfolding the renderings. -/
theorem usTriple_renderDMY_cons (sep : Char) (d m y : ℕ) (hd : d < 100)
    (hm1 : 1 ≤ m) (hm : m ≤ 12) (hy : y < 10000)
    (hsep : ∀ k < 10, ¬(digitChar k = sep)) :
    usTriple sep
      [digitChar (d / 10), digitChar (d % 10), sep, digitChar (m / 10),
       digitChar (m % 10), sep, digitChar (y / 1000), digitChar (y / 100 % 10),
       digitChar (y / 10 % 10), digitChar (y % 10)] =
      (if validDate y d m then some (y, d, m) else none) := by
  have h := usTriple_renderDMY sep d m y hd hm1 hm hy hsep
  simpa [pad2, pad4, List.append_assoc, List.cons_append] using h

/-- Claim C5 counterexample: the date string 05/12/2023, the fifth of
December 2023 in the claimed DD/MM/YYYY form, is parsed month-first by the
native date parsing of extractDate and comes back as 2023-05-12, not as
the claimed lossless 2023-12-05; the concrete extractDate call writes the
swapped value. -/
theorem extractDate_ddmmyyyy_swapped :
    parseToIso "05/12/2023" = some "2023-05-12" ∧
    parseToIso "05/12/2023" ≠ some "2023-12-05" ∧
    getStr
      (extractDate [("deadline", .str "05/12/2023")] initNormalized
        "deadline_date"
        ["deadline_date", "deadline", "closing_date", "response_date",
         "submission_deadline"]) "deadline_date" = some "2023-05-12" := by
  refine ⟨by decide, by decide, by decide⟩

/-- Claim C5 as amended: date extraction round-trips the YYYY-MM-DD form
losslessly; the DD/MM/YYYY and DD-MM-YYYY forms are read month-first, so a
valid calendar date comes back with day and month swapped when its day is
at most 12 and is unparsable (left null) when its day exceeds 12;
unparsable strings yield none rather than an exception, extraction being a
total function into an option. -/
theorem extractDate_amended (y m d : ℕ) (hy : 1000 ≤ y ∧ y ≤ 9999)
    (hm : 1 ≤ m ∧ m ≤ 12) (hd : 1 ≤ d ∧ d ≤ daysInMonth y m) :
    parseToIso (renderIsoDate y m d) = some (renderIsoDate y m d) ∧
    (d ≤ 12 →
      parseToIso (renderDMY '/' d m y) = some (renderIsoDate y d m) ∧
      parseToIso (renderDMY '-' d m y) = some (renderIsoDate y d m)) ∧
    (12 < d →
      parseToIso (renderDMY '/' d m y) = none ∧
      parseToIso (renderDMY '-' d m y) = none) := by
  have hy4 : y < 10000 := by omega
  have hd100 : d < 100 := by
    have := daysInMonth_le_31 y m
    omega
  have hslash : ∀ k < 10, ¬(digitChar k = '/') := fun k hk => digitChar_ne_slash k hk
  have hdash : ∀ k < 10, ¬(digitChar k = '-') := fun k hk => digitChar_ne_dash k hk
  have hISO : jsDateParse (renderIsoDate y m d) = some (y, m, d) := by
    unfold renderIsoDate jsDateParse
    simp only [pad4, pad2, List.cons_append, List.nil_append]
    rw [if_pos ⟨trivial, trivial,
        digitChar_isDigit _ (by omega), digitChar_isDigit _ (by omega),
        digitChar_isDigit _ (by omega), digitChar_isDigit _ (by omega),
        digitChar_isDigit _ (by omega), digitChar_isDigit _ (by omega),
        digitChar_isDigit _ (by omega), digitChar_isDigit _ (by omega)⟩]
    rw [digitsVal_four (y / 1000) (y / 100 % 10) (y / 10 % 10) (y % 10)
          (by omega) (by omega) (by omega) (by omega),
        digitsVal_two (m / 10) (m % 10) (by omega) (by omega),
        digitsVal_two (d / 10) (d % 10) (by omega) (by omega)]
    have e1 : 1000 * (y / 1000) + 100 * (y / 100 % 10) + 10 * (y / 10 % 10) + y % 10 = y := by
      omega
    have e2 : 10 * (m / 10) + m % 10 = m := by omega
    have e3 : 10 * (d / 10) + d % 10 = d := by omega
    rw [e1, e2, e3, if_pos]
    unfold validDate
    exact decide_eq_true ⟨hm.1, hm.2, hd.1, hd.2⟩
  have hUSslash : jsDateParse (renderDMY '/' d m y) =
      (if validDate y d m then some (y, d, m) else none) := by
    unfold renderDMY jsDateParse
    simp only [pad4, pad2, List.append_assoc, List.cons_append, List.nil_append]
    rw [if_neg fun hcon => digitChar_ne_dash (m % 10) (by omega) hcon.1]
    rw [usTriple_renderDMY_cons '/' d m y hd100 hm.1 hm.2 hy4 hslash]
    by_cases hv : validDate y d m
    · rw [if_pos hv]
    · rw [if_neg hv]
      refine usTriple_no_sep '-' _ fun c hc => ?_
      simp only [List.mem_cons, List.not_mem_nil, or_false] at hc
      rcases hc with h | h | h | h | h | h | h | h | h | h <;> subst h <;>
        first
        | exact digitChar_ne_dash _ (by omega)
        | decide
  have hUSdash : jsDateParse (renderDMY '-' d m y) =
      (if validDate y d m then some (y, d, m) else none) := by
    unfold renderDMY jsDateParse
    simp only [pad4, pad2, List.append_assoc, List.cons_append, List.nil_append]
    rw [if_neg fun hcon => digitChar_ne_dash (m % 10) (by omega) hcon.1]
    rw [usTriple_no_sep '/' _ ?hns]
    case hns =>
      intro c hc
      simp only [List.mem_cons, List.not_mem_nil, or_false] at hc
      rcases hc with h | h | h | h | h | h | h | h | h | h <;> subst h <;>
        first
        | exact digitChar_ne_slash _ (by omega)
        | decide
    rw [usTriple_renderDMY_cons '-' d m y hd100 hm.1 hm.2 hy4 hdash]
  have hvalid_of_le : d ≤ 12 → validDate y d m = true := by
    intro hdle
    unfold validDate
    have h28 := daysInMonth_ge_28 y d
    exact decide_eq_true ⟨hd.1, hdle, hm.1, by omega⟩
  have hinvalid_of_gt : 12 < d → validDate y d m = false := by
    intro hdgt
    unfold validDate
    exact decide_eq_false fun hcon => absurd hcon.2.1 (by omega)
  refine ⟨by simp [parseToIso, hISO], fun hdle => ?_, fun hdgt => ?_⟩
  · constructor
    · simp [parseToIso, hUSslash, hvalid_of_le hdle]
    · simp [parseToIso, hUSdash, hvalid_of_le hdle]
  · constructor
    · simp [parseToIso, hUSslash, hinvalid_of_gt hdgt]
    · simp [parseToIso, hUSdash, hinvalid_of_gt hdgt]

/-- Witness for the amended claim C5 at the fifth of December 2023. -/
theorem extractDate_amended_witness :
    parseToIso (renderIsoDate 2023 12 5) = some (renderIsoDate 2023 12 5) ∧
    parseToIso (renderDMY '/' 5 12 2023) = some (renderIsoDate 2023 5 12) := by
  have h := extractDate_amended 2023 12 5 (by decide) (by decide) (by decide)
  exact ⟨h.1, (h.2.1 (by decide)).1⟩


/-- takeWhile of an all-true list is the list. -/
theorem takeWhile_all (p : Char → Bool) (l : List Char)
    (h : ∀ c ∈ l, p c = true) : l.takeWhile p = l := by
  induction l with
  | nil => rfl
  | cons c t ih =>
    rw [List.takeWhile_cons, if_pos (h c (List.mem_cons_self c t)),
      ih fun x hx => h x (List.mem_cons_of_mem c hx)]

/-- takeWhile stops exactly at the first failing element after an all-true
prefix. -/
theorem takeWhile_append_stop (p : Char → Bool) (a : List Char) (x : Char)
    (r : List Char) (ha : ∀ c ∈ a, p c = true) (hx : p x = false) :
    (a ++ x :: r).takeWhile p = a := by
  induction a with
  | nil => simp [List.takeWhile_cons, hx]
  | cons c t ih =>
    rw [List.cons_append, List.takeWhile_cons,
      if_pos (ha c (List.mem_cons_self c t)),
      ih fun y hy => ha y (List.mem_cons_of_mem c hy)]

/-- dropWhile counterpart. -/
theorem dropWhile_append_stop (p : Char → Bool) (a : List Char) (x : Char)
    (r : List Char) (ha : ∀ c ∈ a, p c = true) (hx : p x = false) :
    (a ++ x :: r).dropWhile p = x :: r := by
  induction a with
  | nil => simp [List.dropWhile_cons, hx]
  | cons c t ih =>
    rw [List.cons_append, List.dropWhile_cons,
      if_pos (ha c (List.mem_cons_self c t))]
    exact ih fun y hy => ha y (List.mem_cons_of_mem c hy)

/-- dropWhile of an all-true list is empty. -/
theorem dropWhile_all (p : Char → Bool) (l : List Char)
    (h : ∀ c ∈ l, p c = true) : l.dropWhile p = [] := by
  induction l with
  | nil => rfl
  | cons c t ih =>
    rw [List.dropWhile_cons, if_pos (h c (List.mem_cons_self c t))]
    exact ih fun x hx => h x (List.mem_cons_of_mem c hx)

/-- A digit character is not whitespace. -/
theorem isSpaceC_false_of_digit (c : Char) (h : isDigitC c = true) :
    isSpaceC c = false := by
  have hn : 48 ≤ c.toNat := (of_decide_eq_true h).1
  unfold isSpaceC
  refine decide_eq_false ?_
  rintro (rfl | rfl | rfl | rfl | rfl | rfl) <;> simp at hn

/-- A digit character is not a comma. -/
theorem ne_comma_of_digit (c : Char) (h : isDigitC c = true) : ¬(c = ',') := by
  have hn : 48 ≤ c.toNat := (of_decide_eq_true h).1
  rintro rfl
  simp at hn

/-- An uppercase letter is neither a digit nor a comma. -/
theorem not_moneyChar_of_upper (c : Char) (h : isUpperC c = true) :
    ¬(isDigitC c = true ∨ c = ',') := by
  have hn := of_decide_eq_true h
  rintro (hd | rfl)
  · have := of_decide_eq_true hd
    omega
  · exact absurd h (by decide)

/-- An uppercase letter is not one of the three currency symbols. -/
theorem not_symbol_of_upper (c : Char) (h : isUpperC c = true) :
    ¬(c = '$' ∨ c = '€' ∨ c = '£') := by
  rintro (rfl | rfl | rfl) <;> exact absurd h (by decide)

/-- toUpperCase fixes an uppercase letter. -/
theorem upC_upper_fixed (c : Char) (h : isUpperC c = true) : upC c = c := by
  have hn := of_decide_eq_true h
  unfold upC
  show (if c.toNat >= 97 ∧ c.toNat <= 122 then Char.ofNat (c.toNat - 32) else c) = c
  rw [if_neg (by omega)]

/-- moneyRun skips a character that is neither digit nor comma. -/
theorem moneyRun_skip (c : Char) (l : List Char)
    (h : ¬(isDigitC c = true ∨ c = ',')) : moneyRun (c :: l) = moneyRun l := by
  conv_lhs => unfold moneyRun
  rw [if_neg h]

/-- moneyRun of an all-digit nonempty list is the whole list. -/
theorem moneyRun_digits (ds : List Char) (h1 : ds ≠ [])
    (h2 : ∀ c ∈ ds, isDigitC c = true) : moneyRun ds = some ds := by
  match ds, h1 with
  | d :: t, _ =>
    unfold moneyRun
    rw [if_pos (Or.inl (h2 d (List.mem_cons_self d t)))]
    have hall : ∀ c ∈ d :: t, (decide (isDigitC c = true ∨ c = ',')) = true :=
      fun c hc => decide_eq_true (Or.inl (h2 c hc))
    rw [takeWhile_all _ _ hall]
    simp

/-- moneyRun of digits, a dot and more digits is the whole list. -/
theorem moneyRun_digits_frac (ds fs : List Char) (h1 : ds ≠ [])
    (h2 : ∀ c ∈ ds, isDigitC c = true) (h3 : fs ≠ [])
    (h4 : ∀ c ∈ fs, isDigitC c = true) :
    moneyRun (ds ++ '.' :: fs) = some (ds ++ '.' :: fs) := by
  match ds, h1 with
  | d :: t, _ =>
    have hall : ∀ c ∈ d :: t, (decide (isDigitC c = true ∨ c = ',')) = true :=
      fun c hc => decide_eq_true (Or.inl (h2 c hc))
    conv_lhs => rw [show (d :: t) ++ '.' :: fs = d :: (t ++ '.' :: fs) from rfl]
    conv_lhs => unfold moneyRun
    rw [if_pos (Or.inl (h2 d (List.mem_cons_self d t)))]
    simp only [show d :: (t ++ '.' :: fs) = (d :: t) ++ '.' :: fs from rfl,
      takeWhile_append_stop _ (d :: t) '.' fs hall (by decide),
      List.drop_left, takeWhile_all isDigitC fs h4]
    match fs, h3 with
    | f :: ft, _ => simp

/-- moneyRun finds nothing in a list without digits or commas. -/
theorem moneyRun_none (l : List Char)
    (h : ∀ c ∈ l, ¬(isDigitC c = true ∨ c = ',')) : moneyRun l = none := by
  induction l with
  | nil => rfl
  | cons c t ih =>
    rw [moneyRun_skip c t (h c (List.mem_cons_self c t))]
    exact ih fun x hx => h x (List.mem_cons_of_mem c hx)

/-- A digit character is not a sign character. -/
theorem not_sign_of_digit (c : Char) (h : isDigitC c = true) :
    ¬(c = '-' ∨ c = '+') := by
  rintro (rfl | rfl) <;> exact absurd h (by decide)

/-- jsParseFloat of a nonempty all-digit list is its digit value. -/
theorem jsParseFloat_digits (ds : List Char) (h1 : ds ≠ [])
    (h2 : ∀ c ∈ ds, isDigitC c = true) :
    jsParseFloat ds = some ((digitsVal ds : ℚ)) := by
  match ds, h1 with
  | d :: t, _ =>
    have hd := h2 d (List.mem_cons_self d t)
    have hns := not_sign_of_digit d hd
    have hng : (decide (d = '-')) = false :=
      decide_eq_false fun hh => hns (Or.inl hh)
    unfold jsParseFloat
    simp only [List.dropWhile_cons, isSpaceC_false_of_digit d hd,
      Bool.false_eq_true, if_false, hng,
      takeWhile_all isDigitC (d :: t) h2, dropWhile_all isDigitC (d :: t) h2,
      hns, if_neg hns]
    rw [if_neg (by simp)]
    simp only [List.length_nil, pow_zero, mul_one,
      show digitsVal ([] : List Char) = 0 from rfl, Nat.add_zero,
      Rat.mkRat_one, Bool.false_eq_true, if_false]
    norm_cast

/-- jsParseFloat of digits, a dot and more digits. -/
theorem jsParseFloat_digits_frac (ds fs : List Char) (h1 : ds ≠ [])
    (h2 : ∀ c ∈ ds, isDigitC c = true) (h4 : ∀ c ∈ fs, isDigitC c = true) :
    jsParseFloat (ds ++ '.' :: fs) =
      some (mkRat ((digitsVal ds * 10 ^ fs.length + digitsVal fs : ℕ) : ℤ)
        (10 ^ fs.length)) := by
  match ds, h1 with
  | d :: t, _ =>
    have hd := h2 d (List.mem_cons_self d t)
    have hns := not_sign_of_digit d hd
    have hng : (decide (d = '-')) = false :=
      decide_eq_false fun hh => hns (Or.inl hh)
    have hds : (d :: (t ++ '.' :: fs)).dropWhile isSpaceC = d :: (t ++ '.' :: fs) := by
      rw [List.dropWhile_cons, isSpaceC_false_of_digit d hd]
      simp
    have hip : (d :: (t ++ '.' :: fs)).takeWhile isDigitC = d :: t := by
      rw [show d :: (t ++ '.' :: fs) = (d :: t) ++ '.' :: fs from rfl]
      exact takeWhile_append_stop isDigitC (d :: t) '.' fs h2 (by decide)
    have hrest : (d :: (t ++ '.' :: fs)).dropWhile isDigitC = '.' :: fs := by
      rw [show d :: (t ++ '.' :: fs) = (d :: t) ++ '.' :: fs from rfl]
      exact dropWhile_append_stop isDigitC (d :: t) '.' fs h2 (by decide)
    unfold jsParseFloat
    simp only [List.cons_append, hds, hip, hrest, hng, hns, if_false,
      Bool.false_eq_true, false_and, takeWhile_all isDigitC fs h4]
    rw [if_neg (by simp)]

/-- The comma filter is the identity on comma-free lists. -/
theorem filter_no_comma (l : List Char) (h : ∀ c ∈ l, ¬(c = ',')) :
    (l.filter fun c => c ≠ ',') = l := by
  induction l with
  | nil => rfl
  | cons c t ih =>
    simp only [List.filter_cons,
      decide_eq_true (h c (List.mem_cons_self c t)),
      if_true, List.cons.injEq, true_and]
    exact ih fun x hx => h x (List.mem_cons_of_mem c hx)

/-- An uppercase letter is a letter. -/
theorem isAlphaC_of_upper (c : Char) (h : isUpperC c = true) :
    isAlphaC c = true := by
  unfold isAlphaC
  exact decide_eq_true (Or.inl h)

/-- symbolAt on a three-uppercase-letter head captures those three letters. -/
theorem symbolAt_upper3 (c1 c2 c3 : Char) (r : List Char)
    (h1 : isUpperC c1 = true) (h2 : isUpperC c2 = true)
    (h3 : isUpperC c3 = true) :
    symbolAt (c1 :: c2 :: c3 :: r) = some [c1, c2, c3] := by
  show (if c1 = '$' ∨ c1 = '€' ∨ c1 = '£' then some [c1]
    else if ([c1, c2, c3] : List Char).length = 3 ∧ ([c1, c2, c3].all isAlphaC) = true
      then some [c1, c2, c3] else none) = some [c1, c2, c3]
  rw [if_neg (not_symbol_of_upper c1 h1), if_pos]
  refine ⟨rfl, ?_⟩
  simp [List.all_cons, isAlphaC_of_upper c1 h1, isAlphaC_of_upper c2 h2,
    isAlphaC_of_upper c3 h3]

/-- currencyScan finds nothing when no symbol and no letter occurs. -/
theorem currencyScan_none (l : List Char)
    (h : ∀ c ∈ l, ¬(c = '$' ∨ c = '€' ∨ c = '£') ∧ isAlphaC c = false) :
    currencyScan l = none := by
  induction l with
  | nil => rfl
  | cons c t ih =>
    have hsym : symbolAt (c :: t) = none := by
      show (if c = '$' ∨ c = '€' ∨ c = '£' then some [c]
        else if (c :: t.take 2 : List Char).length = 3 ∧ ((c :: t.take 2).all isAlphaC) = true
          then some (c :: t.take 2) else none) = none
      rw [if_neg (h c (List.mem_cons_self c t)).1, if_neg]
      rintro ⟨_, hall⟩
      rw [List.all_cons, (h c (List.mem_cons_self c t)).2] at hall
      simp at hall
    unfold currencyScan
    rw [hsym]
    exact ih fun x hx => h x (List.mem_cons_of_mem c hx)

/-- Composition of extractMoneyStr when both patterns hit. -/
theorem extractMoneyStr_hits (l run tok : List Char) (q : ℚ)
    (hrun : moneyRun l = some run)
    (hq : jsParseFloat (run.filter fun c => c ≠ ',') = some q)
    (htok : currencyScan l = some tok) :
    extractMoneyStr l initNormalized =
      rset (rset initNormalized "estimated_value" (.num (.fin q))) "currency"
        (.str (currencyLookup (jsUpper (String.mk tok)))) := by
  unfold extractMoneyStr
  simp only [hrun, hq, htok]
  rfl

/-- Composition of extractMoneyStr when both patterns miss. -/
theorem extractMoneyStr_misses (l : List Char)
    (hrun : moneyRun l = none) (htok : currencyScan l = none) :
    extractMoneyStr l initNormalized = initNormalized := by
  unfold extractMoneyStr
  simp only [hrun, htok]
  rfl

/-- A currency symbol at the head is captured alone. -/
theorem symbolAt_symbol (c : Char) (hc : c = '$' ∨ c = '€' ∨ c = '£')
    (rest : List Char) : symbolAt (c :: rest) = some [c] := by
  show (if c = '$' ∨ c = '€' ∨ c = '£' then some [c]
    else if (c :: rest.take 2 : List Char).length = 3 ∧ ((c :: rest.take 2).all isAlphaC) = true
      then some (c :: rest.take 2) else none) = some [c]
  rw [if_pos hc]

/-- currencyScan captures the leading three-letter code. -/
theorem currencyScan_code (c1 c2 c3 : Char) (rest : List Char)
    (h1 : isUpperC c1 = true) (h2 : isUpperC c2 = true)
    (h3 : isUpperC c3 = true) :
    currencyScan (c1 :: c2 :: c3 :: rest) = some [c1, c2, c3] := by
  unfold currencyScan
  simp only [symbolAt_upper3 c1 c2 c3 rest h1 h2 h3]

/-- currencyScan captures the leading currency symbol. -/
theorem currencyScan_symbol (c : Char) (hc : c = '$' ∨ c = '€' ∨ c = '£')
    (rest : List Char) : currencyScan (c :: rest) = some [c] := by
  unfold currencyScan
  simp only [symbolAt_symbol c hc rest]

/-- toUpperCase fixes a three-uppercase-letter string. -/
theorem jsUpper_upper3 (c1 c2 c3 : Char) (h1 : isUpperC c1 = true)
    (h2 : isUpperC c2 = true) (h3 : isUpperC c3 = true) :
    jsUpper (String.mk [c1, c2, c3]) = String.mk [c1, c2, c3] := by
  unfold jsUpper
  rw [show (String.mk [c1, c2, c3]).data = [c1, c2, c3] from rfl]
  rw [List.map_cons, List.map_cons, List.map_cons, List.map_nil,
    upC_upper_fixed c1 h1, upC_upper_fixed c2 h2, upC_upper_fixed c3 h3]

/-- Claim C6 as amended: for money strings of the form code-space-digits or
code-space-digits-dot-digits (code three uppercase letters) the extracted
value is the digit value and the currency is the uppercased code passed
through the symbol table, and for symbol-digits forms (dollar, euro, pound)
the value is the digit value and the currency the mapped code of the
symbol; extraction is a total function, and on a string containing no
digit, no comma, no currency symbol and no letter both the value and the
currency stay null.  The original claim fails because a currency token is
also read out of otherwise unparsable strings: any three consecutive
letters are taken as a currency code (see the counterexample), so the
null-on-unparsable guarantee only holds for symbol-free and letter-free
strings. -/
theorem extractMoney_amended (c1 c2 c3 sym : Char) (ds fs l : List Char)
    (hc1 : isUpperC c1 = true) (hc2 : isUpperC c2 = true)
    (hc3 : isUpperC c3 = true)
    (hds : ds ≠ [] ∧ ∀ c ∈ ds, isDigitC c = true)
    (hfs : fs ≠ [] ∧ ∀ c ∈ fs, isDigitC c = true)
    (hsym : sym = '$' ∨ sym = '€' ∨ sym = '£')
    (hl : ∀ c ∈ l, ¬(isDigitC c = true ∨ c = ',') ∧
      ¬(c = '$' ∨ c = '€' ∨ c = '£') ∧ isAlphaC c = false) :
    (rget (extractMoneyStr (c1 :: c2 :: c3 :: ' ' :: ds) initNormalized)
        "estimated_value" = .num (.fin ((digitsVal ds : ℚ))) ∧
     rget (extractMoneyStr (c1 :: c2 :: c3 :: ' ' :: ds) initNormalized)
        "currency" = .str (currencyLookup (String.mk [c1, c2, c3]))) ∧
    (rget (extractMoneyStr (c1 :: c2 :: c3 :: ' ' :: (ds ++ '.' :: fs)) initNormalized)
        "estimated_value" =
        .num (.fin (mkRat ((digitsVal ds * 10 ^ fs.length + digitsVal fs : ℕ) : ℤ)
          (10 ^ fs.length))) ∧
     rget (extractMoneyStr (c1 :: c2 :: c3 :: ' ' :: (ds ++ '.' :: fs)) initNormalized)
        "currency" = .str (currencyLookup (String.mk [c1, c2, c3]))) ∧
    (rget (extractMoneyStr (sym :: ds) initNormalized) "estimated_value"
        = .num (.fin ((digitsVal ds : ℚ))) ∧
     rget (extractMoneyStr (sym :: ds) initNormalized) "currency"
        = .str (currencyLookup (jsUpper (String.mk [sym])))) ∧
    (rget (extractMoneyStr l initNormalized) "estimated_value" = .jnull ∧
     rget (extractMoneyStr l initNormalized) "currency" = .jnull) := by
  obtain ⟨hne, hdig⟩ := hds
  obtain ⟨hfne, hfdig⟩ := hfs
  have hq1 : jsParseFloat (ds.filter fun c => c ≠ ',') = some ((digitsVal ds : ℚ)) := by
    rw [filter_no_comma ds fun c hc => ne_comma_of_digit c (hdig c hc)]
    exact jsParseFloat_digits ds hne hdig
  refine ⟨?_, ?_, ?_, ?_⟩
  · have hmr : moneyRun (c1 :: c2 :: c3 :: ' ' :: ds) = some ds := by
      rw [moneyRun_skip c1 _ (not_moneyChar_of_upper c1 hc1),
          moneyRun_skip c2 _ (not_moneyChar_of_upper c2 hc2),
          moneyRun_skip c3 _ (not_moneyChar_of_upper c3 hc3),
          moneyRun_skip ' ' _ (by decide),
          moneyRun_digits ds hne hdig]
    have e := extractMoneyStr_hits _ _ _ _ hmr hq1
      (currencyScan_code c1 c2 c3 (' ' :: ds) hc1 hc2 hc3)
    rw [jsUpper_upper3 c1 c2 c3 hc1 hc2 hc3] at e
    rw [e]
    exact ⟨rfl, rfl⟩
  · have hmr : moneyRun (c1 :: c2 :: c3 :: ' ' :: (ds ++ '.' :: fs))
        = some (ds ++ '.' :: fs) := by
      rw [moneyRun_skip c1 _ (not_moneyChar_of_upper c1 hc1),
          moneyRun_skip c2 _ (not_moneyChar_of_upper c2 hc2),
          moneyRun_skip c3 _ (not_moneyChar_of_upper c3 hc3),
          moneyRun_skip ' ' _ (by decide),
          moneyRun_digits_frac ds fs hne hdig hfne hfdig]
    have hq2 : jsParseFloat ((ds ++ '.' :: fs).filter fun c => c ≠ ',')
        = some (mkRat ((digitsVal ds * 10 ^ fs.length + digitsVal fs : ℕ) : ℤ)
          (10 ^ fs.length)) := by
      rw [filter_no_comma (ds ++ '.' :: fs) ?hnc]
      case hnc =>
        intro c hc
        rcases List.mem_append.mp hc with h | h
        · exact ne_comma_of_digit c (hdig c h)
        · rcases List.mem_cons.mp h with rfl | h
          · decide
          · exact ne_comma_of_digit c (hfdig c h)
      exact jsParseFloat_digits_frac ds fs hne hdig hfdig
    have e := extractMoneyStr_hits _ _ _ _ hmr hq2
      (currencyScan_code c1 c2 c3 (' ' :: (ds ++ '.' :: fs)) hc1 hc2 hc3)
    rw [jsUpper_upper3 c1 c2 c3 hc1 hc2 hc3] at e
    rw [e]
    exact ⟨rfl, rfl⟩
  · have hnm : ¬(isDigitC sym = true ∨ sym = ',') := by
      rcases hsym with rfl | rfl | rfl <;> decide
    have hmr : moneyRun (sym :: ds) = some ds := by
      rw [moneyRun_skip sym _ hnm, moneyRun_digits ds hne hdig]
    have e := extractMoneyStr_hits _ _ _ _ hmr hq1
      (currencyScan_symbol sym hsym ds)
    rw [e]
    exact ⟨rfl, rfl⟩
  · have e := extractMoneyStr_misses l
      (moneyRun_none l fun c hc => (hl c hc).1)
      (currencyScan_none l fun c hc => ⟨(hl c hc).2.1, (hl c hc).2.2⟩)
    rw [e]
    exact ⟨rfl, rfl⟩


/-- Claim C6 counterexample: the unparsable money string TBD leaves the
value null but sets the currency to TBD, because the currency pattern
accepts any three consecutive letters case-insensitively; the spec claims
both fields stay null on unparsable strings. -/
theorem extractMoney_unparsable_sets_currency :
    getStr (extractMoney [("estimated_value", .str "TBD")] initNormalized
      ["value", "amount", "contract_value", "estimated_value", "budget"])
      "currency" = some "TBD" ∧
    rget (extractMoney [("estimated_value", .str "TBD")] initNormalized
      ["value", "amount", "contract_value", "estimated_value", "budget"])
      "estimated_value" = .jnull := ⟨rfl, rfl⟩

/-- Witness for the amended claim C6 on USD 12 and on an unparsable
symbol-free string. -/
theorem extractMoney_amended_witness :
    rget (extractMoneyStr ['U', 'S', 'D', ' ', '1', '2'] initNormalized)
      "estimated_value" = .num (.fin ((digitsVal ['1', '2'] : ℚ))) ∧
    rget (extractMoneyStr ['U', 'S', 'D', ' ', '1', '2'] initNormalized)
      "currency" = .str "USD" ∧
    rget (extractMoneyStr ['?'] initNormalized) "estimated_value" = .jnull := by
  have h := extractMoney_amended 'U' 'S' 'D' '$' ['1', '2'] ['5'] ['?']
    (by decide) (by decide) (by decide)
    ⟨by decide, by decide⟩ ⟨by decide, by decide⟩ (by decide) (by decide)
  refine ⟨h.1.1, ?_, h.2.2.2.1⟩
  rw [h.1.2]
  rfl



/-- find? for a key other than the one written is unchanged by the update
map of rset. -/
theorem find?_rset_map_ne (t : RMap) (k f : String) (v : JsVal)
    (h : ¬(f = k)) :
    (t.map fun p => if p.1 = k then (k, v) else p).find? (fun p => p.1 = f)
      = t.find? fun p => p.1 = f := by
  induction t with
  | nil => rfl
  | cons p rest ih =>
    rw [List.map_cons]
    by_cases hk : p.1 = k
    · rw [if_pos hk]
      rw [List.find?_cons_of_neg, List.find?_cons_of_neg]
      · exact ih
      · simp only [decide_eq_true_eq]
        rw [hk]
        exact fun hh => h hh.symm
      · simp only [decide_eq_true_eq]
        exact fun hh => h hh.symm
    · rw [if_neg hk]
      by_cases hpf : p.1 = f
      · rw [List.find?_cons_of_pos, List.find?_cons_of_pos]
        · exact decide_eq_true hpf
        · exact decide_eq_true hpf
      · rw [List.find?_cons_of_neg, List.find?_cons_of_neg]
        · exact ih
        · exact fun hh => hpf (of_decide_eq_true hh)
        · exact fun hh => hpf (of_decide_eq_true hh)

/-- find? for a key other than the appended one is unchanged. -/
theorem find?_append_ne (t : RMap) (k f : String) (v : JsVal)
    (h : ¬(f = k)) :
    (t ++ [(k, v)]).find? (fun p => p.1 = f) = t.find? fun p => p.1 = f := by
  induction t with
  | nil =>
    rw [List.nil_append, List.find?_cons_of_neg, List.find?_nil]
    exact fun hh => h (of_decide_eq_true hh).symm
  | cons p rest ih =>
    rw [List.cons_append]
    by_cases hpf : p.1 = f
    · rw [List.find?_cons_of_pos, List.find?_cons_of_pos]
      · exact decide_eq_true hpf
      · exact decide_eq_true hpf
    · rw [List.find?_cons_of_neg, List.find?_cons_of_neg]
      · exact ih
      · exact fun hh => hpf (of_decide_eq_true hh)
      · exact fun hh => hpf (of_decide_eq_true hh)

/-- find? behind rset for a different key. -/
theorem find?_rset_ne (t : RMap) (k f : String) (v : JsVal) (h : ¬(f = k)) :
    (rset t k v).find? (fun p => p.1 = f) = t.find? fun p => p.1 = f := by
  unfold rset
  split
  · exact find?_rset_map_ne t k f v h
  · exact find?_append_ne t k f v h

/-- Reading a key other than the one written is unchanged by rset. -/
theorem rget_rset_ne (t : RMap) (k f : String) (v : JsVal) (h : ¬(f = k)) :
    rget (rset t k v) f = rget t f := by
  unfold rget
  rw [find?_rset_ne t k f v h]


/-- Inference 1 never overwrites a truthy field. -/
theorem fmStep1_pres (t : RMap) (f : String)
    (ht : truthy (rget t f) = true) : rget (P2.fmStep1 t) f = rget t f := by
  unfold P2.fmStep1
  split
  · next hc =>
    by_cases hf : f = "title_english"
    · rw [hf] at ht
      exact absurd ht hc.2.1
    · exact rget_rset_ne t _ f _ hf
  · rfl

/-- Inference 2 never overwrites a truthy field. -/
theorem fmStep2_pres (t : RMap) (f : String)
    (ht : truthy (rget t f) = true) : rget (P2.fmStep2 t) f = rget t f := by
  unfold P2.fmStep2
  split
  · next hc =>
    by_cases hf : f = "description_english"
    · rw [hf] at ht
      exact absurd ht hc.2.1
    · exact rget_rset_ne t _ f _ hf
  · rfl

/-- Inference 3 never overwrites a truthy field other than the unguarded
English organization name. -/
theorem fmStep3_pres (t : RMap) (f : String)
    (hne : ¬(f = "organization_name_english"))
    (ht : truthy (rget t f) = true) : rget (P2.fmStep3 t) f = rget t f := by
  unfold P2.fmStep3
  split
  · next hc =>
    split
    · split
      · by_cases hf : f = "organization_name"
        · rw [hf] at ht
          exact absurd ht hc.1
        · rw [rget_rset_ne _ _ f _ hne, rget_rset_ne t _ f _ hf]
      · rfl
    · rfl
  · rfl

/-- Inference 4 never overwrites a truthy field. -/
theorem fmStep4_pres (t : RMap) (f : String)
    (ht : truthy (rget t f) = true) : rget (P2.fmStep4 t) f = rget t f := by
  unfold P2.fmStep4
  split
  · next hc =>
    by_cases hf : f = "organization_name_english"
    · rw [hf] at ht
      exact absurd ht hc.2.1
    · exact rget_rset_ne t _ f _ hf
  · rfl

/-- Inference 5 never overwrites a truthy field. -/
theorem fmStep5_pres (now : ℕ) (t : RMap) (f : String)
    (ht : truthy (rget t f) = true) : rget (P2.fmStep5 now t) f = rget t f := by
  unfold P2.fmStep5
  split
  · next hc =>
    have hf : ¬(f = "status") := by
      intro hf
      rw [hf] at ht
      exact hc.1 ht
    split
    · exact rget_rset_ne t _ f _ hf
    · exact rget_rset_ne t _ f _ hf
  · rfl

/-- Inference 6 never overwrites a truthy field other than the unguarded
English buyer. -/
theorem fmStep6_pres (t : RMap) (f : String)
    (hne : ¬(f = "buyer_english"))
    (ht : truthy (rget t f) = true) : rget (P2.fmStep6 t) f = rget t f := by
  unfold P2.fmStep6
  split
  · next hc =>
    by_cases hf : f = "buyer"
    · rw [hf] at ht
      exact absurd ht hc.1
    · have frameg : ∀ (t1 : RMap) (v : JsVal), rget (rset t1 "buyer" v) f = rget t1 f :=
        fun t1 v => rget_rset_ne t1 _ f v hf
      have frameu : ∀ (t1 : RMap) (v : JsVal), rget (rset t1 "buyer_english" v) f = rget t1 f :=
        fun t1 v => rget_rset_ne t1 _ f v hne
      (repeat' (first | split | intro _)) <;> simp [frameg, frameu, apply_ite (fun (m : RMap) => rget m f)]
  · rfl
/-- Inference 7 never overwrites a truthy field. -/
theorem fmStep7_pres (now : ℕ) (t : RMap) (f : String)
    (ht : truthy (rget t f) = true) : rget (P2.fmStep7 now t) f = rget t f := by
  unfold P2.fmStep7
  split
  · next hc =>
    have hf : ¬(f = "normalized_at") := by
      intro hf
      rw [hf] at ht
      exact hc ht
    exact rget_rset_ne t _ f _ hf
  · rfl

/-- Inference 8 never overwrites a truthy field other than the unguarded
English project name. -/
theorem fmStep8_pres (t : RMap) (f : String)
    (hne : ¬(f = "project_name_english"))
    (ht : truthy (rget t f) = true) : rget (P2.fmStep8 t) f = rget t f := by
  unfold P2.fmStep8
  split
  · next hc =>
    by_cases hf : f = "project_name"
    · rw [hf] at ht
      exact absurd ht hc.1
    · have frameg : ∀ (t1 : RMap) (v : JsVal), rget (rset t1 "project_name" v) f = rget t1 f :=
        fun t1 v => rget_rset_ne t1 _ f v hf
      have frameu : ∀ (t1 : RMap) (v : JsVal), rget (rset t1 "project_name_english" v) f = rget t1 f :=
        fun t1 v => rget_rset_ne t1 _ f v hne
      (repeat' (first | split | intro _)) <;>
        (try simp [frameg, frameu, apply_ite (fun (m : RMap) => rget m f)]) <;>
        (try intro _) <;>
        (try (repeat' split)) <;>
        (try simp [frameg, frameu])
  · rfl
/-- Inference 9 never overwrites a truthy field. -/
theorem fmStep9_pres (t : RMap) (f : String)
    (ht : truthy (rget t f) = true) : rget (P2.fmStep9 t) f = rget t f := by
  unfold P2.fmStep9
  split
  · next hc =>
    by_cases hf : f = "sector"
    · rw [hf] at ht
      exact absurd ht hc.1
    · have frame : ∀ (t1 : RMap) (v : JsVal), rget (rset t1 "sector" v) f = rget t1 f :=
        fun t1 v => rget_rset_ne t1 _ f v hf
      (repeat' (first | split | intro _)) <;>
        (try simp [frame, apply_ite (fun (m : RMap) => rget m f)]) <;>
        (try intro _) <;>
        (try (repeat' split)) <;>
        (try simp [frame])
  · rfl
/-- Inference 10 never overwrites a truthy field. -/
theorem fmStep10_pres (t : RMap) (f : String)
    (ht : truthy (rget t f) = true) : rget (P2.fmStep10 t) f = rget t f := by
  unfold P2.fmStep10
  split
  · next hc =>
    have hf : ¬(f = "country") := by
      intro hf
      rw [hf] at ht
      exact hc.1 ht
    split
    · split
      · exact rget_rset_ne t _ f _ hf
      · rfl
    · rfl
  · rfl

/-- Inference 11 never overwrites a truthy field. -/
theorem fmStep11_pres (t : RMap) (f : String)
    (ht : truthy (rget t f) = true) : rget (P2.fmStep11 t) f = rget t f := by
  unfold P2.fmStep11
  split
  · next hc =>
    by_cases hf : f = "reference_number"
    · rw [hf] at ht
      exact absurd ht hc
    · have frame : ∀ (t1 : RMap) (v : JsVal), rget (rset t1 "reference_number" v) f = rget t1 f :=
        fun t1 v => rget_rset_ne t1 _ f v hf
      (repeat' (first | split | intro _)) <;>
        simp [frame, apply_ite (fun (m : RMap) => rget m f)] <;>
        (repeat' (first | split | intro _)) <;>
        (try simp [frame, apply_ite (fun (m : RMap) => rget m f)]) <;>
        (try intro _) <;>
        (try (repeat' split)) <;>
        (try simp [frame])
  · rfl
/-- Inference 12 never overwrites a truthy field. -/
theorem fmStep12_pres (t : RMap) (f : String)
    (ht : truthy (rget t f) = true) : rget (P2.fmStep12 t) f = rget t f := by
  unfold P2.fmStep12
  split
  · split
    · next d heq =>
      dsimp only []
      generalize hE1 : (if ¬truthy (rget t "contact_email") = true then
          match emailScan none d.data with
          | some e => rset t "contact_email" (JsVal.str e)
          | none => t
        else t) = T1
      have e1 : rget T1 f = rget t f := by
        rw [← hE1]
        split
        · next hcc =>
          have hfk : ¬(f = "contact_email") := fun hh => hcc (hh ▸ ht)
          split
          · exact rget_rset_ne t _ f _ hfk
          · rfl
        · rfl
      have ht1 : truthy (rget T1 f) = true := by rw [e1]; exact ht
      generalize hE2 : (if ¬truthy (rget T1 "contact_name") = true then
          match P2.contactNameFromDesc d.data with
          | some n => rset T1 "contact_name" (JsVal.str n)
          | none => T1
        else T1) = T2
      have e2 : rget T2 f = rget t f := by
        rw [← hE2]
        split
        · next hcc =>
          have hfk : ¬(f = "contact_name") := fun hh => hcc (hh ▸ ht1)
          split
          · rw [rget_rset_ne T1 _ f _ hfk]
            exact e1
          · exact e1
        · exact e1
      have ht2 : truthy (rget T2 f) = true := by rw [e2]; exact ht
      split
      · next hcc =>
        have hfk : ¬(f = "contact_phone") := fun hh => hcc (hh ▸ ht2)
        have frame : ∀ (v : JsVal), rget (rset T2 "contact_phone" v) f = rget t f :=
          fun v => by rw [rget_rset_ne T2 _ f _ hfk]; exact e2
        (repeat' (first | split | intro _)) <;> first | exact e2 | exact frame _
      · exact e2
    · rfl
  · rfl
/-- Inference 13 never overwrites a truthy field. -/
theorem fmStep13_pres (t : RMap) (f : String)
    (ht : truthy (rget t f) = true) : rget (P2.fmStep13 t) f = rget t f := by
  unfold P2.fmStep13
  split
  · next hc =>
    by_cases hf : f = "tender_type"
    · rw [hf] at ht
      exact absurd ht hc
    · have frame : ∀ (t1 : RMap) (v : JsVal), rget (rset t1 "tender_type" v) f = rget t1 f :=
        fun t1 v => rget_rset_ne t1 _ f v hf
      (repeat' (first | split | intro _)) <;>
        (try simp [frame, apply_ite (fun (m : RMap) => rget m f)]) <;>
        (try intro _) <;>
        (try (repeat' split)) <;>
        (try simp [frame])
  · rfl
/-- Inference 14 never overwrites a truthy field other than the unguarded
currency. -/
theorem fmStep14_pres (t : RMap) (f : String)
    (hne : ¬(f = "currency"))
    (ht : truthy (rget t f) = true) : rget (P2.fmStep14 t) f = rget t f := by
  unfold P2.fmStep14
  split
  · next hc =>
    by_cases hf : f = "estimated_value"
    · rw [hf] at ht
      exact absurd ht hc.1
    · have fold : ∀ (l : List (String × String)) (span : List Char) (acc : RMap),
          rget acc f = rget t f →
          rget (l.foldl (fun acc p =>
            if containsSub p.1.data span then rset acc "currency" (.str p.2)
            else acc) acc) f = rget t f := by
        intro l span
        induction l with
        | nil => intro acc he; exact he
        | cons q rest ih =>
          intro acc he
          rw [List.foldl_cons]
          by_cases hc2 : containsSub q.1.data span = true
          · rw [if_pos hc2]
            refine ih _ ?_
            rw [rget_rset_ne acc _ f _ hne]
            exact he
          · rw [if_neg hc2]
            exact ih _ he
      (repeat' (first | split | intro _ | dsimp only [])) <;>
        first
          | rfl
          | exact fold _ _ _ (rget_rset_ne t _ f _ hf)
  · rfl
/-- Inference 15 leaves every field other than city unchanged. -/
theorem fmStep15_pres (t : RMap) (f : String) (hne : ¬(f = "city")) :
    rget (P2.fmStep15 t) f = rget t f := by
  unfold P2.fmStep15
  split
  · split
    · rfl
    · exact rget_rset_ne t _ f _ hne
  · rfl

/-- Inference 16 leaves every field other than country unchanged. -/
theorem fmStep16_pres (t : RMap) (f : String) (hne : ¬(f = "country")) :
    rget (P2.fmStep16 t) f = rget t f := by
  unfold P2.fmStep16
  have frame : ∀ (t1 : RMap) (v : JsVal), rget (rset t1 "country" v) f = rget t1 f :=
    fun t1 v => rget_rset_ne t1 _ f v hne
  (repeat' (first | split | intro _)) <;>
    (try simp [frame, apply_ite (fun (m : RMap) => rget m f)]) <;>
    (try intro _) <;>
    (try (repeat' split)) <;>
    (try simp [frame])

/-- Claim C9 as amended: every back-fill inference of fillMissingFields is
additive on every field other than the six unguarded ones: for a field
that is not organization_name_english, buyer_english,
project_name_english, currency, city or country, a truthy value is
carried through unchanged.  The original claim fails on the excluded
fields: inference 3 writes organization_name_english without an emptiness
guard (see the counterexample), inferences 6 and 8 do the same for
buyer_english and project_name_english, inference 14 overwrites currency
whenever a money mention is found, and inferences 15 and 16 re-capitalize
city and country even when already set. -/
theorem fillMissingFields_amended (now : ℕ) (t : RMap) (f : String)
    (h1 : ¬(f = "organization_name_english")) (h2 : ¬(f = "buyer_english"))
    (h3 : ¬(f = "project_name_english")) (h4 : ¬(f = "currency"))
    (h5 : ¬(f = "city")) (h6 : ¬(f = "country"))
    (ht : truthy (rget t f) = true) :
    rget (P2.fillMissingFields now t) f = rget t f := by
  unfold P2.fillMissingFields
  have E1 : rget (P2.fmStep1 t) f = rget t f := fmStep1_pres t f ht
  have H1 : truthy (rget (P2.fmStep1 t) f) = true := by rw [E1]; exact ht
  have E2 : rget (P2.fmStep2 (P2.fmStep1 t)) f = rget t f := by
    rw [fmStep2_pres _ f H1]; exact E1
  have H2 : truthy (rget (P2.fmStep2 (P2.fmStep1 t)) f) = true := by
    rw [E2]; exact ht
  have E3 : rget (P2.fmStep3 (P2.fmStep2 (P2.fmStep1 t))) f = rget t f := by
    rw [fmStep3_pres _ f h1 H2]; exact E2
  have H3 : truthy (rget (P2.fmStep3 (P2.fmStep2 (P2.fmStep1 t))) f) = true := by
    rw [E3]; exact ht
  have E4 : rget (P2.fmStep4 (P2.fmStep3 (P2.fmStep2 (P2.fmStep1 t)))) f
      = rget t f := by
    rw [fmStep4_pres _ f H3]; exact E3
  have H4 : truthy (rget (P2.fmStep4 (P2.fmStep3 (P2.fmStep2 (P2.fmStep1 t)))) f)
      = true := by
    rw [E4]; exact ht
  have E5 : rget (P2.fmStep5 now (P2.fmStep4 (P2.fmStep3 (P2.fmStep2
      (P2.fmStep1 t))))) f = rget t f := by
    rw [fmStep5_pres now _ f H4]; exact E4
  have H5 : truthy (rget (P2.fmStep5 now (P2.fmStep4 (P2.fmStep3 (P2.fmStep2
      (P2.fmStep1 t))))) f) = true := by
    rw [E5]; exact ht
  have E6 : rget (P2.fmStep6 (P2.fmStep5 now (P2.fmStep4 (P2.fmStep3
      (P2.fmStep2 (P2.fmStep1 t)))))) f = rget t f := by
    rw [fmStep6_pres _ f h2 H5]; exact E5
  have H6 : truthy (rget (P2.fmStep6 (P2.fmStep5 now (P2.fmStep4 (P2.fmStep3
      (P2.fmStep2 (P2.fmStep1 t)))))) f) = true := by
    rw [E6]; exact ht
  have E7 : rget (P2.fmStep7 now (P2.fmStep6 (P2.fmStep5 now (P2.fmStep4
      (P2.fmStep3 (P2.fmStep2 (P2.fmStep1 t))))))) f = rget t f := by
    rw [fmStep7_pres now _ f H6]; exact E6
  have H7 : truthy (rget (P2.fmStep7 now (P2.fmStep6 (P2.fmStep5 now
      (P2.fmStep4 (P2.fmStep3 (P2.fmStep2 (P2.fmStep1 t))))))) f) = true := by
    rw [E7]; exact ht
  have E8 : rget (P2.fmStep8 (P2.fmStep7 now (P2.fmStep6 (P2.fmStep5 now
      (P2.fmStep4 (P2.fmStep3 (P2.fmStep2 (P2.fmStep1 t)))))))) f
      = rget t f := by
    rw [fmStep8_pres _ f h3 H7]; exact E7
  have H8 : truthy (rget (P2.fmStep8 (P2.fmStep7 now (P2.fmStep6 (P2.fmStep5
      now (P2.fmStep4 (P2.fmStep3 (P2.fmStep2 (P2.fmStep1 t)))))))) f)
      = true := by
    rw [E8]; exact ht
  have E9 : rget (P2.fmStep9 (P2.fmStep8 (P2.fmStep7 now (P2.fmStep6
      (P2.fmStep5 now (P2.fmStep4 (P2.fmStep3 (P2.fmStep2
        (P2.fmStep1 t))))))))) f = rget t f := by
    rw [fmStep9_pres _ f H8]; exact E8
  have H9 : truthy (rget (P2.fmStep9 (P2.fmStep8 (P2.fmStep7 now (P2.fmStep6
      (P2.fmStep5 now (P2.fmStep4 (P2.fmStep3 (P2.fmStep2
        (P2.fmStep1 t))))))))) f) = true := by
    rw [E9]; exact ht
  have E10 : rget (P2.fmStep10 (P2.fmStep9 (P2.fmStep8 (P2.fmStep7 now
      (P2.fmStep6 (P2.fmStep5 now (P2.fmStep4 (P2.fmStep3 (P2.fmStep2
        (P2.fmStep1 t)))))))))) f = rget t f := by
    rw [fmStep10_pres _ f H9]; exact E9
  have H10 : truthy (rget (P2.fmStep10 (P2.fmStep9 (P2.fmStep8 (P2.fmStep7
      now (P2.fmStep6 (P2.fmStep5 now (P2.fmStep4 (P2.fmStep3 (P2.fmStep2
        (P2.fmStep1 t)))))))))) f) = true := by
    rw [E10]; exact ht
  have E11 : rget (P2.fmStep11 (P2.fmStep10 (P2.fmStep9 (P2.fmStep8
      (P2.fmStep7 now (P2.fmStep6 (P2.fmStep5 now (P2.fmStep4 (P2.fmStep3
        (P2.fmStep2 (P2.fmStep1 t))))))))))) f = rget t f := by
    rw [fmStep11_pres _ f H10]; exact E10
  have H11 : truthy (rget (P2.fmStep11 (P2.fmStep10 (P2.fmStep9 (P2.fmStep8
      (P2.fmStep7 now (P2.fmStep6 (P2.fmStep5 now (P2.fmStep4 (P2.fmStep3
        (P2.fmStep2 (P2.fmStep1 t))))))))))) f) = true := by
    rw [E11]; exact ht
  have E12 : rget (P2.fmStep12 (P2.fmStep11 (P2.fmStep10 (P2.fmStep9
      (P2.fmStep8 (P2.fmStep7 now (P2.fmStep6 (P2.fmStep5 now (P2.fmStep4
        (P2.fmStep3 (P2.fmStep2 (P2.fmStep1 t)))))))))))) f = rget t f := by
    rw [fmStep12_pres _ f H11]; exact E11
  have H12 : truthy (rget (P2.fmStep12 (P2.fmStep11 (P2.fmStep10 (P2.fmStep9
      (P2.fmStep8 (P2.fmStep7 now (P2.fmStep6 (P2.fmStep5 now (P2.fmStep4
        (P2.fmStep3 (P2.fmStep2 (P2.fmStep1 t)))))))))))) f) = true := by
    rw [E12]; exact ht
  have E13 : rget (P2.fmStep13 (P2.fmStep12 (P2.fmStep11 (P2.fmStep10
      (P2.fmStep9 (P2.fmStep8 (P2.fmStep7 now (P2.fmStep6 (P2.fmStep5 now
        (P2.fmStep4 (P2.fmStep3 (P2.fmStep2 (P2.fmStep1 t))))))))))))) f
      = rget t f := by
    rw [fmStep13_pres _ f H12]; exact E12
  have H13 : truthy (rget (P2.fmStep13 (P2.fmStep12 (P2.fmStep11 (P2.fmStep10
      (P2.fmStep9 (P2.fmStep8 (P2.fmStep7 now (P2.fmStep6 (P2.fmStep5 now
        (P2.fmStep4 (P2.fmStep3 (P2.fmStep2 (P2.fmStep1 t))))))))))))) f)
      = true := by
    rw [E13]; exact ht
  have E14 : rget (P2.fmStep14 (P2.fmStep13 (P2.fmStep12 (P2.fmStep11
      (P2.fmStep10 (P2.fmStep9 (P2.fmStep8 (P2.fmStep7 now (P2.fmStep6
        (P2.fmStep5 now (P2.fmStep4 (P2.fmStep3 (P2.fmStep2
          (P2.fmStep1 t)))))))))))))) f = rget t f := by
    rw [fmStep14_pres _ f h4 H13]; exact E13
  have E15 : rget (P2.fmStep15 (P2.fmStep14 (P2.fmStep13 (P2.fmStep12
      (P2.fmStep11 (P2.fmStep10 (P2.fmStep9 (P2.fmStep8 (P2.fmStep7 now
        (P2.fmStep6 (P2.fmStep5 now (P2.fmStep4 (P2.fmStep3 (P2.fmStep2
          (P2.fmStep1 t))))))))))))))) f = rget t f := by
    rw [fmStep15_pres _ f h5]; exact E14
  rw [fmStep16_pres _ f h6]
  exact E15

/-- Claim C9 counterexample: a tender holding the non-empty English
organization name Banco Mundial next to a mapped organization id has that
value overwritten with World Bank by inference 3, which writes the English
name without any emptiness guard. -/
theorem fillMissingFields_overwrites_org_english :
    truthy (rget
        [("organization_id", JsVal.str "100000000"),
         ("organization_name_english", JsVal.str "Banco Mundial")]
        "organization_name_english") = true ∧
    getStr (P2.fillMissingFields 0
        [("organization_id", JsVal.str "100000000"),
         ("organization_name_english", JsVal.str "Banco Mundial")])
      "organization_name_english" = some "World Bank" ∧
    ¬(some "World Bank" = some "Banco Mundial") := by
  refine ⟨rfl, ?_, by decide⟩
  rfl

/-- Witness for the amended claim C9 on a truthy guarded field. -/
theorem fillMissingFields_amended_witness :
    rget (P2.fillMissingFields 0 [("title_english", JsVal.str "Bridge works")])
        "title_english"
      = rget [("title_english", JsVal.str "Bridge works")] "title_english" :=
  fillMissingFields_amended 0 _ "title_english" (by decide) (by decide)
    (by decide) (by decide) (by decide) (by decide) (by decide)



/-! Infrastructure for the idempotence analysis of the orchestrator: how
the live store evolves under processOne, and which rows are guaranteed
fresh after a complete batch. -/

/-- The update write of the orchestrator, as applied to one row. -/
def updRow (tbl id0 : String) (nd : RMap) (now : ℕ) (r : URow) : URow :=
  if r.source_table = tbl ∧ r.source_id = id0 then
    { r with payload := nd, updated_at := some now }
  else r

/-- The update write preserves the key fields of a row. -/
theorem updRow_keys (tbl id0 : String) (nd : RMap) (now : ℕ) (r : URow) :
    (updRow tbl id0 nd now r).source_table = r.source_table ∧
    (updRow tbl id0 nd now r).source_id = r.source_id := by
  unfold updRow
  split
  · exact ⟨rfl, rfl⟩
  · exact ⟨rfl, rfl⟩

/-- Row lookup commutes with the update write. -/
theorem findRow_map_upd (db : List URow) (tbl id0 id : String) (nd : RMap)
    (now : ℕ) :
    findRow (db.map (updRow tbl id0 nd now)) tbl id =
      (findRow db tbl id).map (updRow tbl id0 nd now) := by
  unfold findRow
  induction db with
  | nil => rfl
  | cons r rest ih =>
    rw [List.map_cons]
    by_cases h : (r.source_table = tbl ∧ r.source_id = id)
    · rw [List.find?_cons_of_pos, List.find?_cons_of_pos]
      · rfl
      · exact decide_eq_true h
      · refine decide_eq_true ?_
        rw [(updRow_keys tbl id0 nd now r).1, (updRow_keys tbl id0 nd now r).2]
        exact h
    · rw [List.find?_cons_of_neg, List.find?_cons_of_neg]
      · exact ih
      · exact fun hh => h (of_decide_eq_true hh)
      · refine fun hh => h ?_
        have h2 := of_decide_eq_true hh
        rw [(updRow_keys tbl id0 nd now r).1, (updRow_keys tbl id0 nd now r).2] at h2
        exact h2

/-- Row lookup in a store extended by one new row. -/
theorem findRow_append_one (db : List URow) (tbl id : String) (row : URow) :
    findRow (db ++ [row]) tbl id =
      (match findRow db tbl id with
       | some r => some r
       | none =>
         if row.source_table = tbl ∧ row.source_id = id then some row else none) := by
  unfold findRow
  induction db with
  | nil =>
    rw [List.nil_append]
    show List.find? (fun r => decide (r.source_table = tbl ∧ r.source_id = id)) [row]
      = if row.source_table = tbl ∧ row.source_id = id then some row else none
    by_cases h : (row.source_table = tbl ∧ row.source_id = id)
    · rw [List.find?_cons_of_pos, if_pos h]
      exact decide_eq_true h
    · rw [List.find?_cons_of_neg, if_neg h, List.find?_nil]
      exact fun hh => h (of_decide_eq_true hh)
  | cons r rest ih =>
    rw [List.cons_append]
    by_cases h : (r.source_table = tbl ∧ r.source_id = id)
    · rw [List.find?_cons_of_pos, List.find?_cons_of_pos]
      · exact decide_eq_true h
      · exact decide_eq_true h
    · rw [List.find?_cons_of_neg, List.find?_cons_of_neg]
      · exact ih
      · exact fun hh => h (of_decide_eq_true hh)
      · exact fun hh => h (of_decide_eq_true hh)

/-- Store invariant of a batch at time now over a starting store db0: rows
present at batch start persist with their freshness either untouched or
stamped now, and rows not present at batch start only enter stamped
now. -/
def Kinv (db0 : List URow) (tbl : String) (now : ℕ) (db : List URow) : Prop :=
  (∀ id r0, findRow db0 tbl id = some r0 →
    ∃ r, findRow db tbl id = some r ∧
      (r.updated_at = r0.updated_at ∨ r.updated_at = some now)) ∧
  (∀ id r, findRow db0 tbl id = none → findRow db tbl id = some r →
    r.updated_at = some now)

/-- A key holding a row stamped with the batch time. -/
def DoneId (tbl : String) (now : ℕ) (db : List URow) (id : String) : Prop :=
  ∃ r, findRow db tbl id = some r ∧ r.updated_at = some now

/-- The three possible store transitions of the write phase. -/
theorem writePhase_db_cases (tbl : String) (now : ℕ) (exist : String → Bool)
    (st : BatchSt) (sourceId : String) (nd0 : RMap) :
    (writePhase tbl now exist st sourceId nd0).db = st.db ∨
    (∃ id0 nd, (writePhase tbl now exist st sourceId nd0).db =
      st.db.map (updRow tbl id0 nd now)) ∨
    (∃ id0 nd, findRow st.db tbl id0 = none ∧
      (writePhase tbl now exist st sourceId nd0).db =
        st.db ++ [⟨tbl, id0, some now, nd⟩]) := by
  unfold writePhase
  dsimp only []
  split
  · exact Or.inl rfl
  · split
    · exact Or.inr (Or.inl ⟨_, _, rfl⟩)
    · split
      · exact Or.inl rfl
      · next heq => exact Or.inr (Or.inr ⟨_, _, heq, rfl⟩)

/-- The three possible store transitions of processOne. -/
theorem processOne_db_cases (A : Adapter) (tbl : String)
    (oracle : RMap → LlmBehavior) (now : ℕ) (exist : String → Bool)
    (st : BatchSt) (t : RMap) (idx : ℕ) :
    (processOne A tbl oracle now exist st t idx).db = st.db ∨
    (∃ id0 nd, (processOne A tbl oracle now exist st t idx).db =
      st.db.map (updRow tbl id0 nd now)) ∨
    (∃ id0 nd, findRow st.db tbl id0 = none ∧
      (processOne A tbl oracle now exist st t idx).db =
        st.db ++ [⟨tbl, id0, some now, nd⟩]) := by
  unfold processOne
  exact writePhase_db_cases tbl now exist _ _ _

/-- Kinv is preserved by any processOne call. -/
theorem Kinv_step (A : Adapter) (tbl : String) (oracle : RMap → LlmBehavior)
    (now : ℕ) (exist : String → Bool) (db0 : List URow) (st : BatchSt)
    (t : RMap) (idx : ℕ) (hK : Kinv db0 tbl now st.db) :
    Kinv db0 tbl now (processOne A tbl oracle now exist st t idx).db := by
  rcases processOne_db_cases A tbl oracle now exist st t idx with
    h | ⟨id0, nd, h⟩ | ⟨id0, nd, hnone, h⟩
  · rw [h]; exact hK
  · rw [h]
    constructor
    · intro id r0 h0
      obtain ⟨r, hr, hu⟩ := hK.1 id r0 h0
      refine ⟨updRow tbl id0 nd now r, ?_, ?_⟩
      · rw [findRow_map_upd, hr]
        rfl
      · unfold updRow
        split
        · exact Or.inr rfl
        · exact hu
    · intro id r h0 hr
      rw [findRow_map_upd] at hr
      match hfr : findRow st.db tbl id, hr with
      | some r1, hr =>
        have hu := hK.2 id r1 h0 hfr
        have he : updRow tbl id0 nd now r1 = r := by
          simpa using hr
        rw [← he]
        unfold updRow
        split
        · rfl
        · exact hu
      | none, hr => exact absurd hr (by simp)
  · rw [h]
    constructor
    · intro id r0 h0
      obtain ⟨r, hr, hu⟩ := hK.1 id r0 h0
      refine ⟨r, ?_, hu⟩
      rw [findRow_append_one, hr]
    · intro id r h0 hr
      rw [findRow_append_one] at hr
      match hfr : findRow st.db tbl id, hr with
      | some r1, hr =>
        have he : r1 = r := by simpa using hr
        rw [← he]
        exact hK.2 id r1 h0 hfr
      | none, hr =>
        by_cases hid : id0 = id
        · subst hid
          rw [if_pos ⟨rfl, rfl⟩] at hr
          have he : (⟨tbl, id0, some now, nd⟩ : URow) = r := by simpa using hr
          rw [← he]
        · rw [if_neg fun hcon => hid hcon.2] at hr
          exact absurd hr (by simp)

/-- DoneId is preserved by any processOne call. -/
theorem DoneId_step (A : Adapter) (tbl : String) (oracle : RMap → LlmBehavior)
    (now : ℕ) (exist : String → Bool) (st : BatchSt) (t : RMap) (idx : ℕ)
    (id : String) (hD : DoneId tbl now st.db id) :
    DoneId tbl now (processOne A tbl oracle now exist st t idx).db id := by
  obtain ⟨r, hr, hu⟩ := hD
  rcases processOne_db_cases A tbl oracle now exist st t idx with
    h | ⟨id0, nd, h⟩ | ⟨id0, nd, hnone, h⟩
  · rw [h]; exact ⟨r, hr, hu⟩
  · rw [h]
    refine ⟨updRow tbl id0 nd now r, ?_, ?_⟩
    · rw [findRow_map_upd, hr]
      rfl
    · unfold updRow
      split
      · rfl
      · exact hu
  · rw [h]
    refine ⟨r, ?_, hu⟩
    rw [findRow_append_one, hr]

/-- The write phase increments errors only in its error branch. -/
theorem writePhase_errors_mono (tbl : String) (now : ℕ) (exist : String → Bool)
    (st : BatchSt) (sourceId : String) (nd0 : RMap) :
    st.errors ≤ (writePhase tbl now exist st sourceId nd0).errors := by
  unfold writePhase
  dsimp only []
  split
  · exact Nat.le_succ _
  · split
    · exact Nat.le_refl _
    · split
      · exact Nat.le_refl _
      · exact Nat.le_refl _

/-- processOne never decrements errors. -/
theorem processOne_errors_mono (A : Adapter) (tbl : String)
    (oracle : RMap → LlmBehavior) (now : ℕ) (exist : String → Bool)
    (st : BatchSt) (t : RMap) (idx : ℕ) :
    st.errors ≤ (processOne A tbl oracle now exist st t idx).errors := by
  unfold processOne
  exact writePhase_errors_mono tbl now exist { st with attempts := st.attempts + 1 }
    ((A.getSourceId t).getD (tbl ++ "_" ++ toString idx)) _

/-- The write phase increments processed by at most one. -/
theorem writePhase_processed_le (tbl : String) (now : ℕ) (exist : String → Bool)
    (st : BatchSt) (sourceId : String) (nd0 : RMap) :
    (writePhase tbl now exist st sourceId nd0).processed ≤ st.processed + 1 := by
  unfold writePhase
  dsimp only []
  split
  · exact Nat.le_succ _
  · split
    · exact Nat.le_refl _
    · split
      · exact Nat.le_succ _
      · exact Nat.le_refl _

/-- processOne increments processed by at most one. -/
theorem processOne_processed_le (A : Adapter) (tbl : String)
    (oracle : RMap → LlmBehavior) (now : ℕ) (exist : String → Bool)
    (st : BatchSt) (t : RMap) (idx : ℕ) :
    (processOne A tbl oracle now exist st t idx).processed ≤ st.processed + 1 := by
  unfold processOne
  exact writePhase_processed_le tbl now exist { st with attempts := st.attempts + 1 }
    ((A.getSourceId t).getD (tbl ++ "_" ++ toString idx)) _

/-- A found row carries the searched key. -/
theorem findRow_some_keys (db : List URow) (tbl id : String) (r : URow)
    (h : findRow db tbl id = some r) :
    r.source_table = tbl ∧ r.source_id = id := by
  unfold findRow at h
  have hp := List.find?_some h
  exact of_decide_eq_true hp

/-- If the write phase of a record leaves the error counter unchanged,
the record is written: its key holds a row stamped with the batch time
afterwards. -/
theorem writePhase_covers (tbl : String) (now : ℕ) (exist : String → Bool)
    (st : BatchSt) (sourceId : String) (nd0 : RMap)
    (herr : (writePhase tbl now exist st sourceId nd0).errors = st.errors)
    (hex : exist sourceId = true → ∃ r, findRow st.db tbl sourceId = some r)
    (hskip : exist sourceId = false →
      ∀ r, findRow st.db tbl sourceId = some r → r.updated_at = some now) :
    DoneId tbl now (writePhase tbl now exist st sourceId nd0).db sourceId := by
  unfold writePhase at herr ⊢
  dsimp only [] at herr ⊢
  split at herr
  · next hc =>
    rw [if_pos hc] at *
    simp at herr
  · next hc =>
    rw [if_neg hc]
    by_cases hx : exist sourceId = true
    · rw [if_pos hx]
      obtain ⟨r, hr⟩ := hex hx
      have hkey := findRow_some_keys st.db tbl sourceId r hr
      show DoneId tbl now (st.db.map (updRow tbl sourceId
        (rset (rset nd0 "source_table" (.str tbl)) "source_id" (.str sourceId)) now)) sourceId
      refine ⟨updRow tbl sourceId
        (rset (rset nd0 "source_table" (.str tbl)) "source_id" (.str sourceId)) now r,
        ?_, ?_⟩
      · rw [findRow_map_upd, hr]
        rfl
      · unfold updRow
        rw [if_pos hkey]
    · rw [if_neg hx]
      match hfr : findRow st.db tbl sourceId with
      | some r =>
        refine ⟨r, hfr, ?_⟩
        exact hskip (by simpa using hx) r hfr
      | none =>
        refine ⟨⟨tbl, sourceId, some now,
          rset (rset nd0 "source_table" (.str tbl)) "source_id" (.str sourceId)⟩, ?_, rfl⟩
        rw [findRow_append_one, hfr]
        simp

/-- processOne with an unchanged error counter writes the record. -/
theorem processOne_covers (A : Adapter) (tbl : String)
    (oracle : RMap → LlmBehavior) (now : ℕ) (exist : String → Bool)
    (st : BatchSt) (t : RMap) (idx : ℕ) (id : String)
    (hid : A.getSourceId t = some id)
    (herr : (processOne A tbl oracle now exist st t idx).errors = st.errors)
    (hex : exist id = true → ∃ r, findRow st.db tbl id = some r)
    (hskip : exist id = false →
      ∀ r, findRow st.db tbl id = some r → r.updated_at = some now) :
    DoneId tbl now (processOne A tbl oracle now exist st t idx).db id := by
  unfold processOne at herr ⊢
  rw [hid] at herr ⊢
  simp only [Option.getD_some] at herr ⊢
  exact writePhase_covers tbl now exist _ id _ herr hex hskip


/-- A candidate whose existence test agrees with the starting store. -/
def OkCand (A : Adapter) (exist : String → Bool) (db0 : List URow)
    (tbl : String) (t : RMap) : Prop :=
  ∀ id, A.getSourceId t = some id → exist id = (findRow db0 tbl id).isSome

/-- Errors never decrease over a chunk. -/
theorem processChunk_errors_mono (A : Adapter) (tbl : String)
    (oracle : RMap → LlmBehavior) (now : ℕ) (exist : String → Bool) :
    ∀ (chunk : List RMap) (st : BatchSt) (base : ℕ),
    st.errors ≤ (processChunk A tbl oracle now exist st chunk base).errors := by
  intro chunk
  induction chunk with
  | nil => intro st base; exact Nat.le_refl _
  | cons c rest ih =>
    intro st base
    exact Nat.le_trans (processOne_errors_mono A tbl oracle now exist st c base)
      (ih _ _)

/-- Processed grows by at most the chunk length. -/
theorem processChunk_processed_le (A : Adapter) (tbl : String)
    (oracle : RMap → LlmBehavior) (now : ℕ) (exist : String → Bool) :
    ∀ (chunk : List RMap) (st : BatchSt) (base : ℕ),
    (processChunk A tbl oracle now exist st chunk base).processed ≤
      st.processed + chunk.length := by
  intro chunk
  induction chunk with
  | nil => intro st base; simp [processChunk]
  | cons c rest ih =>
    intro st base
    have h1 := processOne_processed_le A tbl oracle now exist st c base
    have h2 := ih (processOne A tbl oracle now exist st c base) (base + 1)
    have h3 : (processChunk A tbl oracle now exist st (c :: rest) base).processed
        = (processChunk A tbl oracle now exist
            (processOne A tbl oracle now exist st c base) rest (base + 1)).processed := rfl
    rw [h3, List.length_cons]
    omega

/-- Kinv is preserved over a chunk. -/
theorem processChunk_K (A : Adapter) (tbl : String)
    (oracle : RMap → LlmBehavior) (now : ℕ) (exist : String → Bool)
    (db0 : List URow) :
    ∀ (chunk : List RMap) (st : BatchSt) (base : ℕ),
    Kinv db0 tbl now st.db →
    Kinv db0 tbl now (processChunk A tbl oracle now exist st chunk base).db := by
  intro chunk
  induction chunk with
  | nil => intro st base h; exact h
  | cons c rest ih =>
    intro st base h
    exact ih _ _ (Kinv_step A tbl oracle now exist db0 st c base h)

/-- DoneId is preserved over a chunk. -/
theorem processChunk_Done (A : Adapter) (tbl : String)
    (oracle : RMap → LlmBehavior) (now : ℕ) (exist : String → Bool) :
    ∀ (chunk : List RMap) (st : BatchSt) (base : ℕ) (id : String),
    DoneId tbl now st.db id →
    DoneId tbl now (processChunk A tbl oracle now exist st chunk base).db id := by
  intro chunk
  induction chunk with
  | nil => intro st base id h; exact h
  | cons c rest ih =>
    intro st base id h
    exact ih _ _ _ (DoneId_step A tbl oracle now exist st c base id h)

/-- A chunk processed without new errors writes every one of its
candidates. -/
theorem processChunk_covers (A : Adapter) (tbl : String)
    (oracle : RMap → LlmBehavior) (now : ℕ) (exist : String → Bool)
    (db0 : List URow) :
    ∀ (chunk : List RMap) (st : BatchSt) (base : ℕ),
    Kinv db0 tbl now st.db →
    (∀ t ∈ chunk, OkCand A exist db0 tbl t) →
    (processChunk A tbl oracle now exist st chunk base).errors = st.errors →
    ∀ t ∈ chunk, ∀ id, A.getSourceId t = some id →
      DoneId tbl now (processChunk A tbl oracle now exist st chunk base).db id := by
  intro chunk
  induction chunk with
  | nil =>
    intro st base _ _ _ t ht
    exact absurd ht (List.not_mem_nil t)
  | cons c rest ih =>
    intro st base hK hok herr t ht id hid
    have he1 : (processOne A tbl oracle now exist st c base).errors = st.errors := by
      have hm1 := processOne_errors_mono A tbl oracle now exist st c base
      have hm2 := processChunk_errors_mono A tbl oracle now exist rest
        (processOne A tbl oracle now exist st c base) (base + 1)
      have hstep : (processChunk A tbl oracle now exist
          (processOne A tbl oracle now exist st c base) rest (base + 1)).errors
          = st.errors := herr
      omega
    have herr2 : (processChunk A tbl oracle now exist
        (processOne A tbl oracle now exist st c base) rest (base + 1)).errors
        = (processOne A tbl oracle now exist st c base).errors := by
      rw [he1]
      exact herr
    rcases List.mem_cons.mp ht with rfl | hmem
    · have hok1 := hok t (List.mem_cons_self t rest) id hid
      have hD : DoneId tbl now (processOne A tbl oracle now exist st t base).db id := by
        refine processOne_covers A tbl oracle now exist st t base id hid he1 ?_ ?_
        · intro hxt
          rw [hxt] at hok1
          obtain ⟨r0, hr0⟩ := Option.isSome_iff_exists.mp hok1.symm
          obtain ⟨r, hr, _⟩ := hK.1 id r0 hr0
          exact ⟨r, hr⟩
        · intro hxf r hr
          rw [hxf] at hok1
          have hnone : findRow db0 tbl id = none := by
            cases hfd : findRow db0 tbl id with
            | none => rfl
            | some rr =>
              rw [hfd] at hok1
              simp at hok1
          exact hK.2 id r hnone hr
      exact processChunk_Done A tbl oracle now exist rest _ (base + 1) id hD
    · exact ih (processOne A tbl oracle now exist st c base) (base + 1)
        (Kinv_step A tbl oracle now exist db0 st c base hK)
        (fun x hx => hok x (List.mem_cons_of_mem c hx)) herr2 t hmem id hid

/-- Errors never decrease over the chunk loop. -/
theorem chunkLoopF_errors_mono (A : Adapter) (tbl : String)
    (oracle : RMap → LlmBehavior) (now : ℕ) (exist : String → Bool)
    (limit : ℤ) :
    ∀ (fuel : ℕ) (pending : List RMap) (base : ℕ) (st : BatchSt),
    st.errors ≤
      (chunkLoopF A tbl oracle now exist limit fuel pending base st).errors := by
  intro fuel
  induction fuel with
  | zero => intro pending base st; exact Nat.le_refl _
  | succ fuel ih =>
    intro pending base st
    simp only [chunkLoopF]
    split
    · exact Nat.le_refl _
    · split
      · exact Nat.le_refl _
      · split
        · exact processChunk_errors_mono A tbl oracle now exist _ st base
        · exact Nat.le_trans
            (processChunk_errors_mono A tbl oracle now exist _ st base)
            (ih _ _ _)

/-- Kinv is preserved over the chunk loop. -/
theorem chunkLoopF_K (A : Adapter) (tbl : String)
    (oracle : RMap → LlmBehavior) (now : ℕ) (exist : String → Bool)
    (limit : ℤ) (db0 : List URow) :
    ∀ (fuel : ℕ) (pending : List RMap) (base : ℕ) (st : BatchSt),
    Kinv db0 tbl now st.db →
    Kinv db0 tbl now
      (chunkLoopF A tbl oracle now exist limit fuel pending base st).db := by
  intro fuel
  induction fuel with
  | zero => intro pending base st h; exact h
  | succ fuel ih =>
    intro pending base st h
    simp only [chunkLoopF]
    split
    · exact h
    · split
      · exact h
      · split
        · exact processChunk_K A tbl oracle now exist db0 _ st base h
        · exact ih _ _ _ (processChunk_K A tbl oracle now exist db0 _ st base h)

/-- DoneId is preserved over the chunk loop. -/
theorem chunkLoopF_Done (A : Adapter) (tbl : String)
    (oracle : RMap → LlmBehavior) (now : ℕ) (exist : String → Bool)
    (limit : ℤ) :
    ∀ (fuel : ℕ) (pending : List RMap) (base : ℕ) (st : BatchSt) (id : String),
    DoneId tbl now st.db id →
    DoneId tbl now
      (chunkLoopF A tbl oracle now exist limit fuel pending base st).db id := by
  intro fuel
  induction fuel with
  | zero => intro pending base st id h; exact h
  | succ fuel ih =>
    intro pending base st id h
    simp only [chunkLoopF]
    split
    · exact h
    · split
      · exact h
      · split
        · exact processChunk_Done A tbl oracle now exist _ st base id h
        · exact ih _ _ _ _ (processChunk_Done A tbl oracle now exist _ st base id h)

/-- A complete loop pass without errors, under a limit at least the
number of pending candidates, writes every pending candidate. -/
theorem chunkLoopF_covers (A : Adapter) (tbl : String)
    (oracle : RMap → LlmBehavior) (now : ℕ) (exist : String → Bool)
    (limit : ℤ) (db0 : List URow) :
    ∀ (fuel : ℕ) (pending : List RMap) (base : ℕ) (st : BatchSt),
    pending.length < fuel →
    (st.processed : ℤ) + pending.length ≤ limit →
    Kinv db0 tbl now st.db →
    (∀ t ∈ pending, OkCand A exist db0 tbl t) →
    (chunkLoopF A tbl oracle now exist limit fuel pending base st).errors
      = st.errors →
    ∀ t ∈ pending, ∀ id, A.getSourceId t = some id →
      DoneId tbl now
        (chunkLoopF A tbl oracle now exist limit fuel pending base st).db id := by
  intro fuel
  induction fuel with
  | zero =>
    intro pending base st hfuel
    exact absurd hfuel (by omega)
  | succ fuel ih =>
    intro pending base st hfuel hlim hK hok herr t ht id hid
    have hlen : 0 < pending.length := List.length_pos.mpr (by
      intro hcon
      rw [hcon] at ht
      exact absurd ht (List.not_mem_nil t))
    have hemp : ¬(pending.isEmpty = true) := by
      cases pending with
      | nil => simp at hlen
      | cons a l => simp
    simp only [chunkLoopF] at herr ⊢
    rw [if_neg hemp] at herr ⊢
    have hcond : limit ≤ 0 ∨ (st.processed : ℤ) < limit := by
      right
      omega
    rw [if_neg (not_not_intro hcond)] at herr ⊢
    have hchunklen : (pending.take 25).length = min 25 pending.length :=
      List.length_take 25 pending
    by_cases hbreak : (limit ≤ ((processChunk A tbl oracle now exist st
        (pending.take 25) base).processed : ℤ) ∨ pending.length ≤ 25)
    · rw [if_pos hbreak] at herr ⊢
      have hle25 : pending.length ≤ 25 := by
        rcases hbreak with hb | hb
        · have hpl := processChunk_processed_le A tbl oracle now exist
            (pending.take 25) st base
          rw [hchunklen] at hpl
          omega
        · exact hb
      have htake : pending.take 25 = pending := List.take_all_of_le hle25
      rw [htake] at herr ⊢
      exact processChunk_covers A tbl oracle now exist db0 pending st base
        hK hok herr t ht id hid
    · rw [if_neg hbreak] at herr ⊢
      push_neg at hbreak
      obtain ⟨hnb, h25⟩ := hbreak
      have hm1 := processChunk_errors_mono A tbl oracle now exist
        (pending.take 25) st base
      have hm2 := chunkLoopF_errors_mono A tbl oracle now exist limit fuel
        (pending.drop 25) (base + 25)
        (processChunk A tbl oracle now exist st (pending.take 25) base)
      have he1 : (processChunk A tbl oracle now exist st (pending.take 25)
          base).errors = st.errors := by
        omega
      have herr2 : (chunkLoopF A tbl oracle now exist limit fuel
          (pending.drop 25) (base + 25)
          (processChunk A tbl oracle now exist st (pending.take 25) base)).errors
          = (processChunk A tbl oracle now exist st (pending.take 25) base).errors := by
        rw [he1]
        exact herr
      have hpl := processChunk_processed_le A tbl oracle now exist
        (pending.take 25) st base
      rw [hchunklen] at hpl
      have hdroplen : (pending.drop 25).length = pending.length - 25 :=
        List.length_drop 25 pending
      have hsplit := List.take_append_drop 25 pending
      have htmem : t ∈ pending.take 25 ++ pending.drop 25 := by
        rw [hsplit]
        exact ht
      rcases List.mem_append.mp htmem with hmem | hmem
      · have hD := processChunk_covers A tbl oracle now exist db0
          (pending.take 25) st base hK
          (fun x hx => hok x (by rw [← hsplit]; exact List.mem_append.mpr (Or.inl hx)))
          he1 t hmem id hid
        exact chunkLoopF_Done A tbl oracle now exist limit fuel
          (pending.drop 25) (base + 25) _ id hD
      · refine ih (pending.drop 25) (base + 25)
          (processChunk A tbl oracle now exist st (pending.take 25) base)
          ?_ ?_ (processChunk_K A tbl oracle now exist db0 _ st base hK)
          (fun x hx => hok x (by rw [← hsplit]; exact List.mem_append.mpr (Or.inr hx)))
          herr2 t hmem id hid
        · omega
        · push_cast
          push_cast at hlim
          omega


/-- One filter step only appends candidates. -/
theorem filterStep_mono (A : Adapter) (tbl : String) (force : Bool)
    (db0 : List URow) (acc : List RMap × ℕ) (t x : RMap)
    (hx : x ∈ acc.1) : x ∈ (filterStep A tbl force db0 acc t).1 := by
  unfold filterStep
  split
  · exact hx
  · split
    · exact List.mem_append.mpr (Or.inl hx)
    · split
      · exact List.mem_append.mpr (Or.inl hx)
      · split
        · split
          · exact hx
          · exact List.mem_append.mpr (Or.inl hx)
        · exact hx

/-- Memberships persist through the filter fold. -/
theorem filterFold_mono (A : Adapter) (tbl : String) (force : Bool)
    (db0 : List URow) :
    ∀ (cands : List RMap) (acc : List RMap × ℕ) (x : RMap),
    x ∈ acc.1 → x ∈ (cands.foldl (filterStep A tbl force db0) acc).1 := by
  intro cands
  induction cands with
  | nil => intro acc x hx; exact hx
  | cons c rest ih =>
    intro acc x hx
    exact ih _ x (filterStep_mono A tbl force db0 acc c x hx)

/-- The filter result grows by at most one element per candidate. -/
theorem filterFold_len (A : Adapter) (tbl : String) (force : Bool)
    (db0 : List URow) :
    ∀ (cands : List RMap) (acc : List RMap × ℕ),
    (cands.foldl (filterStep A tbl force db0) acc).1.length ≤
      acc.1.length + cands.length := by
  intro cands
  induction cands with
  | nil => intro acc; simp
  | cons c rest ih =>
    intro acc
    have hstep : (filterStep A tbl force db0 acc c).1.length ≤ acc.1.length + 1 := by
      unfold filterStep
      split
      · omega
      · split
        · simp
        · split
          · simp
          · split
            · split
              · simp
              · simp
            · simp
    have h2 := ih (filterStep A tbl force db0 acc c)
    have h3 : ((c :: rest).foldl (filterStep A tbl force db0) acc).1.length
        = (rest.foldl (filterStep A tbl force db0)
            (filterStep A tbl force db0 acc c)).1.length := rfl
    rw [h3, List.length_cons]
    omega

/-- The filter fold members come from the accumulator or the candidates. -/
theorem filterFold_sub (A : Adapter) (tbl : String) (force : Bool)
    (db0 : List URow) :
    ∀ (cands : List RMap) (acc : List RMap × ℕ) (x : RMap),
    x ∈ (cands.foldl (filterStep A tbl force db0) acc).1 →
    x ∈ acc.1 ∨ x ∈ cands := by
  intro cands
  induction cands with
  | nil => intro acc x hx; exact Or.inl hx
  | cons c rest ih =>
    intro acc x hx
    rcases ih _ x hx with h | h
    · have hstep : x ∈ acc.1 ∨ x = c := by
        revert h
        unfold filterStep
        split
        · exact Or.inl
        · split
          · intro h
            rcases List.mem_append.mp h with h | h
            · exact Or.inl h
            · exact Or.inr (by simpa using h)
          · split
            · intro h
              rcases List.mem_append.mp h with h | h
              · exact Or.inl h
              · exact Or.inr (by simpa using h)
            · split
              · split
                · exact Or.inl
                · intro h
                  rcases List.mem_append.mp h with h | h
                  · exact Or.inl h
                  · exact Or.inr (by simpa using h)
              · exact Or.inl
      rcases hstep with h2 | h2
      · exact Or.inl h2
      · exact Or.inr (h2 ▸ List.mem_cons_self c rest)
    · exact Or.inr (List.mem_cons_of_mem c h)

/-- A candidate with an unknown id, or one strictly fresher than its
stored row, survives the filter (forceReprocess off). -/
theorem filterFold_keep (A : Adapter) (tbl : String) (db0 : List URow) :
    ∀ (cands : List RMap) (acc : List RMap × ℕ) (t : RMap), t ∈ cands →
    ∀ id, A.getSourceId t = some id →
    (findRow db0 tbl id = none ∨
      (∃ r0 tc te, findRow db0 tbl id = some r0 ∧
        getTs t "updated_at" = some tc ∧ r0.updated_at = some te ∧ te < tc)) →
    t ∈ (cands.foldl (filterStep A tbl false db0) acc).1 := by
  intro cands
  induction cands with
  | nil =>
    intro acc t ht
    exact absurd ht (List.not_mem_nil t)
  | cons c rest ih =>
    intro acc t ht id hid hkeep
    rcases List.mem_cons.mp ht with rfl | hmem
    · have hstep : t ∈ (filterStep A tbl false db0 acc t).1 := by
        unfold filterStep
        rw [hid]
        dsimp only []
        rcases hkeep with hnone | ⟨r0, tc, te, hr0, htc, hte, hlt⟩
        · rw [hnone]
          exact List.mem_append.mpr (Or.inr (List.mem_cons_self t []))
        · rw [hr0]
          dsimp only []
          rw [if_neg (by simp), htc, hte]
          dsimp only []
          rw [if_neg (by omega)]
          exact List.mem_append.mpr (Or.inr (List.mem_cons_self t []))
      exact filterFold_mono A tbl false db0 rest _ t hstep
    · exact ih _ t hmem id hid hkeep

/-- When every candidate is stale against the store, the filter keeps
nothing (forceReprocess off). -/
theorem filterFold_empty (A : Adapter) (tbl : String) (db1 : List URow)
    (cands0 : List RMap)
    (hdrop : ∀ t ∈ cands0, ∀ id, A.getSourceId t = some id →
      ∃ r, findRow db1 tbl id = some r ∧
        (∀ tc te, getTs t "updated_at" = some tc → r.updated_at = some te →
          tc ≤ te)) :
    ∀ (cands : List RMap), (∀ t ∈ cands, t ∈ cands0) →
    ∀ (acc : List RMap × ℕ),
    (cands.foldl (filterStep A tbl false db1) acc).1 = acc.1 := by
  intro cands
  induction cands with
  | nil => intro _ acc; rfl
  | cons c rest ih =>
    intro hsub acc
    have hstep : (filterStep A tbl false db1 acc c).1 = acc.1 := by
      unfold filterStep
      cases hid : A.getSourceId c with
      | none => rfl
      | some id =>
        obtain ⟨r, hr, hok⟩ := hdrop c (hsub c (List.mem_cons_self c rest)) id hid
        dsimp only []
        rw [hr]
        dsimp only []
        rw [if_neg (by simp)]
        cases htc : getTs c "updated_at" with
        | none =>
          cases hte : r.updated_at with
          | none => rfl
          | some te => rfl
        | some tc =>
          cases hte : r.updated_at with
          | none => rfl
          | some te =>
            dsimp only []
            rw [if_pos (hok tc te htc hte)]
    have h3 : ((c :: rest).foldl (filterStep A tbl false db1) acc).1
        = (rest.foldl (filterStep A tbl false db1)
            (filterStep A tbl false db1 acc c)).1 := rfl
    rw [h3, ih (fun x hx => hsub x (List.mem_cons_of_mem c hx))]
    rw [hstep]


/-- Claim C2 as amended: re-running ingest on an unchanged candidate set
with forceReprocess off processes nothing the second time, provided the
first run was complete and clean: the limit covers the whole candidate
set and is positive, the first run reported no errors, and no candidate
carries a freshness timestamp later than the first run's write time.
Without these provisos the original claim fails: a limit smaller than the
candidate set leaves unprocessed candidates for the second run (see the
counterexample).  The uniqueness-violation benign skip is part of the
model (processOne counts a conflicting insert as skipped). -/
theorem ingest_idempotent_amended (A : Adapter) (tbl : String) (limit : ℤ)
    (oracle oracle2 : RMap → LlmBehavior) (now1 now2 : ℕ)
    (cands : List RMap) (db0 : List URow)
    (hlim : (cands.length : ℤ) ≤ limit) (hpos : 0 < limit)
    (herr : (processTendersFromTable A tbl limit false oracle now1 cands db0).errors = 0)
    (hts : ∀ t ∈ cands, ∀ tc, getTs t "updated_at" = some tc → tc ≤ now1) :
    (processTendersFromTable A tbl limit false oracle2 now2 cands
      (processTendersFromTable A tbl limit false oracle now1 cands db0).db).processed
      = 0 := by
  have hfl : ∀ x, x ∈ (filterCands A tbl false db0 cands).1 → x ∈ cands := by
    intro x hx
    rcases filterFold_sub A tbl false db0 cands ([], 0) x hx with h | h
    · exact absurd h (List.not_mem_nil x)
    · exact h
  have hlen1 : (filterCands A tbl false db0 cands).1.length ≤ cands.length := by
    have h := filterFold_len A tbl false db0 cands ([], 0)
    simpa using h
  have hok : ∀ t ∈ (filterCands A tbl false db0 cands).1,
      OkCand A (fun id => decide (id ∈ cands.filterMap A.getSourceId) &&
        (findRow db0 tbl id).isSome) db0 tbl t := by
    intro t ht id hid
    have hmem : id ∈ cands.filterMap A.getSourceId :=
      List.mem_filterMap.mpr ⟨t, hfl t ht, hid⟩
    show (decide (id ∈ cands.filterMap A.getSourceId) &&
      (findRow db0 tbl id).isSome) = (findRow db0 tbl id).isSome
    rw [decide_eq_true hmem, Bool.true_and]
  have hK0 : Kinv db0 tbl now1 db0 := by
    constructor
    · intro id r0 h0
      exact ⟨r0, h0, Or.inl rfl⟩
    · intro id r h0 hr
      rw [h0] at hr
      exact absurd hr (by simp)
  have covers := chunkLoopF_covers A tbl oracle now1
    (fun id => decide (id ∈ cands.filterMap A.getSourceId) &&
      (findRow db0 tbl id).isSome)
    limit db0 ((filterCands A tbl false db0 cands).1.length + 1)
    (filterCands A tbl false db0 cands).1 0
    ⟨db0, 0, 0, (filterCands A tbl false db0 cands).2, 0, 0, 0, 0⟩
    (by omega) (by push_cast; omega) hK0 hok herr
  have hKfin := chunkLoopF_K A tbl oracle now1
    (fun id => decide (id ∈ cands.filterMap A.getSourceId) &&
      (findRow db0 tbl id).isSome)
    limit db0 ((filterCands A tbl false db0 cands).1.length + 1)
    (filterCands A tbl false db0 cands).1 0
    ⟨db0, 0, 0, (filterCands A tbl false db0 cands).2, 0, 0, 0, 0⟩ hK0
  have hgood : ∀ t ∈ cands, ∀ id, A.getSourceId t = some id →
      ∃ r, findRow
          (processTendersFromTable A tbl limit false oracle now1 cands db0).db
          tbl id = some r ∧
        (∀ tc te, getTs t "updated_at" = some tc → r.updated_at = some te →
          tc ≤ te) := by
    intro t ht id hid
    cases hdb : findRow db0 tbl id with
    | none =>
      have hkeep := filterFold_keep A tbl db0 cands ([], 0) t ht id hid
        (Or.inl hdb)
      obtain ⟨r, hr, hu⟩ := covers t hkeep id hid
      refine ⟨r, hr, ?_⟩
      intro tc te htc hte
      rw [hu] at hte
      injection hte with hte
      have h2 := hts t ht tc htc
      omega
    | some r0 =>
      by_cases hkc : ∃ tc te, getTs t "updated_at" = some tc ∧
          r0.updated_at = some te ∧ te < tc
      · obtain ⟨tc0, te0, htc0, hte0, hlt0⟩ := hkc
        have hkeep := filterFold_keep A tbl db0 cands ([], 0) t ht id hid
          (Or.inr ⟨r0, tc0, te0, hdb, htc0, hte0, hlt0⟩)
        obtain ⟨r, hr, hu⟩ := covers t hkeep id hid
        refine ⟨r, hr, ?_⟩
        intro tc te htc hte
        rw [hu] at hte
        injection hte with hte
        have h2 := hts t ht tc htc
        omega
      · obtain ⟨r, hr, hu⟩ := hKfin.1 id r0 hdb
        refine ⟨r, hr, ?_⟩
        intro tc te htc hte
        push_neg at hkc
        rcases hu with hu | hu
        · rw [hu] at hte
          have h2 := hkc tc te htc hte
          omega
        · rw [hu] at hte
          injection hte with hte
          have h2 := hts t ht tc htc
          omega
  have hempty : (filterCands A tbl false
      (processTendersFromTable A tbl limit false oracle now1 cands db0).db
      cands).1 = [] := by
    have h := filterFold_empty A tbl
      (processTendersFromTable A tbl limit false oracle now1 cands db0).db
      cands hgood cands (fun x hx => hx) ([], 0)
    simpa using h
  have h2 : (processTendersFromTable A tbl limit false oracle2 now2 cands
      (processTendersFromTable A tbl limit false oracle now1 cands db0).db).processed
      = (chunkLoop A tbl oracle2 now2
          (fun id => decide (id ∈ cands.filterMap A.getSourceId) &&
            (findRow
              (processTendersFromTable A tbl limit false oracle now1 cands db0).db
              tbl id).isSome)
          limit
          (filterCands A tbl false
            (processTendersFromTable A tbl limit false oracle now1 cands db0).db
            cands).1 0
          ⟨(processTendersFromTable A tbl limit false oracle now1 cands db0).db,
            0, 0,
            (filterCands A tbl false
              (processTendersFromTable A tbl limit false oracle now1 cands db0).db
              cands).2, 0, 0, 0, 0⟩).processed := rfl
  rw [h2, hempty]
  rfl


/-- Witness for the amended claim C2: one candidate, a covering limit, a
clean first run, and a candidate timestamp below the first run time. -/
theorem ingest_idempotent_amended_witness :
    (processTendersFromTable (plainAdapter "src_x") "src_x" 100 false
      oracleBoom 6000 [mkCand 0]
      (processTendersFromTable (plainAdapter "src_x") "src_x" 100 false
        oracleBoom 5000 [mkCand 0] []).db).processed = 0 := by
  refine ingest_idempotent_amended (plainAdapter "src_x") "src_x" 100
    oracleBoom oracleBoom 5000 6000 [mkCand 0] []
    (by norm_num) (by norm_num) (by decide) ?_
  intro t ht tc htc
  rcases List.mem_cons.mp ht with rfl | h
  · have h2 : some 1000 = some tc := htc
    injection h2 with h2
    omega
  · exact absurd h (List.not_mem_nil t)


end TT
